import Mathlib

/-!
The application state-machine engine (`baseapp`).

A shallow embedding of `baseapp/baseapp.go`: the dual-state transaction
pipeline (`runTx`, `CheckTx`, `DeliverTx`) and the block lifecycle
(`InitChain`, `BeginBlock`, `EndBlock`, `Commit`).

Go mutates the engine through a pointer receiver; here every operation takes the
engine value and returns the updated one.  A Go panic that is not recovered is
an `Except.error`; `runTx` recovers its panics and is therefore total.

The collaborators of the engine (ante handler, message handlers, block hooks)
are opaque Go closures.  They are embedded as store programs (`Prog`): finite
trees of `Get` / `Set` / `Delete` requests against the store view bound into
their context, ending in a return value or in a panic.

Three smaller sources follow the engine's definitions, each in its own
namespace: the transaction builder (`Txbuilder`), the stake validator
(`Stake`) and the signatures middleware (`Stack`).  All definitions come first,
the theorems after them.
-/

namespace Baseapp

/-! ## Stores -/

/-- Byte strings (`[]byte`). -/
abbrev Bytes := List Nat

/-- Name of a sub-store (`sdk.StoreKey`). -/
abbrev StoreKey := String

/-- What a multi-store reads: for every sub-store and key the value, if any. -/
abbrev View := StoreKey → Bytes → Option Bytes

/-- The view of a store holding nothing. -/
def emptyView : View := fun _ _ => none

/-- Modelled from the spec: the TransactionalOverlay (`sdk.CacheMultiStore`, whose
implementation is not part of the sources read here).  It owns a buffer of
pending writes keyed by sub-store and key: `none` is "not buffered",
`some none` a buffered deletion, `some (some v)` a buffered value.  A later
write to a key replaces the earlier one. -/
structure CacheMultiStore where
  buf : StoreKey → Bytes → Option (Option Bytes)

/-- A fresh overlay: nothing buffered. -/
def CacheMultiStore.empty : CacheMultiStore := ⟨fun _ _ => none⟩

/-- Overlay `Get`: the own buffer first, falling through to the parent on a miss. -/
def CacheMultiStore.get (c : CacheMultiStore) (parent : View) : View :=
  fun s k => match c.buf s k with
    | some w => w
    | none => parent s k

/-- Overlay `Set`: writes only to the buffer. -/
def CacheMultiStore.set (c : CacheMultiStore) (s : StoreKey) (k v : Bytes) : CacheMultiStore :=
  ⟨fun s1 k1 => if s1 = s ∧ k1 = k then some (some v) else c.buf s1 k1⟩

/-- Overlay `Delete`: buffers a deletion. -/
def CacheMultiStore.delete (c : CacheMultiStore) (s : StoreKey) (k : Bytes) : CacheMultiStore :=
  ⟨fun s1 k1 => if s1 = s ∧ k1 = k then some none else c.buf s1 k1⟩

/-- Overlay `Write()` of a nested overlay: its buffer is merged into the parent
overlay's buffer, the child's entries replacing the parent's. -/
def CacheMultiStore.Write (child parent : CacheMultiStore) : CacheMultiStore :=
  ⟨fun s k => match child.buf s k with
    | some w => some w
    | none => parent.buf s k⟩

/-- Modelled from the spec: the `{version, hash}` pair of a committed version
(`sdk.CommitID`). -/
structure CommitID where
  Version : Int
  Hash : Bytes
deriving DecidableEq, Repr

/-- Request of `Query`: `{path, data, height, proveFlag}`. -/
structure RequestQuery where
  Data : Bytes
  Path : String
  Height : Int
  Prove : Bool
deriving DecidableEq, Repr

/-- Response of `Query`: `{code, value, proof, height}` and the log. -/
structure ResponseQuery where
  Code : Nat
  Log : String
  Value : Bytes
  Proof : Bytes
  Height : Int
deriving DecidableEq, Repr

/-- Modelled from the spec: the root VersionedStore (`sdk.CommitMultiStore`, whose
implementation is not part of the sources read here).  `storesParams` are the
mounted sub-stores, `stores` the loaded ones, `data` the in-memory contents,
`lastCommitID` the last committed `{version, hash}`, `hashOf` the backend's
deterministic content hash and `db` the committed snapshots, newest first.
`querier` is the `Queryable` capability, when the store provides it: the
store's answer to a request, read from its contents and last CommitID. -/
structure CommitMultiStore where
  storesParams : List StoreKey
  stores : List StoreKey
  data : View
  lastCommitID : CommitID
  hashOf : View → Bytes
  db : List (CommitID × View)
  querier : Option (View → CommitID → RequestQuery → ResponseQuery) := none

/-- Whether a sub-store can be obtained from the multi-store (`GetKVStore` gives
a store and not nothing). -/
def CommitMultiStore.hasStore (cms : CommitMultiStore) (s : StoreKey) : Bool :=
  cms.stores.contains s

/-- Overlay `Write()` of a state overlay into the root store's in-memory view. -/
def CacheMultiStore.WriteRoot (c : CacheMultiStore) (cms : CommitMultiStore) : CommitMultiStore :=
  { cms with data := c.get cms.data }

/-- The root store's `Commit()` (CommitAndSnapshot): the version strictly
increments, the hash is the content hash, and the snapshot is kept. -/
def CommitMultiStore.Commit (cms : CommitMultiStore) : CommitID × CommitMultiStore :=
  let commitID : CommitID := { Version := cms.lastCommitID.Version + 1, Hash := cms.hashOf cms.data }
  (commitID, { cms with lastCommitID := commitID, db := (commitID, cms.data) :: cms.db })

/-- The root store's `LoadVersion(ver)`: version 0 is the empty state; any other
version must have been committed, otherwise the load fails. -/
def CommitMultiStore.LoadVersion (cms : CommitMultiStore) (ver : Int) :
    Except String CommitMultiStore :=
  if ver = 0 then
    .ok { cms with stores := cms.storesParams, data := emptyView, lastCommitID := ⟨0, []⟩ }
  else
    match cms.db.find? (fun e => e.1.Version == ver) with
    | some e => .ok { cms with stores := cms.storesParams, data := e.2, lastCommitID := e.1 }
    | none => .error "failed to load rootMultiStore: no such version"

/-- The latest committed version recorded in the backend (0 when none). -/
def CommitMultiStore.latestVersion (cms : CommitMultiStore) : Int :=
  match cms.db with
  | [] => 0
  | e :: _ => e.1.Version

/-- The root store's `LoadLatestVersion()`. -/
def CommitMultiStore.LoadLatestVersion (cms : CommitMultiStore) : Except String CommitMultiStore :=
  cms.LoadVersion cms.latestVersion

/-! ## Store programs: what a handler may do -/

/-- A collaborator's run, as the requests it makes to the store view bound into
its context: it returns, panics, or issues `Get` / `Set` / `Delete` and goes on. -/
inductive Prog (α : Type) where
  | ret (a : α) : Prog α
  | fault (r : String) : Prog α
  | get (s : StoreKey) (k : Bytes) (next : Option Bytes → Prog α) : Prog α
  | set (s : StoreKey) (k v : Bytes) (next : Prog α) : Prog α
  | delete (s : StoreKey) (k : Bytes) (next : Prog α) : Prog α

/-- The panic value of a nil dereference. -/
def nilDeref : String := "runtime error: invalid memory address or nil pointer dereference"

/-- Runs a program against an overlay `c` over `parent`.  `has` tells which
sub-stores exist: touching a sub-store that does not exist panics.  The
overlay is returned as the program left it, also when it panicked midway. -/
def Prog.run {α : Type} (has : StoreKey → Bool) (parent : View) :
    Prog α → CacheMultiStore → Except String α × CacheMultiStore
  | .ret a, c => (.ok a, c)
  | .fault r, c => (.error r, c)
  | .get s k next, c =>
    if has s then (next (c.get parent s k)).run has parent c else (.error nilDeref, c)
  | .set s k v next, c =>
    if has s then next.run has parent (c.set s k v) else (.error nilDeref, c)
  | .delete s k next, c =>
    if has s then next.run has parent (c.delete s k) else (.error nilDeref, c)

/-! ## Errors and results -/

/-- Modelled from the spec: a validator-set change directive (`abci.Validator`). -/
structure Validator where
  PubKey : Bytes
  Power : Int
deriving DecidableEq, Repr

/-- Modelled from the spec: the Result (`sdk.Result`), the structured outcome of one
attempted execution: status code, return data, log, gas requested and used, fee
fields, tags and validator-set change directives. -/
structure Result where
  Code : Nat
  Data : Bytes
  Log : String
  GasWanted : Int
  GasUsed : Int
  FeeAmount : Int
  FeeDenom : String
  Tags : List (Bytes × Bytes)
  ValidatorUpdates : List Validator
deriving DecidableEq, Repr

/-- The zero value of `sdk.Result`. -/
def Result.zero : Result := ⟨0, [], "", 0, 0, 0, "", [], []⟩

/-- The ABCI code of success. -/
def ABCICodeOK : Nat := 0

/-- Modelled from the spec: `Result.IsOK`, the Result indicates success: its status
code is the OK code, zero. -/
def Result.IsOK (r : Result) : Bool := r.Code == ABCICodeOK

/-- The unset codespace. -/
def CodespaceUndefined : Nat := 0

/-- The root codespace. -/
def CodespaceRoot : Nat := 1

/-- Error code: success. -/
def CodeOK : Nat := 0

/-- Error code: internal error. -/
def CodeInternal : Nat := 1

/-- Error code: unknown request. -/
def CodeUnknownRequest : Nat := 6

/-- Modelled from the spec: `sdk.Error` (types/errors.go is not part of the sources
read here): a codespace, a code within it and the message. -/
structure Error where
  codespace : Nat
  code : Nat
  msg : String
deriving DecidableEq, Repr

/-- Modelled from the spec: the status code of an error: the code namespaced by its
codespace; the OK code is 0 in every codespace. -/
def ToABCICode (space code : Nat) : Nat :=
  if code = CodeOK then ABCICodeOK else space * 65536 + code

/-- Modelled from the spec: `Error.WithDefaultCodespace`: the codespace is
defaulted when it is unset, and left as it is when set. -/
def Error.WithDefaultCodespace (e : Error) (cs : Nat) : Error :=
  if e.codespace ≠ CodespaceUndefined then e else { e with codespace := cs }

/-- Modelled from the spec: `Error.Result`: the error carried in the Result's
status code and log message, all other fields zero. -/
def Error.Result (e : Error) : Result :=
  { Result.zero with Code := ToABCICode e.codespace e.code, Log := e.msg }

/-- Modelled from the spec: the internal error, of the root codespace. -/
def ErrInternal (msg : String) : Error := ⟨CodespaceRoot, CodeInternal, msg⟩

/-- Modelled from the spec: the unknown-request error, of the root codespace. -/
def ErrUnknownRequest (msg : String) : Error := ⟨CodespaceRoot, CodeUnknownRequest, msg⟩

/-- The Result that the deferred recovery of `runTx` builds from a panic value
(the stack dump that Go appends is left out). -/
def recovered (r : String) : Result :=
  (ErrInternal ("Recovered: " ++ r)).Result

/-! ## Transactions, contexts, handlers -/

/-- Modelled from the spec: a message (`sdk.Msg`): its type identifier (routing
key, `Type()`), the outcome of its stateless self-validation
(`ValidateBasic()`, `none` for no error), and its business fields. -/
structure Msg where
  typ : String
  ValidateBasic : Option Error
  body : Bytes
deriving DecidableEq, Repr

/-- Modelled from the spec: a transaction (`sdk.Tx`): the message it yields
(`GetMsg()`, `none` for nil) and the rest of its content. -/
structure Tx where
  GetMsg : Option Msg
  body : Bytes
deriving DecidableEq, Repr

/-- A block header (`abci.Header`). -/
structure Header where
  ChainID : String
  Height : Int
  Time : Int
deriving DecidableEq, Repr

/-- The empty header `abci.Header{}`. -/
def Header.empty : Header := ⟨"", 0, 0⟩

/-- Modelled from the spec: the Context (`sdk.Context`), a per-call execution
environment: block header, `checking` flag, transaction bytes and accumulated
values.  Its store view is not a field: the
store view a context is bound to is, in every use below, the overlay of the state
the context was taken from (`setCheckState`, `setDeliverState`) or the nested
overlay bound by `WithMultiStore` in `runTx`, and programs are run against that
overlay. -/
structure Context where
  header : Header
  isCheckTx : Bool
  txBytes : Bytes
  values : List (String × Bytes)
deriving DecidableEq, Repr

/-- Go's `sdk.NewContext(ms, header, isCheckTx, txBytes)`. -/
def NewContext (header : Header) (isCheckTx : Bool) (txBytes : Bytes) : Context :=
  ⟨header, isCheckTx, txBytes, []⟩

/-- Go's `Context.WithTxBytes`: a new context value. -/
def Context.WithTxBytes (c : Context) (txBytes : Bytes) : Context :=
  { c with txBytes := txBytes }

/-- Go's `Context.BlockHeader`. -/
def Context.BlockHeader (c : Context) : Header := c.header

/-- Modelled from the spec: a message handler, `(Context, Message) -> Result`,
reading and writing only through the context's bound store view. -/
abbrev Handler := Context → Msg → Prog Result

/-- Modelled from the spec: an ante handler,
`(Context, Transaction) -> (Context, Result, abort)`; a zero `newCtx`
(`IsZero`) is `none`. -/
abbrev AnteHandler := Context → Tx → Prog (Option Context × Result × Bool)

/-- Modelled from the spec: the Router (router.go is not part of the sources read
here): a registry from message type to handler. -/
structure Router where
  routes : List (String × Handler)

/-- Modelled from the spec: `Route(msgType)` returns the handler or nothing. -/
def Router.Route (r : Router) (path : String) : Option Handler :=
  match r.routes.find? (fun e => e.1 == path) with
  | some e => some e.2
  | none => none

/-! ## The engine -/

/-- An ExecutionState: a semi-persistent overlay over the root store and the
context bound to it. -/
structure state where
  ms : CacheMultiStore
  ctx : Context

/-- Request of `InitChain`. -/
structure RequestInitChain where
  Validators : List Validator
  AppStateBytes : Bytes
deriving DecidableEq, Repr

/-- Request of `BeginBlock`. -/
structure RequestBeginBlock where
  Hash : Bytes
  Header : Header
deriving DecidableEq, Repr

/-- Response of `BeginBlock`. -/
structure ResponseBeginBlock where
  Tags : List (Bytes × Bytes)
deriving DecidableEq, Repr

/-- Request of `EndBlock`. -/
structure RequestEndBlock where
  Height : Int
deriving DecidableEq, Repr

/-- Response of `EndBlock`. -/
structure ResponseEndBlock where
  ValidatorUpdates : List Validator
  Tags : List (Bytes × Bytes)
deriving DecidableEq, Repr

/-- Response of `Commit`. -/
structure ResponseCommit where
  Data : Bytes
deriving DecidableEq, Repr

/-- Response of `Info`. -/
structure ResponseInfo where
  Data : String
  LastBlockHeight : Int
  LastBlockAppHash : Bytes
deriving DecidableEq, Repr

/-- Response of `CheckTx`; `Fee` is the pair of the fee denomination and amount. -/
structure ResponseCheckTx where
  Code : Nat
  Data : Bytes
  Log : String
  GasWanted : Int
  Fee : String × Int
  Tags : List (Bytes × Bytes)
deriving DecidableEq, Repr

/-- Response of `DeliverTx`. -/
structure ResponseDeliverTx where
  Code : Nat
  Data : Bytes
  Log : String
  GasWanted : Int
  GasUsed : Int
  Tags : List (Bytes × Bytes)
deriving DecidableEq, Repr

/-- The ABCI application (`BaseApp`); the logger and the raw database handle
take no part in what is computed and are left out. -/
structure BaseApp where
  name : String
  cms : CommitMultiStore
  router : Router
  txDecoder : Bytes → Except Error Tx
  anteHandler : Option AnteHandler
  initChainer : Option (Context → RequestInitChain → Prog Unit)
  beginBlocker : Option (Context → RequestBeginBlock → Prog ResponseBeginBlock)
  endBlocker : Option (Context → RequestEndBlock → Prog ResponseEndBlock)
  checkState : Option state
  deliverState : Option state
  valUpdates : List Validator

/-- What the engine was observed to call, in order. -/
inductive Event where
  | runTx (isCheckTx : Bool)
  | validateBasic
  | anteHandler
  | route (msgType : String)
  | cacheWrap
  | handler (msgType : String)
  | write
deriving DecidableEq, Repr

/-- The state a transaction call works on: `checkState` or `deliverState`. -/
def BaseApp.getState (app : BaseApp) (isCheckTx : Bool) : Option state :=
  if isCheckTx then app.checkState else app.deliverState

/-- The engine after the overlay of the selected state was mutated into `ms`
(the overlay is shared by reference in Go; the state's context is untouched). -/
def BaseApp.setMS (app : BaseApp) (isCheckTx : Bool) (ms : CacheMultiStore) : BaseApp :=
  if isCheckTx then
    { app with checkState := app.checkState.map (fun st => { st with ms := ms }) }
  else
    { app with deliverState := app.deliverState.map (fun st => { st with ms := ms }) }

/-- What the selected state reads for a key: its overlay over the root store
(`none` when the state is absent). -/
def BaseApp.read (app : BaseApp) (isCheckTx : Bool) (s : StoreKey) (k : Bytes) :
    Option (Option Bytes) :=
  (app.getState isCheckTx).map (fun st => st.ms.get app.cms.data s k)

/-- Go's `setCheckState`: a fresh overlay over the root store and a context bound
to it with the given header. -/
def BaseApp.setCheckState (app : BaseApp) (header : Header) : BaseApp :=
  { app with checkState := some { ms := CacheMultiStore.empty, ctx := NewContext header true [] } }

/-- Go's `setDeliverState`. -/
def BaseApp.setDeliverState (app : BaseApp) (header : Header) : BaseApp :=
  { app with deliverState := some { ms := CacheMultiStore.empty, ctx := NewContext header false [] } }

/-- Go's `initFromStore`: the main store must exist; then the check state is set
with the empty header. -/
def BaseApp.initFromStore (app : BaseApp) (mainKey : StoreKey) : Except String BaseApp :=
  if app.cms.hasStore mainKey then
    .ok (app.setCheckState Header.empty)
  else
    .error "BaseApp expects MultiStore with 'main' KVStore"

/-- Go's `BaseApp.LoadLatestVersion`: the outcome of the store's load is dropped
(a failed load leaves the store as it was), then `initFromStore`. -/
def BaseApp.LoadLatestVersion (app : BaseApp) (mainKey : StoreKey) : Except String BaseApp :=
  let app1 : BaseApp :=
    match app.cms.LoadLatestVersion with
    | .ok cms1 => { app with cms := cms1 }
    | .error _ => app
  app1.initFromStore mainKey

/-- Go's `BaseApp.LoadVersion`. -/
def BaseApp.LoadVersion (app : BaseApp) (version : Int) (mainKey : StoreKey) :
    Except String BaseApp :=
  let app1 : BaseApp :=
    match app.cms.LoadVersion version with
    | .ok cms1 => { app with cms := cms1 }
    | .error _ => app
  app1.initFromStore mainKey

/-- Go's `Info`. -/
def BaseApp.Info (app : BaseApp) : ResponseInfo :=
  { Data := app.name
    LastBlockHeight := app.cms.lastCommitID.Version
    LastBlockAppHash := app.cms.lastCommitID.Hash }

/-- How the ante step of `runTx` ends. -/
inductive AnteOutcome where
  | proceed (ctx : Context)
  | aborted (result : Result)
  | faulted (r : String)

/-- The ante step of `runTx` (`// Run the ante handler.`): with no ante handler
the context goes on as it is; otherwise the ante handler runs directly on the
overlay `st.ms` of the selected state, which keeps what it wrote however the
handler ends. -/
def BaseApp.runAnte (app : BaseApp) (isCheckTx : Bool) (st : state) (ctx : Context) (tx : Tx) :
    AnteOutcome × BaseApp × List Event :=
  match app.anteHandler with
  | none => (.proceed ctx, app, [])
  | some ante =>
    match (ante ctx tx).run app.cms.hasStore app.cms.data st.ms with
    | (.error r, ms1) => (.faulted r, app.setMS isCheckTx ms1, [.anteHandler])
    | (.ok (newCtx, result, abort), ms1) =>
      if abort then
        (.aborted result, app.setMS isCheckTx ms1, [.anteHandler])
      else
        match newCtx with
        | some c => (.proceed c, app.setMS isCheckTx ms1, [.anteHandler])
        | none => (.proceed ctx, app.setMS isCheckTx ms1, [.anteHandler])

/-- The message step of `runTx` (from `// Match route.` on): route lookup, a
nested overlay over the overlay `st.ms` of the selected state, the handler run
on the nested overlay, and `Write()` of the nested overlay only when the result
is OK. -/
def BaseApp.runMsg (app : BaseApp) (isCheckTx : Bool) (st : state) (ctx : Context) (msg : Msg) :
    Result × BaseApp × List Event :=
  let msgType := msg.typ
  match app.router.Route msgType with
  | none =>
    ((ErrUnknownRequest ("Unrecognized Msg type: " ++ msgType)).Result, app, [.route msgType])
  | some handler =>
    match (handler ctx msg).run app.cms.hasStore (st.ms.get app.cms.data) CacheMultiStore.empty with
    | (.error r, _) =>
      (recovered r, app, [.route msgType, .cacheWrap, .handler msgType])
    | (.ok result, msCache) =>
      if result.IsOK then
        (result, app.setMS isCheckTx (msCache.Write st.ms),
          [.route msgType, .cacheWrap, .handler msgType, .write])
      else
        (result, app, [.route msgType, .cacheWrap, .handler msgType])

/-- Go's `runTx`.  Every panic is recovered into an internal-error Result; what
was mutated before the panic stays mutated. -/
def BaseApp.runTx (app : BaseApp) (isCheckTx : Bool) (txBytes : Bytes) (tx : Tx) :
    Result × BaseApp × List Event :=
  match tx.GetMsg with
  | none => ((ErrInternal "Tx.GetMsg() returned nil").Result, app, [])
  | some msg =>
    match msg.ValidateBasic with
    | some err => ((err.WithDefaultCodespace CodespaceRoot).Result, app, [.validateBasic])
    | none =>
      match app.getState isCheckTx with
      | none => (recovered nilDeref, app, [.validateBasic])
      | some st =>
        let ctx := st.ctx.WithTxBytes txBytes
        match app.runAnte isCheckTx st ctx tx with
        | (.aborted result, app1, ev) => (result, app1, .validateBasic :: ev)
        | (.faulted r, app1, ev) => (recovered r, app1, .validateBasic :: ev)
        | (.proceed ctx1, app1, ev) =>
          match app1.getState isCheckTx with
          | none => (recovered nilDeref, app1, .validateBasic :: ev)
          | some st1 =>
            let (result, app2, ev2) := app1.runMsg isCheckTx st1 ctx1 msg
            (result, app2, .validateBasic :: (ev ++ ev2))

/-- Go's `CheckTx`. -/
def BaseApp.CheckTx (app : BaseApp) (txBytes : Bytes) : ResponseCheckTx × BaseApp × List Event :=
  let out : Result × BaseApp × List Event :=
    match app.txDecoder txBytes with
    | .error err => (err.Result, app, [])
    | .ok tx =>
      let (result, app1, ev) := app.runTx true txBytes tx
      (result, app1, .runTx true :: ev)
  let result := out.1
  ({ Code := result.Code
     Data := result.Data
     Log := result.Log
     GasWanted := result.GasWanted
     Fee := (result.FeeDenom, result.FeeAmount)
     Tags := result.Tags }, out.2.1, out.2.2)

/-- Go's `DeliverTx`. -/
def BaseApp.DeliverTx (app : BaseApp) (txBytes : Bytes) :
    ResponseDeliverTx × BaseApp × List Event :=
  let out : Result × BaseApp × List Event :=
    match app.txDecoder txBytes with
    | .error err => (err.Result, app, [])
    | .ok tx =>
      let (result, app1, ev) := app.runTx false txBytes tx
      (result, app1, .runTx false :: ev)
  let result := out.1
  let app1 := out.2.1
  let app2 : BaseApp :=
    if result.IsOK then
      { app1 with valUpdates := app1.valUpdates ++ result.ValidatorUpdates }
    else app1
  ({ Code := result.Code
     Data := result.Data
     Log := result.Log
     GasWanted := result.GasWanted
     GasUsed := result.GasUsed
     Tags := result.Tags }, app2, out.2.2)

/-- Go's `Check` (mostly for testing). -/
def BaseApp.Check (app : BaseApp) (tx : Tx) : Result × BaseApp × List Event :=
  app.runTx true [] tx

/-- Go's `Deliver` (mostly for testing). -/
def BaseApp.Deliver (app : BaseApp) (tx : Tx) : Result × BaseApp × List Event :=
  app.runTx false [] tx

/-- Runs a block hook on the deliver state's overlay; a panic of the hook is not
recovered. -/
def BaseApp.runHook {α : Type} (app : BaseApp) (hook : Context → Prog α) :
    Except String (α × BaseApp) :=
  match app.deliverState with
  | none => .error nilDeref
  | some ds =>
    match (hook ds.ctx).run app.cms.hasStore app.cms.data ds.ms with
    | (.error r, _) => .error r
    | (.ok a, ms1) => .ok (a, app.setMS false ms1)

/-- Go's `InitChain`. -/
def BaseApp.InitChain (app : BaseApp) (req : RequestInitChain) : Except String BaseApp :=
  match app.initChainer with
  | none => .ok app
  | some initChainer =>
    match (app.setDeliverState Header.empty).runHook (fun ctx => initChainer ctx req) with
    | .error r => .error r
    | .ok (_, app1) => .ok app1

/-- Go's `BeginBlock`. -/
def BaseApp.BeginBlock (app : BaseApp) (req : RequestBeginBlock) :
    Except String (ResponseBeginBlock × BaseApp) :=
  let app1 : BaseApp :=
    match app.deliverState with
    | none => app.setDeliverState req.Header
    | some _ => app
  let app2 : BaseApp := { app1 with valUpdates := [] }
  match app2.beginBlocker with
  | none => .ok (⟨[]⟩, app2)
  | some beginBlocker => app2.runHook (fun ctx => beginBlocker ctx req)

/-- Go's `EndBlock`. -/
def BaseApp.EndBlock (app : BaseApp) (req : RequestEndBlock) :
    Except String (ResponseEndBlock × BaseApp) :=
  match app.endBlocker with
  | some endBlocker => app.runHook (fun ctx => endBlocker ctx req)
  | none => .ok ({ ValidatorUpdates := app.valUpdates, Tags := [] }, app)

/-- Go's `Commit`: the deliver overlay is written into the root store, the root
store is committed, the check state is rebuilt over it with the block's header,
and the deliver state is emptied. -/
def BaseApp.Commit (app : BaseApp) : Except String (ResponseCommit × BaseApp) :=
  match app.deliverState with
  | none => .error nilDeref
  | some ds =>
    let header := ds.ctx.BlockHeader
    let cms1 := ds.ms.WriteRoot app.cms
    let (commitID, cms2) := cms1.Commit
    let app1 : BaseApp := { app with cms := cms2 }
    let app2 := app1.setCheckState header
    .ok ({ Data := commitID.Hash }, { app2 with deliverState := none })

/-- A finite sequence of `CheckTx` calls: the engine after the last of them. -/
def BaseApp.CheckTxs (app : BaseApp) : List Bytes → BaseApp
  | [] => app
  | txBytes :: rest => BaseApp.CheckTxs (app.CheckTx txBytes).2.1 rest

/-- Two engines with the same configuration and root store: they can differ
only in their two states and in the accumulated validator updates. -/
def BaseApp.SameConfig (a b : BaseApp) : Prop :=
  a.name = b.name ∧ a.cms = b.cms ∧ a.router = b.router ∧ a.txDecoder = b.txDecoder ∧
  a.anteHandler = b.anteHandler ∧ a.initChainer = b.initChainer ∧
  a.beginBlocker = b.beginBlocker ∧ a.endBlocker = b.endBlocker

/-- Whether a sub-store is mounted on the root store. -/
def CommitMultiStore.mounted (cms : CommitMultiStore) (s : StoreKey) : Bool :=
  cms.storesParams.contains s

/-- The end-to-end scenario on a block with two transactions: load the latest
version, `BeginBlock`, `DeliverTx` twice, `EndBlock`, `Commit`; the engine after
the commit. -/
def scenario (app : BaseApp) (mainKey : StoreKey) (reqBegin : RequestBeginBlock)
    (tx1 tx2 : Bytes) (reqEnd : RequestEndBlock) : Except String BaseApp :=
  match app.LoadLatestVersion mainKey with
  | .error r => .error r
  | .ok app1 =>
    match app1.BeginBlock reqBegin with
    | .error r => .error r
    | .ok (_, app2) =>
      let app3 := (app2.DeliverTx tx1).2.1
      let app4 := (app3.DeliverTx tx2).2.1
      match app4.EndBlock reqEnd with
      | .error r => .error r
      | .ok (_, app5) =>
        match app5.Commit with
        | .error r => .error r
        | .ok (_, app6) => .ok app6

/-- Modelled from the spec: `Error.QueryResult`, the error as a query response:
its status code and log message, all other fields zero. -/
def Error.QueryResult (e : Error) : ResponseQuery :=
  { Code := ToABCICode e.codespace e.code, Log := e.msg, Value := [], Proof := [], Height := 0 }

/-- Go's `Query`: delegated to the root store when it is `Queryable`, the
unknown-request error otherwise.  No field of the engine is assigned. -/
def BaseApp.Query (app : BaseApp) (req : RequestQuery) : ResponseQuery × BaseApp :=
  match app.cms.querier with
  | none => ((ErrUnknownRequest "application doesn't support queries").QueryResult, app)
  | some query => (query app.cms.data app.cms.lastCommitID req, app)

/-- The Result that `DeliverTx` works with (its local `result`): the decode
error's Result, or what `runTx` returns. -/
def BaseApp.deliverResult (app : BaseApp) (txBytes : Bytes) : Result :=
  match app.txDecoder txBytes with
  | .error err => err.Result
  | .ok tx => (app.runTx false txBytes tx).1

/-- A finite sequence of `DeliverTx` calls: the engine after the last of them. -/
def BaseApp.DeliverTxs (app : BaseApp) : List Bytes → BaseApp
  | [] => app
  | txBytes :: rest => BaseApp.DeliverTxs (app.DeliverTx txBytes).2.1 rest

/-- The Results of a finite sequence of `DeliverTx` calls, in delivery order. -/
def BaseApp.deliverResults (app : BaseApp) : List Bytes → List Result
  | [] => []
  | txBytes :: rest =>
    app.deliverResult txBytes :: BaseApp.deliverResults (app.DeliverTx txBytes).2.1 rest

/-- A protocol call with its request. -/
inductive Op where
  | initChain (req : RequestInitChain)
  | beginBlock (req : RequestBeginBlock)
  | checkTx (txBytes : Bytes)
  | deliverTx (txBytes : Bytes)
  | endBlock (req : RequestEndBlock)
  | commit
deriving DecidableEq, Repr

/-- What a protocol call returned. -/
inductive Resp where
  | initChain
  | beginBlock (res : ResponseBeginBlock)
  | checkTx (res : ResponseCheckTx)
  | deliverTx (res : ResponseDeliverTx)
  | endBlock (res : ResponseEndBlock)
  | commit (res : ResponseCommit)
deriving DecidableEq, Repr

/-- One protocol call on the engine: its response and the engine after it, or
the panic that ends the process. -/
def BaseApp.call (app : BaseApp) : Op → Except String (Resp × BaseApp)
  | .initChain req =>
    match app.InitChain req with
    | .error r => .error r
    | .ok app1 => .ok (.initChain, app1)
  | .beginBlock req =>
    match app.BeginBlock req with
    | .error r => .error r
    | .ok (res, app1) => .ok (.beginBlock res, app1)
  | .checkTx txBytes => .ok (.checkTx (app.CheckTx txBytes).1, (app.CheckTx txBytes).2.1)
  | .deliverTx txBytes => .ok (.deliverTx (app.DeliverTx txBytes).1, (app.DeliverTx txBytes).2.1)
  | .endBlock req =>
    match app.EndBlock req with
    | .error r => .error r
    | .ok (res, app1) => .ok (.endBlock res, app1)
  | .commit =>
    match app.Commit with
    | .error r => .error r
    | .ok (res, app1) => .ok (.commit res, app1)

/-- A sequence of protocol calls: the responses in order and the engine after
the last call. -/
def BaseApp.calls (app : BaseApp) : List Op → Except String (List Resp × BaseApp)
  | [] => .ok ([], app)
  | op :: rest =>
    match app.call op with
    | .error r => .error r
    | .ok (res, app1) =>
      match BaseApp.calls app1 rest with
      | .error r => .error r
      | .ok (ress, app2) => .ok (res :: ress, app2)

/-- The hashes that the `Commit` calls among the responses returned, in order. -/
def commitData : List Resp → List Bytes
  | [] => []
  | .commit res :: rest => res.Data :: commitData rest
  | _ :: rest => commitData rest

/-- The concatenation, in order, of the validator updates of those Results
that are OK. -/
def okUpdates : List Result → List Validator
  | [] => []
  | r :: rest => if r.IsOK then r.ValidatorUpdates ++ okUpdates rest else okUpdates rest

/-- Where the consensus connection stands in the call protocol: after the load,
after `InitChain`, inside a block (after `BeginBlock`, while delivering), after
`EndBlock`, after `Commit`. -/
inductive Phase where
  | loaded
  | genesis
  | inBlock
  | ended
  | committed
deriving DecidableEq, Repr

/-- Protocol order: `InitChain` at most once and before any block; per block
`BeginBlock`, `DeliverTx`*, `EndBlock`, `Commit` strictly in that order;
`CheckTx` at any time.  `none` is a call out of order. -/
def Phase.next : Phase → Op → Option Phase
  | p, .checkTx _ => some p
  | .loaded, .initChain _ => some .genesis
  | .loaded, .beginBlock _ => some .inBlock
  | .genesis, .beginBlock _ => some .inBlock
  | .committed, .beginBlock _ => some .inBlock
  | .inBlock, .deliverTx _ => some .inBlock
  | .inBlock, .endBlock _ => some .ended
  | .ended, .commit => some .committed
  | _, _ => none

/-- The phase after a sequence of calls issued in protocol order. -/
def Phase.run : Phase → List Op → Option Phase
  | p, [] => some p
  | p, op :: rest =>
    match p.next op with
    | none => none
    | some q => Phase.run q rest

/-- Whether a deliver state is due in a phase: inside a block until its
`Commit`, and after `InitChain` when an init hook is configured (`hook`). -/
def Phase.delivering (hook : Bool) : Phase → Bool
  | .inBlock => true
  | .ended => true
  | .genesis => hook
  | .loaded => false
  | .committed => false

/-- The calls that dereference `deliverState` unconditionally or under their
hook: `DeliverTx`, `EndBlock`, `Commit`. -/
def Op.usesDeliverState : Op → Bool
  | .deliverTx _ => true
  | .endBlock _ => true
  | .commit => true
  | _ => false

/-- The calls of the mempool connection: `CheckTx`. -/
def Op.isCheck : Op → Bool
  | .checkTx _ => true
  | _ => false

/-- The responses of the mempool connection. -/
def Resp.isCheck : Resp → Bool
  | .checkTx _ => true
  | _ => false

/-- The engine with its check state replaced. -/
def BaseApp.withCheck (app : BaseApp) (c : Option state) : BaseApp :=
  { app with checkState := c }

/-- What the consensus connection sees of a run: the responses to its own calls
in order, and the engine without regard to the check state. -/
def consensusView (out : List Resp × BaseApp) : List Resp × BaseApp :=
  (out.1.filter (fun r => !r.isCheck), out.2.withCheck none)

/-- The context the deliver state is bound to, when there is a deliver state. -/
def BaseApp.deliverCtx (app : BaseApp) : Option Context :=
  app.deliverState.map (fun st => st.ctx)

/-! ## A small application, to run the engine on concrete inputs -/

/-- A root store with the single sub-store `main`, loaded and empty. -/
def exCms : CommitMultiStore :=
  { storesParams := ["main"], stores := ["main"], data := emptyView,
    lastCommitID := ⟨0, []⟩, hashOf := fun _ => [], db := [] }

/-- A valid message of the given type. -/
def exMsg (typ : String) : Msg := ⟨typ, none, []⟩

/-- A transaction carrying a valid message of the given type. -/
def exTx (typ : String) : Tx := ⟨some (exMsg typ), []⟩

/-- A message that fails its stateless validation with the given error. -/
def exBadMsg (e : Error) : Msg := ⟨"good", some e, []⟩

/-- A handler that writes `main[1] = [v]` and returns a Result with the code. -/
def exHandler (v code : Nat) : Handler :=
  fun _ _ => .set "main" [1] [v] (.ret { Result.zero with Code := code })

/-- An ante handler that writes `main[9] = [7]` and returns with the abort flag,
a zero context and a Result of code 4 when aborting. -/
def exAnte (abort : Bool) : AnteHandler :=
  fun _ _ => .set "main" [9] [7]
    (.ret (none, { Result.zero with Code := if abort then 4 else 0 }, abort))

/-- A decoder: `[1]` is a `good` message, `[2]` a `bad` one, `[3]` one of an
unrouted type, `[4]` one that fails validation; all else fails to decode. -/
def exDecoder : Bytes → Except Error Tx
  | [1] => .ok (exTx "good")
  | [2] => .ok (exTx "bad")
  | [3] => .ok (exTx "nowhere")
  | [4] => .ok ⟨some (exBadMsg ⟨0, 3, "invalid"⟩), []⟩
  | _ => .error ⟨CodespaceRoot, 2, "cannot decode"⟩

/-- A fresh state with the empty header. -/
def exState (isCheckTx : Bool) : state :=
  ⟨CacheMultiStore.empty, NewContext Header.empty isCheckTx []⟩

/-- An engine over `exCms` routing `good` to a succeeding and `bad` to a failing
handler, with both states present and the given ante handler. -/
def exApp (ante : Option AnteHandler) : BaseApp :=
  { name := "example"
    cms := exCms
    router := ⟨[("good", exHandler 1 0), ("bad", exHandler 2 5)]⟩
    txDecoder := exDecoder
    anteHandler := ante
    initChainer := none
    beginBlocker := none
    endBlocker := none
    checkState := some (exState true)
    deliverState := some (exState false)
    valUpdates := [] }

/-- An engine in an open block whose check state holds the speculative write
`main[1] = [5]` and whose deliver state holds the delivered write `main[1] = [1]`. -/
def exOpenBlock : BaseApp :=
  { exApp none with
    checkState := some ⟨CacheMultiStore.empty.set "main" [1] [5], NewContext Header.empty true []⟩
    deliverState :=
      some ⟨CacheMultiStore.empty.set "main" [1] [1], NewContext ⟨"chain", 1, 0⟩ false []⟩ }

/-- An engine as constructed and mounted, before any load: no state yet, the
sub-store `main` mounted but not loaded. -/
def exFresh (ante : Option AnteHandler) : BaseApp :=
  { exApp ante with
    cms := { exCms with stores := [] }
    checkState := none
    deliverState := none }

/-- An init hook that writes `main[1] = [1]`. -/
def exInitChainer : Context → RequestInitChain → Prog Unit :=
  fun _ _ => .set "main" [1] [1] (.ret ())

/-- A loaded engine before `InitChain`, with the init hook `exInitChainer` and no
deliver state. -/
def exGenesis : BaseApp :=
  { exApp none with
    initChainer := some exInitChainer
    deliverState := none }

/-- A handler that writes `main[1] = [3]` and then panics. -/
def exFaultyHandler : Handler :=
  fun _ _ => .set "main" [1] [3] (.fault "boom")

/-- The example engine with the type `good` routed to `exFaultyHandler`. -/
def exFaulty : BaseApp :=
  { exApp (some (exAnte false)) with router := ⟨[("good", exFaultyHandler)]⟩ }

/-- A handler that returns OK with one validator update of the given power. -/
def exValHandler (power : Int) (code : Nat) : Handler :=
  fun _ _ => .ret { Result.zero with Code := code, ValidatorUpdates := [⟨[1], power⟩] }

/-- The example engine with `good` routed to a handler that succeeds with a
validator update of power 10 and `bad` to one that fails with one of power 20,
and stale validator updates accumulated. -/
def exVal : BaseApp :=
  { exApp none with
    router := ⟨[("good", exValHandler 10 0), ("bad", exValHandler 20 5)]⟩
    deliverState := none
    valUpdates := [⟨[9], 99⟩] }

/-- A root store that answers every query with its last committed version. -/
def exQueryCms : CommitMultiStore :=
  { exCms with querier := some (fun _ cid req => ⟨0, "", req.Data, [], cid.Version⟩) }

/-- The example engine with a check state that holds the speculative write
`main[1] = [5]`. -/
def exStaleCheck : BaseApp :=
  { exApp none with
    checkState := some ⟨CacheMultiStore.empty.set "main" [1] [5], NewContext Header.empty true []⟩ }

/-- A begin hook that records the height of the header it is given as
`main[7]`. -/
def exHeightBeginBlocker : Context → RequestBeginBlock → Prog ResponseBeginBlock :=
  fun ctx _ => .set "main" [7] [ctx.BlockHeader.Height.toNat] (.ret ⟨[]⟩)

/-- A handler that records the height of the header it is given as `main[8]`. -/
def exHeightHandler : Handler :=
  fun ctx _ => .set "main" [8] [ctx.BlockHeader.Height.toNat] (.ret Result.zero)

/-- A loaded engine before `InitChain` with the init hook `exInitChainer`, whose
begin hook and `good` handler record the height of the header they are given. -/
def exHeights : BaseApp :=
  { exGenesis with
    beginBlocker := some exHeightBeginBlocker
    router := ⟨[("good", exHeightHandler)]⟩ }

/-- An ante handler that lets every transaction through and hands back its
context with the header replaced by one of height 5. -/
def exRebindingAnte : AnteHandler :=
  fun ctx _ => .ret (some { ctx with header := ⟨"other", 5, 0⟩ }, Result.zero, false)

/-- The engine `exHeights` with the ante handler `exRebindingAnte`. -/
def exHeightsAnte : BaseApp :=
  { exHeights with anteHandler := some exRebindingAnte }

end Baseapp

/-! ## The transaction builder (`x/auth/client/txbuilder`) -/

namespace Txbuilder

/-- A coin (`sdk.Coin`): the declaration is not part of the sources read here; a
denomination and an amount. -/
structure Coin where
  Denom : String
  Amount : Int
deriving DecidableEq, Repr

/-- The zero value `sdk.Coin{}`. -/
def Coin.zero : Coin := ⟨"", 0⟩

/-- A fee (`auth.StdFee`): the coins and the gas. -/
structure StdFee where
  Amount : List Coin
  Gas : Int
deriving DecidableEq, Repr

/-- The fee constructor `auth.NewStdFee(gas, amount...)`, whose declaration is
not part of the sources read here: the fee of the given gas and coins. -/
def NewStdFee (gas : Int) (amount : List Coin) : StdFee := ⟨amount, gas⟩

/-- The message to be signed (`auth.StdSignMsg`). -/
structure StdSignMsg where
  ChainID : String
  AccountNumber : Int
  Sequence : Int
  Fee : StdFee
  Msgs : List Baseapp.Msg
  Memo : String
deriving DecidableEq, Repr

/-- Go's `TxBuilder` (the codec takes no part in `Build`). -/
structure TxBuilder where
  AccountNumber : Int
  Sequence : Int
  Gas : Int
  ChainID : String
  Memo : String
  Fee : String
deriving DecidableEq, Repr

/-- Go's `TxBuilder.Build`.  `parseCoin` is `sdk.ParseCoin`, whose declaration is
not part of the sources read here. -/
def TxBuilder.Build (parseCoin : String → Except String Coin) (bldr : TxBuilder)
    (msgs : List Baseapp.Msg) : Except String StdSignMsg :=
  let chainID := bldr.ChainID
  if chainID = "" then
    .error "chain ID required but not specified"
  else
    let parsed : Except String Coin :=
      if bldr.Fee ≠ "" then
        match parseCoin bldr.Fee with
        | .error err => .error err
        | .ok parsedFee => .ok parsedFee
      else .ok Coin.zero
    match parsed with
    | .error err => .error err
    | .ok fee =>
      .ok { ChainID := bldr.ChainID
            AccountNumber := bldr.AccountNumber
            Sequence := bldr.Sequence
            Memo := bldr.Memo
            Msgs := msgs
            Fee := NewStdFee bldr.Gas [fee] }

/-- The command-line flags that `NewTxBuilderFromCLI` reads through Viper. -/
structure Flags where
  ChainID : String
  Gas : Int
  AccountNumber : Int
  Sequence : Int
  Fee : String
  Memo : String
deriving DecidableEq, Repr

/-- Go's `NewTxBuilderFromCLI`.  `defaultChainID` is what the call
`defaultChainID()` returns, the value and the error (`none` for nil); its
declaration is not part of the sources read here. -/
def NewTxBuilderFromCLI (flags : Flags) (defaultChainID : String × Option String) : TxBuilder :=
  let chainID := flags.ChainID
  let chainID :=
    if chainID = "" then
      match defaultChainID.2 with
      | some _ => defaultChainID.1
      | none => chainID
    else chainID
  { ChainID := chainID
    Gas := flags.Gas
    AccountNumber := flags.AccountNumber
    Sequence := flags.Sequence
    Fee := flags.Fee
    Memo := flags.Memo }

/-- A coin parser for the examples: `"1steak"` is one steak, all else fails. -/
def exParseCoin : String → Except String Coin
  | "1steak" => .ok ⟨"steak", 1⟩
  | _ => .error "invalid coin expression"

end Txbuilder

/-! ## Validators (`x/stake/validator.go`) -/

namespace Stake

/-- The bond status (`sdk.BondStatus`); its declaration is not part of the
sources read here. -/
inductive BondStatus where
  | Unbonded
  | Unbonding
  | Bonded
  | Revoked
deriving DecidableEq, Repr

/-- The kind of pool shares (`PoolShareKind`); its declaration is not part of
the sources read here. -/
inductive PoolShareKind where
  | ShareUnbonded
  | ShareUnbonding
  | ShareBonded
deriving DecidableEq, Repr

/-- Pool shares (`PoolShares`): a kind and an amount, an exact rational
(`sdk.Rat`). -/
structure PoolShares where
  Kind : PoolShareKind
  Amount : ℚ
deriving DecidableEq

/-- `PoolShares.Equal`: the same kind and the same amount. -/
def PoolShares.Equal (s s2 : PoolShares) : Bool :=
  s.Kind == s2.Kind && decide (s.Amount = s2.Amount)

/-- `NewUnbondedShares`. -/
def NewUnbondedShares (amount : ℚ) : PoolShares := ⟨.ShareUnbonded, amount⟩

/-- Go's `Description`. -/
structure Description where
  Moniker : String
  Identity : String
  Website : String
  Details : String
deriving DecidableEq, Repr

/-- Go's `NewDescription`. -/
def NewDescription (moniker identity website details : String) : Description :=
  { Moniker := moniker, Identity := identity, Website := website, Details := details }

/-- Go's `Validator`.  Addresses are byte strings.  The public key is a value
of the interface type `crypto.PubKey`: `none` is the nil interface, `some` a
key with its bytes.  Rationals (`sdk.Rat`) are exact, coins (`sdk.Coins`) are
lists of denomination and amount. -/
structure Validator where
  Status : BondStatus
  Address : List Nat
  PubKey : Option (List Nat)
  PShares : PoolShares
  DelegatorShares : ℚ
  Description : Description
  BondHeight : Int
  BondIntraTxCounter : Int
  ProposerRewardPool : List (String × Int)
  Commission : ℚ
  CommissionMax : ℚ
  CommissionChangeRate : ℚ
  CommissionChangeToday : ℚ
  PrevBondedShares : ℚ
deriving DecidableEq

/-- Go's `NewValidator`. -/
def NewValidator (address : List Nat) (pubKey : Option (List Nat)) (description : Description) :
    Validator :=
  { Status := .Unbonded
    Address := address
    PubKey := pubKey
    PShares := NewUnbondedShares 0
    DelegatorShares := 0
    Description := description
    BondHeight := 0
    BondIntraTxCounter := 0
    ProposerRewardPool := []
    Commission := 0
    CommissionMax := 0
    CommissionChangeRate := 0
    CommissionChangeToday := 0
    PrevBondedShares := 0 }

/-- `crypto.PubKey.Equals` called on a key (the key types are declared outside
the sources read here): true exactly when the other value is the same key; the
nil interface is no key. -/
def PubKeyEquals (key : List Nat) (other : Option (List Nat)) : Bool :=
  other == some key

/-- Go's `Validator.equal`: only the vitals.  `&&` evaluates from the left and
stops at the first false operand: the statuses are compared first, and only
when they agree `Equals` is called on the receiver's public key, a method call
that panics when that key is the nil interface.  `bytes.Equal`, `Rat.Equal`,
`PoolShares.Equal` and `Coins.IsEqual` compare by value and return. -/
def Validator.equal (v c2 : Validator) : Except String Bool :=
  if v.Status = c2.Status then
    match v.PubKey with
    | none => .error Baseapp.nilDeref
    | some key =>
      .ok (PubKeyEquals key c2.PubKey &&
        v.Address == c2.Address &&
        v.PShares.Equal c2.PShares &&
        decide (v.DelegatorShares = c2.DelegatorShares) &&
        v.Description == c2.Description &&
        v.ProposerRewardPool == c2.ProposerRewardPool &&
        decide (v.Commission = c2.Commission) &&
        decide (v.CommissionMax = c2.CommissionMax) &&
        decide (v.CommissionChangeRate = c2.CommissionChangeRate) &&
        decide (v.CommissionChangeToday = c2.CommissionChangeToday) &&
        decide (v.PrevBondedShares = c2.PrevBondedShares))
  else
    .ok false

/-- The operations of the pool that the validator code calls (`pool.go` and
`shares.go` are not part of the sources read here): removing shares gives the
pool and the tokens removed, adding tokens gives the pool and the shares
issued, `toBonded` (`PoolShares.ToBonded`) converts pool shares to equivalent
bonded shares or panics. -/
structure PoolOps (Pool : Type) where
  removeSharesUnbonded : Pool → ℚ → Pool × Int
  removeSharesUnbonding : Pool → ℚ → Pool × Int
  removeSharesBonded : Pool → ℚ → Pool × Int
  addTokensUnbonded : Pool → Int → Pool × PoolShares
  addTokensUnbonding : Pool → Int → Pool × PoolShares
  addTokensBonded : Pool → Int → Pool × PoolShares
  toBonded : PoolShares → Pool → Except String PoolShares

/-- Go's `Validator.UpdateSharesLocation`. -/
def Validator.UpdateSharesLocation {Pool : Type} (ops : PoolOps Pool) (v : Validator) (p : Pool) :
    Validator × Pool :=
  let removed : Option (Pool × Int) :=
    match v.PShares.Kind with
    | .ShareUnbonded =>
      if v.Status = .Unbonded then none else some (ops.removeSharesUnbonded p v.PShares.Amount)
    | .ShareUnbonding =>
      if v.Status = .Unbonding then none else some (ops.removeSharesUnbonding p v.PShares.Amount)
    | .ShareBonded =>
      if v.Status = .Bonded then none else some (ops.removeSharesBonded p v.PShares.Amount)
  match removed with
  | none => (v, p)
  | some (p1, tokens) =>
    match v.Status with
    | .Unbonded => ({ v with PShares := (ops.addTokensUnbonded p1 tokens).2 },
        (ops.addTokensUnbonded p1 tokens).1)
    | .Revoked => ({ v with PShares := (ops.addTokensUnbonded p1 tokens).2 },
        (ops.addTokensUnbonded p1 tokens).1)
    | .Unbonding => ({ v with PShares := (ops.addTokensUnbonding p1 tokens).2 },
        (ops.addTokensUnbonding p1 tokens).1)
    | .Bonded => ({ v with PShares := (ops.addTokensBonded p1 tokens).2 },
        (ops.addTokensBonded p1 tokens).1)

/-- The methods of `sdk.Rat` that the exchange rate calls (`types/rational.go`
is not part of the sources read here): the zero test `IsZero`, and the
quotient `Quo`, which returns or panics. -/
structure RatOps where
  IsZero : ℚ → Bool
  Quo : ℚ → ℚ → Except String ℚ

/-- Go's `Validator.DelegatorShareExRate`; `sdk.OneRat()` is the rational one. -/
def Validator.DelegatorShareExRate {Pool : Type} (rat : RatOps) (ops : PoolOps Pool)
    (v : Validator) (p : Pool) : Except String ℚ :=
  if rat.IsZero v.DelegatorShares then
    .ok 1
  else
    match ops.toBonded v.PShares p with
    | .error r => .error r
    | .ok bonded =>
      let eqBondedShares := bonded.Amount
      rat.Quo eqBondedShares v.DelegatorShares

/-- Exact rational arithmetic for the examples: zero is the rational zero, and
dividing by it panics. -/
def exRatOps : RatOps :=
  { IsZero := fun r => decide (r = 0)
    Quo := fun r r2 => if r2 = 0 then .error "division by zero" else .ok (r / r2) }

/-- Rational arithmetic for the examples whose zero test reads the numerator
through a 64-bit integer: a numerator that is a multiple of `2 ^ 64` counts as
zero. -/
def exRatOps64 : RatOps :=
  { exRatOps with IsZero := fun r => decide (r.num % 2 ^ 64 = 0) }

/-- A pool for the examples: a number of tokens; shares and tokens trade one
for one. -/
def exPoolOps : PoolOps Int :=
  { removeSharesUnbonded := fun p a => (p - a.floor, a.floor)
    removeSharesUnbonding := fun p a => (p - a.floor, a.floor)
    removeSharesBonded := fun p a => (p - a.floor, a.floor)
    addTokensUnbonded := fun p t => (p + t, ⟨.ShareUnbonded, t⟩)
    addTokensUnbonding := fun p t => (p + t, ⟨.ShareUnbonding, t⟩)
    addTokensBonded := fun p t => (p + t, ⟨.ShareBonded, t⟩)
    toBonded := fun s _ => .ok ⟨.ShareBonded, s.Amount⟩ }

/-- A pool for the examples that is given by its bonded exchange rate: the
conversion to bonded shares divides by that rate and panics when it is zero. -/
def exRatePoolOps : PoolOps ℚ :=
  { removeSharesUnbonded := fun p a => (p, a.floor)
    removeSharesUnbonding := fun p a => (p, a.floor)
    removeSharesBonded := fun p a => (p, a.floor)
    addTokensUnbonded := fun p t => (p, ⟨.ShareUnbonded, t⟩)
    addTokensUnbonding := fun p t => (p, ⟨.ShareUnbonding, t⟩)
    addTokensBonded := fun p t => (p, ⟨.ShareBonded, t⟩)
    toBonded := fun s p =>
      match exRatOps.Quo s.Amount p with
      | .error r => .error r
      | .ok a => .ok ⟨.ShareBonded, a⟩ }

end Stake

/-! ## The signatures middleware (`stack/signature.go`)

The lines the Go code prints to standard output are left out. -/

namespace Stack

/-- A public key (`crypto.PubKey`) with the address its `Address()` gives. -/
structure PubKey where
  key : List Nat
  Address : List Nat
deriving DecidableEq, Repr

/-- An actor (`basecoin.Actor`): the application that vouches and an address. -/
structure Actor where
  App : String
  Address : List Nat
deriving DecidableEq, Repr

/-- The name of the signatures middleware. -/
def NameSigs : String := "sigs"

/-- Go's `SigPerm`: the actor of the signatures middleware for an address. -/
def SigPerm (addr : List Nat) : Actor := ⟨NameSigs, addr⟩

/-- A transaction (`basecoin.Tx`) by the layer it unwraps to: nothing (the zero
`Tx{}`), a layer that is not `Signed`, or a `Signed` layer with what its
`Signers()` returns (the keys and the error, `none` for nil) and its `Next()`. -/
inductive Tx where
  | zero : Tx
  | other (payload : List Nat) : Tx
  | signed (signers : List PubKey) (err : Option String) (next : Tx) : Tx
deriving DecidableEq, Repr

/-- The result of a handler (`basecoin.Result`). -/
structure Result where
  Data : List Nat
  Log : String
deriving DecidableEq, Repr

/-- The empty Result (the zero value of the named return `res`). -/
def Result.empty : Result := ⟨[], ""⟩

/-- The error `errors.Unauthorized()`. -/
def Unauthorized : String := "Unauthorized"

/-- A context (`basecoin.Context`): the permissions granted so far and the
chain it runs for. -/
structure Context where
  chainID : String
  perms : List Actor
deriving DecidableEq, Repr

/-- `Context.WithPermissions`: a context with the permissions added. -/
def Context.WithPermissions (ctx : Context) (perms : List Actor) : Context :=
  { ctx with perms := ctx.perms ++ perms }

/-- The store handed through the stack (`types.KVStore`). -/
abbrev Store := List Nat → Option (List Nat)

/-- The next handler of the stack (`basecoin.Checker`, `basecoin.Deliver`): from
context, store and transaction to result, error and the store it leaves. -/
abbrev Next := Context → Store → Tx → (Result × Option String) × Store

/-- Go's `getSigners`: the signers, the inner transaction and the error. -/
def getSigners (tx : Tx) : List PubKey × Tx × Option String :=
  match tx with
  | .signed sig err next => (sig, next, err)
  | _ => ([], .zero, some Unauthorized)

/-- Go's `addSigners`: one permission per signer, in order. -/
def addSigners (ctx : Context) (sigs : List PubKey) : Context :=
  ctx.WithPermissions (sigs.map (fun s => SigPerm s.Address))

/-- Go's `Signatures.CheckTx`: result and error, the store afterwards, and the
calls made to the next handler (context and transaction), in order. -/
def CheckTx (ctx : Context) (store : Store) (tx : Tx) (next : Next) :
    (Result × Option String) × Store × List (Context × Tx) :=
  match getSigners tx with
  | (_, _, some err) => ((Result.empty, some err), store, [])
  | (sigs, tnext, none) =>
    let ctx2 := addSigners ctx sigs
    ((next ctx2 store tnext).1, (next ctx2 store tnext).2, [(ctx2, tnext)])

/-- Go's `Signatures.DeliverTx`. -/
def DeliverTx (ctx : Context) (store : Store) (tx : Tx) (next : Next) :
    (Result × Option String) × Store × List (Context × Tx) :=
  match getSigners tx with
  | (_, _, some err) => ((Result.empty, some err), store, [])
  | (sigs, tnext, none) =>
    let ctx2 := addSigners ctx sigs
    ((next ctx2 store tnext).1, (next ctx2 store tnext).2, [(ctx2, tnext)])

/-- A next handler for the examples: it answers with the number of permissions
it was given and writes that number under the key `[0]`. -/
def exNext : Next :=
  fun ctx store _ => ((⟨[ctx.perms.length], "ok"⟩, none),
    fun k => if k = [0] then some [ctx.perms.length] else store k)

end Stack

namespace Baseapp

/-! ## Basic facts about the state accessors -/

theorem getState_setMS (app : BaseApp) (b : Bool) (ms : CacheMultiStore) :
    (app.setMS b ms).getState b = (app.getState b).map (fun st => { st with ms := ms }) := by
  cases b <;> simp [BaseApp.setMS, BaseApp.getState]

theorem getState_setMS_other (app : BaseApp) (b : Bool) (ms : CacheMultiStore) :
    (app.setMS b ms).getState (!b) = app.getState (!b) := by
  cases b <;> simp [BaseApp.setMS, BaseApp.getState]

theorem cms_setMS (app : BaseApp) (b : Bool) (ms : CacheMultiStore) :
    (app.setMS b ms).cms = app.cms := by
  cases b <;> simp [BaseApp.setMS]

theorem router_setMS (app : BaseApp) (b : Bool) (ms : CacheMultiStore) :
    (app.setMS b ms).router = app.router := by
  cases b <;> simp [BaseApp.setMS]

theorem valUpdates_setMS (app : BaseApp) (b : Bool) (ms : CacheMultiStore) :
    (app.setMS b ms).valUpdates = app.valUpdates := by
  cases b <;> simp [BaseApp.setMS]

theorem read_setMS (app : BaseApp) (b : Bool) (ms : CacheMultiStore) (s : StoreKey) (k : Bytes) :
    (app.setMS b ms).read b s k = (app.getState b).map (fun _ => ms.get app.cms.data s k) := by
  cases b <;> cases h : app.checkState <;> cases h2 : app.deliverState <;>
    simp [BaseApp.setMS, BaseApp.getState, BaseApp.read, h, h2]

theorem read_setMS_other (app : BaseApp) (b : Bool) (ms : CacheMultiStore) (s : StoreKey)
    (k : Bytes) : (app.setMS b ms).read (!b) s k = app.read (!b) s k := by
  cases b <;> simp [BaseApp.setMS, BaseApp.getState, BaseApp.read]

/-- Reading through a written-back nested overlay is reading the nested overlay
over the parent overlay. -/
theorem get_Write (child parent : CacheMultiStore) (root : View) (s : StoreKey) (k : Bytes) :
    (child.Write parent).get root s k = child.get (parent.get root) s k := by
  simp only [CacheMultiStore.get, CacheMultiStore.Write]
  cases child.buf s k <;> rfl

/-- The ante step leaves the root store, the router and the other state alone,
and keeps the selected state present. -/
theorem runAnte_frame (app : BaseApp) (b : Bool) (st : state) (ctx : Context) (tx : Tx) :
    (app.runAnte b st ctx tx).2.1.cms = app.cms ∧
    (app.runAnte b st ctx tx).2.1.router = app.router ∧
    (app.runAnte b st ctx tx).2.1.valUpdates = app.valUpdates ∧
    (app.runAnte b st ctx tx).2.1.getState (!b) = app.getState (!b) ∧
    ((app.runAnte b st ctx tx).2.1.getState b).isSome = (app.getState b).isSome := by
  unfold BaseApp.runAnte
  cases app.anteHandler with
  | none => simp
  | some ante =>
    simp only
    rcases h : (ante ctx tx).run app.cms.hasStore app.cms.data st.ms with ⟨out, ms1⟩
    cases out with
    | error r =>
      simp [cms_setMS, router_setMS, valUpdates_setMS, getState_setMS_other, getState_setMS]
    | ok v =>
      obtain ⟨newCtx, result, abort⟩ := v
      cases abort <;> cases newCtx <;>
        simp [cms_setMS, router_setMS, valUpdates_setMS, getState_setMS_other, getState_setMS]

/-- When the message is valid and the ante step lets the transaction through,
`runTx` is the message step on the engine the ante step left. -/
theorem runTx_proceed (app : BaseApp) (b : Bool) (txBytes : Bytes) (tx : Tx) (msg : Msg)
    (st st1 : state) (ctx1 : Context) (app1 : BaseApp) (ev : List Event)
    (hmsg : tx.GetMsg = some msg) (hvalid : msg.ValidateBasic = none)
    (hst : app.getState b = some st)
    (hante : app.runAnte b st (st.ctx.WithTxBytes txBytes) tx = (.proceed ctx1, app1, ev))
    (hst1 : app1.getState b = some st1) :
    app.runTx b txBytes tx =
      ((app1.runMsg b st1 ctx1 msg).1, (app1.runMsg b st1 ctx1 msg).2.1,
        .validateBasic :: (ev ++ (app1.runMsg b st1 ctx1 msg).2.2)) := by
  simp [BaseApp.runTx, hmsg, hvalid, hst, hante, hst1]

/-- What the ante step returns determines the engine it leaves: root store and
router are those of the engine before the call. -/
theorem runAnte_cms_router (app : BaseApp) (b : Bool) (st : state) (ctx : Context) (tx : Tx)
    (out : AnteOutcome) (app1 : BaseApp) (ev : List Event)
    (h : app.runAnte b st ctx tx = (out, app1, ev)) :
    app1.cms = app.cms ∧ app1.router = app.router ∧ app1.valUpdates = app.valUpdates ∧
      app1.getState (!b) = app.getState (!b) := by
  have hf := runAnte_frame app b st ctx tx
  rw [h] at hf
  exact ⟨hf.1, hf.2.1, hf.2.2.1, hf.2.2.2.1⟩

/-! ## Atomicity of the message step -/

/-- C1 (atomicity).  For either state (`isCheckTx` true or false): when the
message passes stateless validation, the ante step does not abort (leaving the
engine `app1`, whose selected state `st1` is the state immediately before the
handler is invoked), the message type routes to `handler`, and the handler
returns a Result whose code is not OK, then `runTx` returns that Result and the
engine it leaves is exactly `app1`: every key of every sub-store reads in the
owning state as it did immediately before the handler was invoked, whatever the
handler wrote into its nested overlay `msCache`. -/
theorem runTx_failed_handler_writes_discarded
    (app : BaseApp) (isCheckTx : Bool) (txBytes : Bytes) (tx : Tx) (msg : Msg)
    (st st1 : state) (ctx1 : Context) (app1 : BaseApp) (ev : List Event)
    (handler : Handler) (result : Result) (msCache : CacheMultiStore)
    (hmsg : tx.GetMsg = some msg) (hvalid : msg.ValidateBasic = none)
    (hst : app.getState isCheckTx = some st)
    (hante : app.runAnte isCheckTx st (st.ctx.WithTxBytes txBytes) tx = (.proceed ctx1, app1, ev))
    (hst1 : app1.getState isCheckTx = some st1)
    (hroute : app.router.Route msg.typ = some handler)
    (hrun : (handler ctx1 msg).run app.cms.hasStore (st1.ms.get app.cms.data)
      CacheMultiStore.empty = (.ok result, msCache))
    (hfail : result.Code ≠ ABCICodeOK) :
    (app.runTx isCheckTx txBytes tx).1 = result ∧
    (app.runTx isCheckTx txBytes tx).2.1 = app1 ∧
    (∀ s k, (app.runTx isCheckTx txBytes tx).2.1.read isCheckTx s k = app1.read isCheckTx s k) ∧
    (∀ s k, (app.runTx isCheckTx txBytes tx).2.1.read isCheckTx s k =
      some (st1.ms.get app.cms.data s k)) := by
  obtain ⟨hc, hr, -, -⟩ := runAnte_cms_router app isCheckTx st _ tx _ app1 ev hante
  have hok : result.IsOK = false := by simpa [Result.IsOK] using hfail
  have hm : app1.runMsg isCheckTx st1 ctx1 msg =
      (result, app1, [.route msg.typ, .cacheWrap, .handler msg.typ]) := by
    simp [BaseApp.runMsg, hr, hc, hroute, hrun, hok]
  rw [runTx_proceed app isCheckTx txBytes tx msg st st1 ctx1 app1 ev hmsg hvalid hst hante hst1, hm]
  refine ⟨rfl, rfl, fun _ _ => rfl, fun s k => ?_⟩
  simp [BaseApp.read, hst1, hc]

/-- C2 (commit on success).  When the transaction reaches `handler` (valid
message, ante step not aborting and leaving `app1` with selected state `st1`)
and the handler returns an OK Result with nested overlay `msCache`, then after
`runTx` the owning state reads every key as the nested overlay read it when the
handler returned (its buffer over the state's overlay over the root store),
while the root store and the other state are those of before the call. -/
theorem runTx_ok_handler_writes_merged
    (app : BaseApp) (isCheckTx : Bool) (txBytes : Bytes) (tx : Tx) (msg : Msg)
    (st st1 : state) (ctx1 : Context) (app1 : BaseApp) (ev : List Event)
    (handler : Handler) (result : Result) (msCache : CacheMultiStore)
    (hmsg : tx.GetMsg = some msg) (hvalid : msg.ValidateBasic = none)
    (hst : app.getState isCheckTx = some st)
    (hante : app.runAnte isCheckTx st (st.ctx.WithTxBytes txBytes) tx = (.proceed ctx1, app1, ev))
    (hst1 : app1.getState isCheckTx = some st1)
    (hroute : app.router.Route msg.typ = some handler)
    (hrun : (handler ctx1 msg).run app.cms.hasStore (st1.ms.get app.cms.data)
      CacheMultiStore.empty = (.ok result, msCache))
    (hok : result.Code = ABCICodeOK) :
    (app.runTx isCheckTx txBytes tx).1 = result ∧
    (∀ s k, (app.runTx isCheckTx txBytes tx).2.1.read isCheckTx s k =
      some (msCache.get (st1.ms.get app.cms.data) s k)) ∧
    (app.runTx isCheckTx txBytes tx).2.1.cms = app.cms ∧
    (app.runTx isCheckTx txBytes tx).2.1.getState (!isCheckTx) = app.getState (!isCheckTx) ∧
    (∀ s k, (app.runTx isCheckTx txBytes tx).2.1.read (!isCheckTx) s k =
      app.read (!isCheckTx) s k) := by
  obtain ⟨hc, hr, -, hoth⟩ := runAnte_cms_router app isCheckTx st _ tx _ app1 ev hante
  have hok2 : result.IsOK = true := by simpa [Result.IsOK] using hok
  have hm : app1.runMsg isCheckTx st1 ctx1 msg =
      (result, app1.setMS isCheckTx (msCache.Write st1.ms),
        [.route msg.typ, .cacheWrap, .handler msg.typ, .write]) := by
    simp [BaseApp.runMsg, hr, hc, hroute, hrun, hok2]
  rw [runTx_proceed app isCheckTx txBytes tx msg st st1 ctx1 app1 ev hmsg hvalid hst hante hst1, hm]
  refine ⟨rfl, fun s k => ?_, ?_, ?_, fun s k => ?_⟩
  · simp [read_setMS, hst1, hc, get_Write]
  · simp [cms_setMS, hc]
  · simp [getState_setMS_other, hoth]
  · rw [read_setMS_other]
    simp [BaseApp.read, hoth, hc]

/-- A failing handler behind an ante handler that writes: the handler's write to
`main[1]` is gone, the ante handler's write to `main[9]` stays. -/
theorem runTx_failed_handler_writes_discarded_witness :
    ((exApp (some (exAnte false))).runTx true [2] (exTx "bad")).1.Code = 5 ∧
    ((exApp (some (exAnte false))).runTx true [2] (exTx "bad")).2.1.read true "main" [1]
      = some none ∧
    ((exApp (some (exAnte false))).runTx true [2] (exTx "bad")).2.1.read true "main" [9]
      = some (some [7]) := by
  have h := runTx_failed_handler_writes_discarded (exApp (some (exAnte false))) true [2]
    (exTx "bad") (exMsg "bad") (exState true)
    ⟨CacheMultiStore.empty.set "main" [9] [7], NewContext Header.empty true []⟩
    ((exState true).ctx.WithTxBytes [2])
    ((exApp (some (exAnte false))).setMS true (CacheMultiStore.empty.set "main" [9] [7]))
    [.anteHandler] (exHandler 2 5) { Result.zero with Code := 5 }
    (CacheMultiStore.empty.set "main" [1] [2])
    rfl rfl rfl rfl rfl rfl rfl (by decide)
  refine ⟨by rw [h.1], ?_, ?_⟩
  · rw [h.2.2.2]; rfl
  · rw [h.2.2.2]; rfl

/-- A succeeding handler on the deliver path: `main[1]` is written in the deliver
state, and neither in the check state nor in the root store. -/
theorem runTx_ok_handler_writes_merged_witness :
    ((exApp (some (exAnte false))).runTx false [1] (exTx "good")).1.Code = 0 ∧
    ((exApp (some (exAnte false))).runTx false [1] (exTx "good")).2.1.read false "main" [1]
      = some (some [1]) ∧
    ((exApp (some (exAnte false))).runTx false [1] (exTx "good")).2.1.read true "main" [1]
      = some none ∧
    ((exApp (some (exAnte false))).runTx false [1] (exTx "good")).2.1.cms.data "main" [1]
      = none := by
  have h := runTx_ok_handler_writes_merged (exApp (some (exAnte false))) false [1]
    (exTx "good") (exMsg "good") (exState false)
    ⟨CacheMultiStore.empty.set "main" [9] [7], NewContext Header.empty false []⟩
    ((exState false).ctx.WithTxBytes [1])
    ((exApp (some (exAnte false))).setMS false (CacheMultiStore.empty.set "main" [9] [7]))
    [.anteHandler] (exHandler 1 0) { Result.zero with Code := 0 }
    (CacheMultiStore.empty.set "main" [1] [1])
    rfl rfl rfl rfl rfl rfl rfl rfl
  refine ⟨by rw [h.1], ?_, ?_, ?_⟩
  · rw [h.2.1]; rfl
  · exact (h.2.2.2.2 "main" [1]).trans rfl
  · rw [h.2.2.1]; rfl

/-! ## The ante step -/

/-- C3 (ante persistence).  When the message is valid, an ante handler is
configured, and its run on the selected state's overlay returns `abort = true`
with Result `result`, leaving the overlay `ms1` in which `k = v` is written,
then `runTx` returns `result` unchanged, the engine it leaves is the engine
with that overlay (nothing rolled back), the only collaborator called after
validation is the ante handler (no route lookup, no nested overlay, no message
handler), and the same state reads `k` as `v`. -/
theorem runTx_ante_abort_persists
    (app : BaseApp) (isCheckTx : Bool) (txBytes : Bytes) (tx : Tx) (msg : Msg) (st : state)
    (ante : AnteHandler) (newCtx : Option Context) (result : Result) (ms1 : CacheMultiStore)
    (s : StoreKey) (k v : Bytes)
    (hmsg : tx.GetMsg = some msg) (hvalid : msg.ValidateBasic = none)
    (hst : app.getState isCheckTx = some st)
    (hante : app.anteHandler = some ante)
    (hrun : (ante (st.ctx.WithTxBytes txBytes) tx).run app.cms.hasStore app.cms.data st.ms =
      (.ok (newCtx, result, true), ms1))
    (hwrite : ms1.buf s k = some (some v)) :
    app.runTx isCheckTx txBytes tx =
      (result, app.setMS isCheckTx ms1, [.validateBasic, .anteHandler]) ∧
    (app.runTx isCheckTx txBytes tx).2.1.read isCheckTx s k = some (some v) := by
  have ha : app.runAnte isCheckTx st (st.ctx.WithTxBytes txBytes) tx =
      (.aborted result, app.setMS isCheckTx ms1, [.anteHandler]) := by
    simp [BaseApp.runAnte, hante, hrun]
  have hr : app.runTx isCheckTx txBytes tx =
      (result, app.setMS isCheckTx ms1, [.validateBasic, .anteHandler]) := by
    simp [BaseApp.runTx, hmsg, hvalid, hst, ha]
  refine ⟨hr, ?_⟩
  rw [hr]
  simp [read_setMS, hst, CacheMultiStore.get, hwrite]

/-- An ante handler that writes `main[9] = [7]` and aborts with code 4. -/
theorem runTx_ante_abort_persists_witness :
    (exApp (some (exAnte true))).runTx true [1] (exTx "good") =
      ({ Result.zero with Code := 4 },
        (exApp (some (exAnte true))).setMS true (CacheMultiStore.empty.set "main" [9] [7]),
        [.validateBasic, .anteHandler]) ∧
    ((exApp (some (exAnte true))).runTx true [1] (exTx "good")).2.1.read true "main" [9] =
      some (some [7]) :=
  runTx_ante_abort_persists (exApp (some (exAnte true))) true [1] (exTx "good") (exMsg "good")
    (exState true) (exAnte true) none { Result.zero with Code := 4 }
    (CacheMultiStore.empty.set "main" [9] [7]) "main" [9] [7] rfl rfl rfl rfl rfl rfl

/-! ## Routing failures -/

/-- After the ante step the selected state is still present. -/
theorem runAnte_state_present (app : BaseApp) (b : Bool) (st : state) (ctx : Context) (tx : Tx)
    (out : AnteOutcome) (app1 : BaseApp) (ev : List Event)
    (hst : app.getState b = some st)
    (h : app.runAnte b st ctx tx = (out, app1, ev)) :
    ∃ st1, app1.getState b = some st1 := by
  have hf := (runAnte_frame app b st ctx tx).2.2.2.2
  rw [h, hst] at hf
  exact Option.isSome_iff_exists.mp (by simpa using hf)

/-- The message step on an unrouted message type: the unknown-request Result,
the engine untouched, and only the route lookup made. -/
theorem runMsg_no_route (app : BaseApp) (b : Bool) (st : state) (ctx : Context) (msg : Msg)
    (hroute : app.router.Route msg.typ = none) :
    app.runMsg b st ctx msg =
      ((ErrUnknownRequest ("Unrecognized Msg type: " ++ msg.typ)).Result, app,
        [.route msg.typ]) := by
  simp [BaseApp.runMsg, hroute]

/-- The counterexample to C7 as stated: with an ante handler installed that
writes `main[9] = [7]` and does not abort, a transaction of the unrouted type
`nowhere` gets a failed Result, and yet the check state reads `main[9]` as
`[7]` after the call where it read nothing before. -/
theorem routing_error_state_touched :
    (exApp (some (exAnte false))).router.Route (exMsg "nowhere").typ = none ∧
    ((exApp (some (exAnte false))).runTx true [3] (exTx "nowhere")).1.IsOK = false ∧
    (exApp (some (exAnte false))).read true "main" [9] = some none ∧
    ((exApp (some (exAnte false))).runTx true [3] (exTx "nowhere")).2.1.read true "main" [9] =
      some (some [7]) :=
  ⟨rfl, rfl, rfl, rfl⟩

/-- C7 (amended: routing errors touch no state beyond the ante step).  For every
configuration and every transaction whose valid message has a type with no
registered route: the engine after `runTx` is the engine the ante step left, so
the owning state reads every key exactly as the ante step left it; the Result
is failed unless the ante handler aborted with its own Result; and with no ante
handler installed the engine is exactly the one before the call. -/
theorem runTx_no_route_state_as_ante_left
    (app : BaseApp) (isCheckTx : Bool) (txBytes : Bytes) (tx : Tx) (msg : Msg) (st : state)
    (hmsg : tx.GetMsg = some msg) (hvalid : msg.ValidateBasic = none)
    (hst : app.getState isCheckTx = some st)
    (hroute : app.router.Route msg.typ = none) :
    (app.runTx isCheckTx txBytes tx).2.1 =
      (app.runAnte isCheckTx st (st.ctx.WithTxBytes txBytes) tx).2.1 ∧
    (∀ s k, (app.runTx isCheckTx txBytes tx).2.1.read isCheckTx s k =
      (app.runAnte isCheckTx st (st.ctx.WithTxBytes txBytes) tx).2.1.read isCheckTx s k) ∧
    ((∀ r, (app.runAnte isCheckTx st (st.ctx.WithTxBytes txBytes) tx).1 ≠ .aborted r) →
      (app.runTx isCheckTx txBytes tx).1.IsOK = false) ∧
    (app.anteHandler = none →
      (app.runTx isCheckTx txBytes tx).2.1 = app ∧
      (app.runTx isCheckTx txBytes tx).1.IsOK = false) := by
  have key : (app.runTx isCheckTx txBytes tx).2.1 =
        (app.runAnte isCheckTx st (st.ctx.WithTxBytes txBytes) tx).2.1 ∧
      ((∀ r, (app.runAnte isCheckTx st (st.ctx.WithTxBytes txBytes) tx).1 ≠ .aborted r) →
        (app.runTx isCheckTx txBytes tx).1.IsOK = false) := by
    rcases ha : app.runAnte isCheckTx st (st.ctx.WithTxBytes txBytes) tx with ⟨out, app1, ev⟩
    obtain ⟨st1, hst1⟩ := runAnte_state_present app isCheckTx st _ tx out app1 ev hst ha
    obtain ⟨-, hr, -, -⟩ := runAnte_cms_router app isCheckTx st _ tx out app1 ev ha
    cases out with
    | aborted result =>
      refine ⟨by simp [BaseApp.runTx, hmsg, hvalid, hst, ha], fun h => absurd rfl (h result)⟩
    | faulted r =>
      refine ⟨by simp [BaseApp.runTx, hmsg, hvalid, hst, ha], fun _ => ?_⟩
      simp [BaseApp.runTx, hmsg, hvalid, hst, ha]
      rfl
    | proceed ctx1 =>
      rw [runTx_proceed app isCheckTx txBytes tx msg st st1 ctx1 app1 ev hmsg hvalid hst ha hst1,
        runMsg_no_route app1 isCheckTx st1 ctx1 msg (by rw [hr]; exact hroute)]
      exact ⟨rfl, fun _ => rfl⟩
  refine ⟨key.1, fun s k => by rw [key.1], key.2, fun hnone => ?_⟩
  have ha : app.runAnte isCheckTx st (st.ctx.WithTxBytes txBytes) tx =
      (.proceed (st.ctx.WithTxBytes txBytes), app, []) := by
    simp [BaseApp.runAnte, hnone]
  refine ⟨by rw [key.1, ha], key.2 ?_⟩
  rw [ha]
  intro r h
  cases h

/-- An unrouted message type with no ante handler installed: nothing changes. -/
theorem runTx_no_route_state_as_ante_left_witness :
    ((exApp none).runTx true [3] (exTx "nowhere")).2.1 = exApp none ∧
    ((exApp none).runTx true [3] (exTx "nowhere")).1.IsOK = false :=
  (runTx_no_route_state_as_ante_left (exApp none) true [3] (exTx "nowhere") (exMsg "nowhere")
    (exState true) rfl rfl rfl rfl).2.2.2 rfl

/-- C8 (routing failure after the ante step).  For every transaction whose valid
message has a type with no registered route, once the ante step has let it
through (leaving the engine `app1`): `runTx` returns the unknown-request Result
whose log is "Unrecognized Msg type: " followed by the message type, the only
call made after the ante step is the route lookup (no nested overlay is opened
or written, no handler runs), and the engine after the call is `app1`. -/
theorem runTx_no_route_after_ante
    (app : BaseApp) (isCheckTx : Bool) (txBytes : Bytes) (tx : Tx) (msg : Msg) (st : state)
    (ctx1 : Context) (app1 : BaseApp) (ev : List Event)
    (hmsg : tx.GetMsg = some msg) (hvalid : msg.ValidateBasic = none)
    (hst : app.getState isCheckTx = some st)
    (hante : app.runAnte isCheckTx st (st.ctx.WithTxBytes txBytes) tx = (.proceed ctx1, app1, ev))
    (hroute : app.router.Route msg.typ = none) :
    app.runTx isCheckTx txBytes tx =
      ((ErrUnknownRequest ("Unrecognized Msg type: " ++ msg.typ)).Result, app1,
        .validateBasic :: (ev ++ [.route msg.typ])) ∧
    (app.runTx isCheckTx txBytes tx).1.Log = "Unrecognized Msg type: " ++ msg.typ ∧
    (app.runTx isCheckTx txBytes tx).1.Code = ToABCICode CodespaceRoot CodeUnknownRequest ∧
    (app.runTx isCheckTx txBytes tx).1.IsOK = false ∧
    (∀ s k, (app.runTx isCheckTx txBytes tx).2.1.read isCheckTx s k = app1.read isCheckTx s k) := by
  obtain ⟨st1, hst1⟩ := runAnte_state_present app isCheckTx st _ tx _ app1 ev hst hante
  obtain ⟨-, hr, -, -⟩ := runAnte_cms_router app isCheckTx st _ tx _ app1 ev hante
  have h : app.runTx isCheckTx txBytes tx =
      ((ErrUnknownRequest ("Unrecognized Msg type: " ++ msg.typ)).Result, app1,
        .validateBasic :: (ev ++ [.route msg.typ])) := by
    rw [runTx_proceed app isCheckTx txBytes tx msg st st1 ctx1 app1 ev hmsg hvalid hst hante hst1,
      runMsg_no_route app1 isCheckTx st1 ctx1 msg (by rw [hr]; exact hroute)]
  refine ⟨h, ?_, ?_, ?_, fun s k => ?_⟩ <;> rw [h] <;> rfl

/-- An unrouted message type behind an ante handler that writes and proceeds. -/
theorem runTx_no_route_after_ante_witness :
    (exApp (some (exAnte false))).runTx false [3] (exTx "nowhere") =
      ((ErrUnknownRequest "Unrecognized Msg type: nowhere").Result,
        (exApp (some (exAnte false))).setMS false (CacheMultiStore.empty.set "main" [9] [7]),
        [.validateBasic, .anteHandler, .route "nowhere"]) :=
  (runTx_no_route_after_ante (exApp (some (exAnte false))) false [3] (exTx "nowhere")
    (exMsg "nowhere") (exState false) ((exState false).ctx.WithTxBytes [3])
    ((exApp (some (exAnte false))).setMS false (CacheMultiStore.empty.set "main" [9] [7]))
    [.anteHandler] rfl rfl rfl rfl rfl).1

/-! ## Stateless validation failures -/

/-- A message that fails validation: `runTx` returns at once. -/
theorem runTx_invalid (app : BaseApp) (b : Bool) (txBytes : Bytes) (tx : Tx) (msg : Msg)
    (e : Error) (hmsg : tx.GetMsg = some msg) (hbad : msg.ValidateBasic = some e) :
    app.runTx b txBytes tx =
      ((e.WithDefaultCodespace CodespaceRoot).Result, app, [.validateBasic]) := by
  simp [BaseApp.runTx, hmsg, hbad]

/-- C9 (validation error result).  For every transaction whose message's
`ValidateBasic` returns an error `e`, on the check path and on the deliver path
alike, `runTx` returns exactly the Result of `e` with its codespace defaulted to
the root codespace: the Result of `e` with codespace root when the codespace of
`e` is unset, the Result of `e` itself when it is set. -/
theorem runTx_validation_error_result
    (app : BaseApp) (isCheckTx : Bool) (txBytes : Bytes) (tx : Tx) (msg : Msg) (e : Error)
    (hmsg : tx.GetMsg = some msg) (hbad : msg.ValidateBasic = some e) :
    (app.runTx isCheckTx txBytes tx).1 = (e.WithDefaultCodespace CodespaceRoot).Result ∧
    (e.codespace = CodespaceUndefined →
      (app.runTx isCheckTx txBytes tx).1 = ({ e with codespace := CodespaceRoot } : Error).Result) ∧
    (e.codespace ≠ CodespaceUndefined → (app.runTx isCheckTx txBytes tx).1 = e.Result) := by
  rw [runTx_invalid app isCheckTx txBytes tx msg e hmsg hbad]
  refine ⟨rfl, fun h => ?_, fun h => ?_⟩
  · simp [Error.WithDefaultCodespace, h]
  · simp [Error.WithDefaultCodespace, h]

/-- An error with the codespace unset gets the root codespace (code 65539); an
error of codespace 7 keeps it (code 458755). -/
theorem runTx_validation_error_result_witness :
    ((exApp none).runTx true [4] ⟨some (exBadMsg ⟨0, 3, "invalid"⟩), []⟩).1 =
      { Result.zero with Code := 65539, Log := "invalid" } ∧
    ((exApp none).runTx false [4] ⟨some (exBadMsg ⟨7, 3, "invalid"⟩), []⟩).1 =
      { Result.zero with Code := 458755, Log := "invalid" } :=
  ⟨((runTx_validation_error_result (exApp none) true [4] ⟨some (exBadMsg ⟨0, 3, "invalid"⟩), []⟩
      (exBadMsg ⟨0, 3, "invalid"⟩) ⟨0, 3, "invalid"⟩ rfl rfl).2.1 rfl).trans rfl,
   ((runTx_validation_error_result (exApp none) false [4] ⟨some (exBadMsg ⟨7, 3, "invalid"⟩), []⟩
      (exBadMsg ⟨7, 3, "invalid"⟩) ⟨7, 3, "invalid"⟩ rfl rfl).2.2 (by decide)).trans rfl⟩

/-- C10 (a message that fails validation reaches nothing and alters nothing).
For every byte string that decodes to a transaction whose message fails its
stateless validation: `runTx` calls nothing beyond the validation (no ante
handler, no route lookup, no handler) on either path, and the engine after
`CheckTx` and after `DeliverTx` is the engine before the call, so `checkState`,
`deliverState` and `valUpdates` are the same and every key reads the same in
both states. -/
theorem invalid_message_alters_nothing
    (app : BaseApp) (txBytes : Bytes) (tx : Tx) (msg : Msg) (e : Error)
    (hdec : app.txDecoder txBytes = .ok tx)
    (hmsg : tx.GetMsg = some msg) (hbad : msg.ValidateBasic = some e) :
    (∀ b, (app.runTx b txBytes tx).2 = (app, [.validateBasic])) ∧
    (app.CheckTx txBytes).2 = (app, [.runTx true, .validateBasic]) ∧
    (app.DeliverTx txBytes).2 = (app, [.runTx false, .validateBasic]) ∧
    (app.CheckTx txBytes).2.1.checkState = app.checkState ∧
    (app.CheckTx txBytes).2.1.deliverState = app.deliverState ∧
    (app.CheckTx txBytes).2.1.valUpdates = app.valUpdates ∧
    (app.DeliverTx txBytes).2.1.checkState = app.checkState ∧
    (app.DeliverTx txBytes).2.1.deliverState = app.deliverState ∧
    (app.DeliverTx txBytes).2.1.valUpdates = app.valUpdates ∧
    (∀ b s k, (app.CheckTx txBytes).2.1.read b s k = app.read b s k) ∧
    (∀ b s k, (app.DeliverTx txBytes).2.1.read b s k = app.read b s k) := by
  have hc : (app.CheckTx txBytes).2 = (app, [.runTx true, .validateBasic]) := by
    simp [BaseApp.CheckTx, hdec, runTx_invalid app true txBytes tx msg e hmsg hbad]
  have hd : (app.DeliverTx txBytes).2 = (app, [.runTx false, .validateBasic]) := by
    simp only [BaseApp.DeliverTx, hdec, runTx_invalid app false txBytes tx msg e hmsg hbad]
    have hv : (e.WithDefaultCodespace CodespaceRoot).Result.ValidatorUpdates = [] := rfl
    split <;> simp [hv]
  refine ⟨fun b => by rw [runTx_invalid app b txBytes tx msg e hmsg hbad], hc, hd, ?_⟩
  rw [hc, hd]
  simp

/-- The byte string `[4]` decodes to a message that fails validation. -/
theorem invalid_message_alters_nothing_witness :
    ((exApp (some (exAnte false))).CheckTx [4]).2 =
      (exApp (some (exAnte false)), [.runTx true, .validateBasic]) ∧
    ((exApp (some (exAnte false))).DeliverTx [4]).2 =
      (exApp (some (exAnte false)), [.runTx false, .validateBasic]) :=
  ⟨(invalid_message_alters_nothing (exApp (some (exAnte false))) [4]
      ⟨some (exBadMsg ⟨0, 3, "invalid"⟩), []⟩ (exBadMsg ⟨0, 3, "invalid"⟩) ⟨0, 3, "invalid"⟩
      rfl rfl rfl).2.1,
   (invalid_message_alters_nothing (exApp (some (exAnte false))) [4]
      ⟨some (exBadMsg ⟨0, 3, "invalid"⟩), []⟩ (exBadMsg ⟨0, 3, "invalid"⟩) ⟨0, 3, "invalid"⟩
      rfl rfl rfl).2.2.1⟩

/-! ## Isolation of the check path -/

/-- The message step leaves the root store, the accumulated validator updates
and the other state alone. -/
theorem runMsg_frame (app : BaseApp) (b : Bool) (st : state) (ctx : Context) (msg : Msg) :
    (app.runMsg b st ctx msg).2.1.cms = app.cms ∧
    (app.runMsg b st ctx msg).2.1.valUpdates = app.valUpdates ∧
    (app.runMsg b st ctx msg).2.1.getState (!b) = app.getState (!b) := by
  cases hroute : app.router.Route msg.typ with
  | none => simp [BaseApp.runMsg, hroute]
  | some handler =>
    rcases hrun : (handler ctx msg).run app.cms.hasStore (st.ms.get app.cms.data)
      CacheMultiStore.empty with ⟨out, msCache⟩
    cases out with
    | error r => simp [BaseApp.runMsg, hroute, hrun]
    | ok result =>
      cases h : result.IsOK <;>
        simp [BaseApp.runMsg, hroute, hrun, h, cms_setMS, valUpdates_setMS, getState_setMS_other]

/-- A call of `runTx` leaves the root store, the accumulated validator updates
and the state it does not work on alone. -/
theorem runTx_frame (app : BaseApp) (b : Bool) (txBytes : Bytes) (tx : Tx) :
    (app.runTx b txBytes tx).2.1.cms = app.cms ∧
    (app.runTx b txBytes tx).2.1.valUpdates = app.valUpdates ∧
    (app.runTx b txBytes tx).2.1.getState (!b) = app.getState (!b) := by
  cases hmsg : tx.GetMsg with
  | none => simp [BaseApp.runTx, hmsg]
  | some msg =>
    cases hvalid : msg.ValidateBasic with
    | some err => simp [BaseApp.runTx, hmsg, hvalid]
    | none =>
      cases hst : app.getState b with
      | none => simp [BaseApp.runTx, hmsg, hvalid, hst]
      | some st =>
        rcases ha : app.runAnte b st (st.ctx.WithTxBytes txBytes) tx with ⟨out, app1, ev⟩
        obtain ⟨hc, -, hv, ho⟩ := runAnte_cms_router app b st _ tx out app1 ev ha
        cases out with
        | aborted result => simpa [BaseApp.runTx, hmsg, hvalid, hst, ha] using ⟨hc, hv, ho⟩
        | faulted r => simpa [BaseApp.runTx, hmsg, hvalid, hst, ha] using ⟨hc, hv, ho⟩
        | proceed ctx1 =>
          obtain ⟨st1, hst1⟩ := runAnte_state_present app b st _ tx _ app1 ev hst ha
          obtain ⟨hc2, hv2, ho2⟩ := runMsg_frame app1 b st1 ctx1 msg
          rw [runTx_proceed app b txBytes tx msg st st1 ctx1 app1 ev hmsg hvalid hst ha hst1]
          exact ⟨hc2.trans hc, hv2.trans hv, ho2.trans ho⟩

/-- One `CheckTx` leaves the deliver state, the validator updates and the root
store alone. -/
theorem CheckTx_frame (app : BaseApp) (txBytes : Bytes) :
    (app.CheckTx txBytes).2.1.deliverState = app.deliverState ∧
    (app.CheckTx txBytes).2.1.valUpdates = app.valUpdates ∧
    (app.CheckTx txBytes).2.1.cms = app.cms := by
  unfold BaseApp.CheckTx
  cases app.txDecoder txBytes with
  | error err => simp
  | ok tx =>
    obtain ⟨hc, hv, ho⟩ := runTx_frame app true txBytes tx
    exact ⟨by simpa [BaseApp.getState] using ho, hv, hc⟩

/-- C4 (isolation of Check).  For every engine state (reachable or not), every
configuration of decoder, ante handler and handlers, and every finite sequence
of `CheckTx` calls on any bytes: after the sequence `deliverState` is the same
(present or absent as before, reading every key as before), the accumulated
`valUpdates` are the same, and the root store is the same (contents, last
CommitID and committed snapshots). -/
theorem CheckTxs_isolated (app : BaseApp) (txs : List Bytes) :
    (app.CheckTxs txs).deliverState = app.deliverState ∧
    (app.CheckTxs txs).valUpdates = app.valUpdates ∧
    (app.CheckTxs txs).cms = app.cms ∧
    (app.CheckTxs txs).cms.data = app.cms.data ∧
    (app.CheckTxs txs).cms.lastCommitID = app.cms.lastCommitID ∧
    (∀ s k, (app.CheckTxs txs).read false s k = app.read false s k) := by
  have key : ∀ (l : List Bytes) (a : BaseApp),
      (a.CheckTxs l).deliverState = a.deliverState ∧
      (a.CheckTxs l).valUpdates = a.valUpdates ∧ (a.CheckTxs l).cms = a.cms := by
    intro l
    induction l with
    | nil => intro a; exact ⟨rfl, rfl, rfl⟩
    | cons txBytes rest ih =>
      intro a
      obtain ⟨h1, h2, h3⟩ := ih (a.CheckTx txBytes).2.1
      obtain ⟨g1, g2, g3⟩ := CheckTx_frame a txBytes
      exact ⟨h1.trans g1, h2.trans g2, h3.trans g3⟩
  obtain ⟨h1, h2, h3⟩ := key txs app
  refine ⟨h1, h2, h3, by rw [h3], by rw [h3], fun s k => ?_⟩
  simp [BaseApp.read, BaseApp.getState, h1, h3]

/-! ## Commit -/

/-- What `Commit` computes on an open block. -/
theorem Commit_open (app : BaseApp) (ds : state) (hopen : app.deliverState = some ds) :
    app.Commit = .ok
      (⟨((ds.ms.WriteRoot app.cms).Commit).1.Hash⟩,
        { ({ app with cms := ((ds.ms.WriteRoot app.cms).Commit).2 } : BaseApp).setCheckState
            ds.ctx.BlockHeader with deliverState := none }) := by
  simp only [BaseApp.Commit, hopen]

/-- After `Commit` on an open block: a fresh check state bound to the block's
header reading what the root store reads, the root store holding what the
deliver state read, the snapshot taken, and no deliver state. -/
theorem Commit_open_reads (app : BaseApp) (ds : state) (hopen : app.deliverState = some ds) :
    ∃ res app1, app.Commit = .ok (res, app1) ∧
      app1.checkState = some ⟨CacheMultiStore.empty, NewContext ds.ctx.BlockHeader true []⟩ ∧
      (∀ s k, app1.read true s k = some (app1.cms.data s k)) ∧
      (∀ s k, app1.cms.data s k = ds.ms.get app.cms.data s k) ∧
      app1.cms.db.head? = some (app1.cms.lastCommitID, app1.cms.data) ∧
      app1.deliverState = none := by
  refine ⟨_, _, Commit_open app ds hopen, rfl, fun s k => ?_, fun s k => rfl, rfl, rfl⟩
  simp [BaseApp.read, BaseApp.getState, BaseApp.setCheckState, CacheMultiStore.get,
    CacheMultiStore.empty]

/-- C5 (check reset).  For every engine with an open block (a deliver state
`ds`), `Commit` returns, and immediately after it the check state is a fresh
overlay with nothing buffered: it reads every key of every sub-store as the
just-committed root store does, which is what the deliver state read before
the commit and what the newest committed snapshot holds.  No earlier write of
the check state survives. -/
theorem Commit_resets_checkState (app : BaseApp) (ds : state)
    (hopen : app.deliverState = some ds) :
    ∃ res app1, app.Commit = .ok (res, app1) ∧
      app1.checkState = some ⟨CacheMultiStore.empty, NewContext ds.ctx.BlockHeader true []⟩ ∧
      (∀ s k, app1.read true s k = some (app1.cms.data s k)) ∧
      (∀ s k, app1.cms.data s k = ds.ms.get app.cms.data s k) ∧
      app1.cms.db.head? = some (app1.cms.lastCommitID, app1.cms.data) := by
  obtain ⟨res, app1, h1, h2, h3, h4, h5, -⟩ := Commit_open_reads app ds hopen
  exact ⟨res, app1, h1, h2, h3, h4, h5⟩

/-- The speculative `main[1] = [5]` of the check state is gone after `Commit`: the
check state reads the committed `main[1] = [1]`. -/
theorem Commit_resets_checkState_witness :
    exOpenBlock.read true "main" [1] = some (some [5]) ∧
    ∃ res app1, exOpenBlock.Commit = .ok (res, app1) ∧
      app1.read true "main" [1] = some (some [1]) ∧ app1.cms.data "main" [1] = some [1] := by
  obtain ⟨res, app1, h, -, hr, hd, -⟩ := Commit_resets_checkState exOpenBlock
    ⟨CacheMultiStore.empty.set "main" [1] [1], NewContext ⟨"chain", 1, 0⟩ false []⟩ rfl
  refine ⟨rfl, res, app1, h, ?_, ?_⟩
  · rw [hr, hd]; rfl
  · rw [hd]; rfl

/-! ## The end-to-end scenario -/

theorem setMS_self (app : BaseApp) (b : Bool) (st : state) (h : app.getState b = some st) :
    app.setMS b st.ms = app := by
  cases app
  cases b <;> simp only [BaseApp.getState, Bool.false_eq_true, if_false, if_true] at h <;>
    subst h <;> rfl

theorem setMS_setMS (app : BaseApp) (b : Bool) (m1 m2 : CacheMultiStore) :
    (app.setMS b m1).setMS b m2 = app.setMS b m2 := by
  cases b <;> simp [BaseApp.setMS, Function.comp_def]

theorem BaseApp.SameConfig.refl (a : BaseApp) : a.SameConfig a :=
  ⟨rfl, rfl, rfl, rfl, rfl, rfl, rfl, rfl⟩

theorem BaseApp.SameConfig.trans {a b c : BaseApp} (h1 : a.SameConfig b) (h2 : b.SameConfig c) :
    a.SameConfig c := by
  obtain ⟨a1, a2, a3, a4, a5, a6, a7, a8⟩ := h1
  obtain ⟨b1, b2, b3, b4, b5, b6, b7, b8⟩ := h2
  exact ⟨a1.trans b1, a2.trans b2, a3.trans b3, a4.trans b4, a5.trans b5, a6.trans b6,
    a7.trans b7, a8.trans b8⟩

theorem sameConfig_setMS (app : BaseApp) (b : Bool) (ms : CacheMultiStore) :
    (app.setMS b ms).SameConfig app := by
  cases b <;> simp [BaseApp.SameConfig, BaseApp.setMS]

theorem deliverState_setMS (app : BaseApp) (ds : state) (ms : CacheMultiStore)
    (h : app.deliverState = some ds) :
    (app.setMS false ms).deliverState = some { ds with ms := ms } := by
  simp [BaseApp.setMS, h]

/-- An ante step that lets every transaction through and never writes `(s, k)`
(or no ante step at all) proceeds, and leaves what is buffered for `(s, k)`. -/
theorem runAnte_proceeds (app : BaseApp) (b : Bool) (st : state) (ctx : Context) (tx : Tx)
    (s : StoreKey) (k : Bytes) (hst : app.getState b = some st)
    (hante : ∀ ante, app.anteHandler = some ante → ∀ ctx tx parent c, ∃ nc r c1,
      (ante ctx tx).run app.cms.hasStore parent c = (.ok (nc, r, false), c1) ∧
        c1.buf s k = c.buf s k) :
    ∃ ctx1 ms1 ev, app.runAnte b st ctx tx = (.proceed ctx1, app.setMS b ms1, ev) ∧
      ms1.buf s k = st.ms.buf s k := by
  cases ha : app.anteHandler with
  | none =>
    exact ⟨ctx, st.ms, [], by simp [BaseApp.runAnte, ha, setMS_self app b st hst], rfl⟩
  | some ante =>
    obtain ⟨nc, r, c1, hrun, hk⟩ := hante ante ha ctx tx app.cms.data st.ms
    cases nc with
    | none => exact ⟨ctx, c1, [.anteHandler], by simp [BaseApp.runAnte, ha, hrun], hk⟩
    | some c => exact ⟨c, c1, [.anteHandler], by simp [BaseApp.runAnte, ha, hrun], hk⟩

/-- What `runTx` computes once the handler has returned. -/
theorem runTx_handler_returned (app : BaseApp) (b : Bool) (txBytes : Bytes) (tx : Tx) (msg : Msg)
    (st : state) (ctx1 : Context) (ms1 : CacheMultiStore) (ev : List Event)
    (handler : Handler) (result : Result) (msCache : CacheMultiStore)
    (hmsg : tx.GetMsg = some msg) (hvalid : msg.ValidateBasic = none)
    (hst : app.getState b = some st)
    (hante : app.runAnte b st (st.ctx.WithTxBytes txBytes) tx =
      (.proceed ctx1, app.setMS b ms1, ev))
    (hroute : app.router.Route msg.typ = some handler)
    (hrun : (handler ctx1 msg).run app.cms.hasStore (ms1.get app.cms.data)
      CacheMultiStore.empty = (.ok result, msCache)) :
    (app.runTx b txBytes tx).1 = result ∧
    (app.runTx b txBytes tx).2.1 =
      app.setMS b (if result.IsOK then msCache.Write ms1 else ms1) := by
  have hst1 : (app.setMS b ms1).getState b = some { st with ms := ms1 } := by
    rw [getState_setMS, hst]; rfl
  rw [runTx_proceed app b txBytes tx msg st _ ctx1 _ ev hmsg hvalid hst hante hst1]
  cases hok : result.IsOK <;>
    simp [BaseApp.runMsg, router_setMS, cms_setMS, hroute, hrun, hok, setMS_setMS]

/-- `DeliverTx` of a transaction that reaches a handler which returns: the
deliver state keeps its context and gets the overlay the ante step left,
with the handler's nested overlay written into it exactly when the Result is
OK; the configuration and the root store stay. -/
theorem DeliverTx_handler_returned (a : BaseApp) (txBytes : Bytes) (tx : Tx) (msg : Msg)
    (ds : state) (handler : Handler) (s : StoreKey) (k : Bytes)
    (P : Result → CacheMultiStore → Prop)
    (hds : a.deliverState = some ds)
    (hdec : a.txDecoder txBytes = .ok tx)
    (hmsg : tx.GetMsg = some msg) (hvalid : msg.ValidateBasic = none)
    (hante : ∀ ante, a.anteHandler = some ante → ∀ ctx tx parent c, ∃ nc r c1,
      (ante ctx tx).run a.cms.hasStore parent c = (.ok (nc, r, false), c1) ∧
        c1.buf s k = c.buf s k)
    (hroute : a.router.Route msg.typ = some handler)
    (hh : ∀ ctx parent, ∃ r c1,
      (handler ctx msg).run a.cms.hasStore parent CacheMultiStore.empty = (.ok r, c1) ∧ P r c1) :
    ∃ r c1 ms1, P r c1 ∧ ms1.buf s k = ds.ms.buf s k ∧
      (a.DeliverTx txBytes).2.1.deliverState =
        some { ds with ms := if r.IsOK then c1.Write ms1 else ms1 } ∧
      (a.DeliverTx txBytes).2.1.SameConfig a := by
  have hst : a.getState false = some ds := by simpa [BaseApp.getState] using hds
  obtain ⟨ctx1, ms1, ev, hrunAnte, hk⟩ :=
    runAnte_proceeds a false ds (ds.ctx.WithTxBytes txBytes) tx s k hst hante
  obtain ⟨r, c1, hrun, hP⟩ := hh ctx1 (ms1.get a.cms.data)
  obtain ⟨h1, h2⟩ := runTx_handler_returned a false txBytes tx msg ds ctx1 ms1 ev handler r c1
    hmsg hvalid hst hrunAnte hroute hrun
  refine ⟨r, c1, ms1, hP, hk, ?_, ?_⟩
  · simp only [BaseApp.DeliverTx, hdec, h1, h2]
    split <;> simp [BaseApp.setMS, hds]
  · simp only [BaseApp.DeliverTx, hdec, h1, h2]
    split <;> simp [BaseApp.SameConfig, BaseApp.setMS]

/-- A block hook that returns on the deliver state's overlay. -/
theorem runHook_returns {α : Type} (a : BaseApp) (hook : Context → Prog α) (ds : state)
    (R : CacheMultiStore → CacheMultiStore → Prop)
    (hds : a.deliverState = some ds)
    (hh : ∀ ctx parent c, ∃ x c1, (hook ctx).run a.cms.hasStore parent c = (.ok x, c1) ∧ R c c1) :
    ∃ x ms1, a.runHook hook = .ok (x, a.setMS false ms1) ∧ R ds.ms ms1 := by
  obtain ⟨x, c1, hrun, hR⟩ := hh ds.ctx a.cms.data ds.ms
  exact ⟨x, c1, by simp [BaseApp.runHook, hds, hrun], hR⟩

/-- `BeginBlock` with a begin hook that returns (or none): the block is open
afterwards and the configuration and the root store stay. -/
theorem BeginBlock_opens (a : BaseApp) (req : RequestBeginBlock)
    (hbegin : ∀ bb, a.beginBlocker = some bb → ∀ ctx parent c, ∃ x c1,
      (bb ctx req).run a.cms.hasStore parent c = (.ok x, c1)) :
    ∃ res a2 ds2, a.BeginBlock req = .ok (res, a2) ∧ a2.deliverState = some ds2 ∧
      a2.SameConfig a := by
  have hopen : ∃ a1 ds1, (match a.deliverState with
      | none => a.setDeliverState req.Header
      | some _ => a) = a1 ∧ a1.deliverState = some ds1 ∧ a1.SameConfig a := by
    cases hd : a.deliverState with
    | none => exact ⟨_, _, rfl, rfl, ⟨rfl, rfl, rfl, rfl, rfl, rfl, rfl, rfl⟩⟩
    | some ds => exact ⟨a, ds, rfl, hd, BaseApp.SameConfig.refl a⟩
  obtain ⟨a1, ds1, ha1, hd1, hc1⟩ := hopen
  have hc2 : ({ a1 with valUpdates := [] } : BaseApp).SameConfig a := hc1
  cases hb : a.beginBlocker with
  | none =>
    refine ⟨⟨[]⟩, { a1 with valUpdates := [] }, ds1, ?_, hd1, hc2⟩
    have hb1 : a1.beginBlocker = none := hc1.2.2.2.2.2.2.1.trans hb
    simp [BaseApp.BeginBlock, ha1, hb1]
  | some bb =>
    have hb1 : a1.beginBlocker = some bb := hc1.2.2.2.2.2.2.1.trans hb
    obtain ⟨x, ms1, hrun, -⟩ := runHook_returns ({ a1 with valUpdates := [] } : BaseApp)
      (fun ctx => bb ctx req) ds1 (fun _ _ => True) hd1 (by
        intro ctx parent c
        obtain ⟨x, c1, h⟩ := hbegin bb hb ctx parent c
        have hcms : a1.cms = a.cms := hc1.2.1
        exact ⟨x, c1, by simpa [hcms] using h, trivial⟩)
    refine ⟨x, ({ a1 with valUpdates := [] } : BaseApp).setMS false ms1, _, ?_,
      deliverState_setMS ({ a1 with valUpdates := [] } : BaseApp) ds1 ms1 hd1,
      (sameConfig_setMS _ false ms1).trans hc2⟩
    have hb2 : ({ a1 with valUpdates := [] } : BaseApp).beginBlocker = some bb := hb1
    rw [← hrun]
    simp only [BaseApp.BeginBlock, ha1]
    rw [hb2]

/-- `EndBlock` with an end hook that returns and never writes `(s, k)` (or
none): the deliver state keeps what is buffered for `(s, k)`. -/
theorem EndBlock_keeps (a : BaseApp) (req : RequestEndBlock) (ds : state) (s : StoreKey)
    (k : Bytes) (hds : a.deliverState = some ds)
    (hend : ∀ eb, a.endBlocker = some eb → ∀ ctx parent c, ∃ x c1,
      (eb ctx req).run a.cms.hasStore parent c = (.ok x, c1) ∧ c1.buf s k = c.buf s k) :
    ∃ res a5 ds5, a.EndBlock req = .ok (res, a5) ∧ a5.deliverState = some ds5 ∧
      ds5.ms.buf s k = ds.ms.buf s k ∧ a5.SameConfig a := by
  cases he : a.endBlocker with
  | none =>
    exact ⟨{ ValidatorUpdates := a.valUpdates, Tags := [] }, a, ds,
      by simp [BaseApp.EndBlock, he], hds, rfl, BaseApp.SameConfig.refl a⟩
  | some eb =>
    obtain ⟨x, ms1, hrun, hk⟩ := runHook_returns a (fun ctx => eb ctx req) ds
      (fun c c1 => c1.buf s k = c.buf s k) hds (hend eb he)
    exact ⟨x, _, _, by simp [BaseApp.EndBlock, he, hrun], deliverState_setMS a ds ms1 hds, hk,
      sameConfig_setMS a false ms1⟩

/-- Loading the latest version of the root store succeeds and loads the mounted
sub-stores. -/
theorem LoadLatestVersion_cms (cms : CommitMultiStore) :
    ∃ cms1, cms.LoadLatestVersion = .ok cms1 ∧ cms1.stores = cms.storesParams ∧
      cms1.storesParams = cms.storesParams := by
  unfold CommitMultiStore.LoadLatestVersion CommitMultiStore.LoadVersion
  by_cases h0 : cms.latestVersion = 0
  · exact ⟨{ cms with stores := cms.storesParams, data := emptyView, lastCommitID := ⟨0, []⟩ },
      by rw [if_pos h0], rfl, rfl⟩
  · cases hdb : cms.db with
    | nil => simp [CommitMultiStore.latestVersion, hdb] at h0
    | cons e rest =>
      have hv : cms.latestVersion = e.1.Version := by simp [CommitMultiStore.latestVersion, hdb]
      refine ⟨{ cms with stores := cms.storesParams, data := e.2, lastCommitID := e.1 }, ?_,
        rfl, rfl⟩
      rw [if_neg h0, hv, hdb]
      simp [List.find?]

/-- Loading the latest version on an engine whose main store is mounted
succeeds: the configuration stays, the loaded sub-stores are the mounted ones. -/
theorem LoadLatestVersion_ok (app : BaseApp) (mainKey : StoreKey)
    (hmain : mainKey ∈ app.cms.storesParams) :
    ∃ app1, app.LoadLatestVersion mainKey = .ok app1 ∧
      app1.cms.hasStore = app.cms.mounted ∧
      app1.checkState = some ⟨CacheMultiStore.empty, NewContext Header.empty true []⟩ ∧
      app1.deliverState = app.deliverState ∧
      app1.router = app.router ∧ app1.txDecoder = app.txDecoder ∧
      app1.anteHandler = app.anteHandler ∧ app1.beginBlocker = app.beginBlocker ∧
      app1.endBlocker = app.endBlocker := by
  obtain ⟨cms1, hload, hstores, -⟩ := LoadLatestVersion_cms app.cms
  have hhas : cms1.hasStore mainKey = true := by
    simp [CommitMultiStore.hasStore, hstores, hmain]
  refine ⟨({ app with cms := cms1 } : BaseApp).setCheckState Header.empty, ?_, ?_,
    rfl, rfl, rfl, rfl, rfl, rfl, rfl⟩
  · simp [BaseApp.LoadLatestVersion, hload, BaseApp.initFromStore, hhas]
  · funext x
    simp [BaseApp.setCheckState, CommitMultiStore.hasStore, CommitMultiStore.mounted, hstores]

/-- C6 (end-to-end scenario).  Start from any engine whose main store is
mounted and load the latest version; then `BeginBlock`, `DeliverTx` of a
transaction whose handler writes `k = v1` and returns OK, `DeliverTx` of a
transaction whose handler writes `k = v2` and returns a failure code,
`EndBlock` and `Commit`.  With `v1 ≠ v2`, handlers that return on the loaded
store, and an ante handler and block hooks (if any) that let the block through
without writing `k`, the scenario runs to its end and leaves the check state
and the committed root store reading `k` as `v1` (and not `v2`), with the block
closed. -/
theorem scenario_reads_first_write
    (app : BaseApp) (mainKey : StoreKey) (reqBegin : RequestBeginBlock) (tx1 tx2 : Bytes)
    (reqEnd : RequestEndBlock) (t1 t2 : Tx) (m1 m2 : Msg) (h1 h2 : Handler)
    (s : StoreKey) (k v1 v2 : Bytes)
    (hmain : mainKey ∈ app.cms.storesParams)
    (hne : v1 ≠ v2)
    (hd1 : app.txDecoder tx1 = .ok t1) (hd2 : app.txDecoder tx2 = .ok t2)
    (hm1 : t1.GetMsg = some m1) (hm2 : t2.GetMsg = some m2)
    (hv1 : m1.ValidateBasic = none) (hv2 : m2.ValidateBasic = none)
    (hr1 : app.router.Route m1.typ = some h1) (hr2 : app.router.Route m2.typ = some h2)
    (hh1 : ∀ ctx parent, ∃ r c1,
      (h1 ctx m1).run app.cms.mounted parent CacheMultiStore.empty = (.ok r, c1) ∧
        (r.Code = ABCICodeOK ∧ c1.buf s k = some (some v1)))
    (hh2 : ∀ ctx parent, ∃ r c1,
      (h2 ctx m2).run app.cms.mounted parent CacheMultiStore.empty = (.ok r, c1) ∧
        (r.Code ≠ ABCICodeOK ∧ c1.buf s k = some (some v2)))
    (hante : ∀ ante, app.anteHandler = some ante → ∀ ctx tx parent c, ∃ nc r c1,
      (ante ctx tx).run app.cms.mounted parent c = (.ok (nc, r, false), c1) ∧
        c1.buf s k = c.buf s k)
    (hbegin : ∀ bb, app.beginBlocker = some bb → ∀ ctx parent c, ∃ x c1,
      (bb ctx reqBegin).run app.cms.mounted parent c = (.ok x, c1))
    (hend : ∀ eb, app.endBlocker = some eb → ∀ ctx parent c, ∃ x c1,
      (eb ctx reqEnd).run app.cms.mounted parent c = (.ok x, c1) ∧ c1.buf s k = c.buf s k) :
    ∃ app6, scenario app mainKey reqBegin tx1 tx2 reqEnd = .ok app6 ∧
      app6.read true s k = some (some v1) ∧
      app6.cms.data s k = some v1 ∧
      app6.read true s k ≠ some (some v2) ∧
      app6.deliverState = none := by
  obtain ⟨app1, hL, hhas, -, -, hrt, hdc, han, hbb, heb⟩ := LoadLatestVersion_ok app mainKey hmain
  have T : ∀ a : BaseApp, a.SameConfig app1 →
      a.cms.hasStore = app.cms.mounted ∧ a.router = app.router ∧ a.txDecoder = app.txDecoder ∧
      a.anteHandler = app.anteHandler ∧ a.endBlocker = app.endBlocker := by
    intro a h
    obtain ⟨-, c2, c3, c4, c5, -, -, c8⟩ := h
    exact ⟨by rw [c2, hhas], c3.trans hrt, c4.trans hdc, c5.trans han, c8.trans heb⟩
  -- BeginBlock
  obtain ⟨resB, a2, ds2, hB, hds2, hc2⟩ := BeginBlock_opens app1 reqBegin
    (by rw [hbb, hhas]; exact hbegin)
  obtain ⟨t2h, t2r, t2d, t2a, -⟩ := T a2 hc2
  -- first delivery
  obtain ⟨r3, c3, ms3, ⟨hok3, hw3⟩, -, hds3, hc3⟩ := DeliverTx_handler_returned a2 tx1 t1 m1 ds2 h1
    s k (fun r c1 => r.Code = ABCICodeOK ∧ c1.buf s k = some (some v1)) hds2
    (by rw [t2d]; exact hd1) hm1 hv1 (by rw [t2a, t2h]; exact hante)
    (by rw [t2r]; exact hr1) (by rw [t2h]; exact hh1)
  have hIsOK3 : r3.IsOK = true := by simpa [Result.IsOK] using hok3
  have hbuf3 : ({ ds2 with ms := if r3.IsOK then c3.Write ms3 else ms3 } : state).ms.buf s k =
      some (some v1) := by
    simp [hIsOK3, CacheMultiStore.Write, hw3]
  have hcfg3 := hc3.trans hc2
  obtain ⟨t3h, t3r, t3d, t3a, -⟩ := T _ hcfg3
  -- second delivery
  obtain ⟨r4, c4, ms4, ⟨hfail4, -⟩, hk4, hds4, hc4⟩ := DeliverTx_handler_returned
    (a2.DeliverTx tx1).2.1 tx2 t2 m2 _ h2
    s k (fun r c1 => r.Code ≠ ABCICodeOK ∧ c1.buf s k = some (some v2)) hds3
    (by rw [t3d]; exact hd2) hm2 hv2 (by rw [t3a, t3h]; exact hante)
    (by rw [t3r]; exact hr2) (by rw [t3h]; exact hh2)
  have hIsOK4 : r4.IsOK = false := by simpa [Result.IsOK] using hfail4
  have hcfg4 := hc4.trans hcfg3
  obtain ⟨t4h, -, -, -, t4e⟩ := T _ hcfg4
  -- EndBlock
  obtain ⟨resE, a5, ds5, hE, hds5, hk5, -⟩ := EndBlock_keeps
    ((a2.DeliverTx tx1).2.1.DeliverTx tx2).2.1 reqEnd _ s k hds4
    (by rw [t4e, t4h]; exact hend)
  have hbuf5 : ds5.ms.buf s k = some (some v1) := by
    rw [hk5]
    simp only [hIsOK4]
    exact hk4.trans hbuf3
  -- Commit
  obtain ⟨resC, app6, hC, -, hrd, hdt, -, hnone⟩ := Commit_open_reads a5 ds5 hds5
  have hget : ds5.ms.get a5.cms.data s k = some v1 := by
    simp [CacheMultiStore.get, hbuf5]
  refine ⟨app6, by simp only [scenario, hL, hB, hE, hC], ?_, ?_, ?_, hnone⟩
  · rw [hrd, hdt, hget]
  · rw [hdt, hget]
  · rw [hrd, hdt, hget]
    intro h
    exact hne (by simpa using h)

/-- The scenario on the example engine: `[1]` writes `main[1] = [1]` and succeeds,
`[2]` writes `main[1] = [2]` and fails. -/
theorem scenario_reads_first_write_witness :
    ∃ app6, scenario (exFresh (some (exAnte false))) "main" ⟨[], ⟨"chain", 1, 0⟩⟩ [1] [2] ⟨1⟩ =
        .ok app6 ∧
      app6.read true "main" [1] = some (some [1]) ∧
      app6.cms.data "main" [1] = some [1] := by
  obtain ⟨app6, h, hr, hd, -, -⟩ := scenario_reads_first_write (exFresh (some (exAnte false)))
    "main" ⟨[], ⟨"chain", 1, 0⟩⟩ [1] [2] ⟨1⟩ (exTx "good") (exTx "bad") (exMsg "good")
    (exMsg "bad") (exHandler 1 0) (exHandler 2 5) "main" [1] [1] [2]
    (by decide) (by decide) rfl rfl rfl rfl rfl rfl rfl rfl
    (fun _ _ => ⟨_, _, rfl, rfl, rfl⟩)
    (fun _ _ => ⟨_, _, rfl, by decide, rfl⟩)
    (fun ante hante _ _ _ c => by
      have he : exAnte false = ante := Option.some.inj hante
      subst he
      exact ⟨none, _, c.set "main" [9] [7], rfl, by simp [CacheMultiStore.set]⟩)
    (fun _ hb => by simp [exFresh, exApp] at hb)
    (fun _ he => by simp [exFresh, exApp] at he)
  exact ⟨app6, h, hr, hd⟩

/-! ## Decode failures -/

/-- C11 (decode failure).  For every byte string on which the decoder returns an
error: `CheckTx` and `DeliverTx` return a response carrying the code, data and
log of that error's Result, nothing is called (`runTx` is not entered: no
validation, no ante handler, no handler), and the engine after the call is the
engine before it, so `checkState`, `deliverState` and `valUpdates` are
unchanged. -/
theorem decode_failure_alters_nothing (app : BaseApp) (txBytes : Bytes) (err : Error)
    (hdec : app.txDecoder txBytes = .error err) :
    ((app.CheckTx txBytes).1.Code = err.Result.Code ∧
      (app.CheckTx txBytes).1.Data = err.Result.Data ∧
      (app.CheckTx txBytes).1.Log = err.Result.Log) ∧
    ((app.DeliverTx txBytes).1.Code = err.Result.Code ∧
      (app.DeliverTx txBytes).1.Data = err.Result.Data ∧
      (app.DeliverTx txBytes).1.Log = err.Result.Log) ∧
    (app.CheckTx txBytes).2 = (app, []) ∧
    (app.DeliverTx txBytes).2 = (app, []) ∧
    ((app.CheckTx txBytes).2.1.checkState = app.checkState ∧
      (app.CheckTx txBytes).2.1.deliverState = app.deliverState ∧
      (app.CheckTx txBytes).2.1.valUpdates = app.valUpdates) ∧
    ((app.DeliverTx txBytes).2.1.checkState = app.checkState ∧
      (app.DeliverTx txBytes).2.1.deliverState = app.deliverState ∧
      (app.DeliverTx txBytes).2.1.valUpdates = app.valUpdates) := by
  have hc : (app.CheckTx txBytes).2 = (app, []) := by simp [BaseApp.CheckTx, hdec]
  have hd : (app.DeliverTx txBytes).2 = (app, []) := by
    simp only [BaseApp.DeliverTx, hdec]
    have hv : err.Result.ValidatorUpdates = [] := rfl
    split <;> simp [hv]
  refine ⟨by simp [BaseApp.CheckTx, hdec], by simp [BaseApp.DeliverTx, hdec], hc, hd, ?_, ?_⟩
  · rw [hc]; exact ⟨rfl, rfl, rfl⟩
  · rw [hd]; exact ⟨rfl, rfl, rfl⟩

/-- The byte string `[5]` does not decode on the example engine. -/
theorem decode_failure_alters_nothing_witness :
    ((exApp (some (exAnte false))).CheckTx [5]).1.Code = 65538 ∧
    ((exApp (some (exAnte false))).CheckTx [5]).1.Log = "cannot decode" ∧
    ((exApp (some (exAnte false))).CheckTx [5]).2 = (exApp (some (exAnte false)), []) ∧
    ((exApp (some (exAnte false))).DeliverTx [5]).2 = (exApp (some (exAnte false)), []) := by
  have h := decode_failure_alters_nothing (exApp (some (exAnte false))) [5]
    ⟨CodespaceRoot, 2, "cannot decode"⟩ rfl
  exact ⟨h.1.1.trans rfl, h.1.2.2.trans rfl, h.2.2.1, h.2.2.2.1⟩

/-! ## Handler faults -/

/-- C12 (handler fault containment).  When a transaction reaches `handler` (valid
message, ante step not aborting and leaving the engine `app1` with selected
state `st1`) and the handler panics with value `r` at any point of its run,
having written `msCache` before: `runTx` returns, and what it returns is the
internal-error Result built from `r`, which is not OK; the engine after the
call is exactly `app1`, so every write of the handler is discarded and the
owning state reads every key as it did before the handler was invoked. -/
theorem runTx_handler_fault_contained
    (app : BaseApp) (isCheckTx : Bool) (txBytes : Bytes) (tx : Tx) (msg : Msg)
    (st st1 : state) (ctx1 : Context) (app1 : BaseApp) (ev : List Event)
    (handler : Handler) (r : String) (msCache : CacheMultiStore)
    (hmsg : tx.GetMsg = some msg) (hvalid : msg.ValidateBasic = none)
    (hst : app.getState isCheckTx = some st)
    (hante : app.runAnte isCheckTx st (st.ctx.WithTxBytes txBytes) tx = (.proceed ctx1, app1, ev))
    (hst1 : app1.getState isCheckTx = some st1)
    (hroute : app.router.Route msg.typ = some handler)
    (hrun : (handler ctx1 msg).run app.cms.hasStore (st1.ms.get app.cms.data)
      CacheMultiStore.empty = (.error r, msCache)) :
    (app.runTx isCheckTx txBytes tx).1 = (ErrInternal ("Recovered: " ++ r)).Result ∧
    (app.runTx isCheckTx txBytes tx).1.Code = ToABCICode CodespaceRoot CodeInternal ∧
    (app.runTx isCheckTx txBytes tx).1.IsOK = false ∧
    (app.runTx isCheckTx txBytes tx).2.1 = app1 ∧
    (∀ s k, (app.runTx isCheckTx txBytes tx).2.1.read isCheckTx s k =
      some (st1.ms.get app.cms.data s k)) := by
  obtain ⟨hc, hr, -, -⟩ := runAnte_cms_router app isCheckTx st _ tx _ app1 ev hante
  have hm : app1.runMsg isCheckTx st1 ctx1 msg =
      (recovered r, app1, [.route msg.typ, .cacheWrap, .handler msg.typ]) := by
    simp [BaseApp.runMsg, hr, hc, hroute, hrun]
  rw [runTx_proceed app isCheckTx txBytes tx msg st st1 ctx1 app1 ev hmsg hvalid hst hante hst1, hm]
  refine ⟨rfl, rfl, rfl, rfl, fun s k => ?_⟩
  simp [BaseApp.read, hst1, hc]

/-- A handler that writes `main[1] = [3]` and then panics, behind an ante handler
that writes `main[9] = [7]`: the handler's write is gone, the ante handler's
stays, and the Result is the internal error. -/
theorem runTx_handler_fault_contained_witness :
    (exFaulty.runTx false [1] (exTx "good")).1 = (ErrInternal "Recovered: boom").Result ∧
    (exFaulty.runTx false [1] (exTx "good")).1.IsOK = false ∧
    (exFaulty.runTx false [1] (exTx "good")).2.1.read false "main" [1] = some none ∧
    (exFaulty.runTx false [1] (exTx "good")).2.1.read false "main" [9] = some (some [7]) := by
  have h := runTx_handler_fault_contained exFaulty false [1] (exTx "good") (exMsg "good")
    (exState false)
    ⟨CacheMultiStore.empty.set "main" [9] [7], NewContext Header.empty false []⟩
    ((exState false).ctx.WithTxBytes [1])
    (exFaulty.setMS false (CacheMultiStore.empty.set "main" [9] [7]))
    [.anteHandler] exFaultyHandler "boom" (CacheMultiStore.empty.set "main" [1] [3])
    rfl rfl rfl rfl rfl rfl rfl
  refine ⟨h.1, h.2.2.1, ?_, ?_⟩
  · rw [h.2.2.2.2]; rfl
  · rw [h.2.2.2.2]; rfl

/-! ## Validator updates over a block -/

/-- The ante step leaves the configuration and the root store alone. -/
theorem runAnte_sameConfig (app : BaseApp) (b : Bool) (st : state) (ctx : Context) (tx : Tx) :
    (app.runAnte b st ctx tx).2.1.SameConfig app := by
  cases ha : app.anteHandler with
  | none => simp [BaseApp.runAnte, ha, BaseApp.SameConfig.refl]
  | some ante =>
    rcases h : (ante ctx tx).run app.cms.hasStore app.cms.data st.ms with ⟨out, ms1⟩
    cases out with
    | error r => simp [BaseApp.runAnte, ha, h, sameConfig_setMS]
    | ok v =>
      obtain ⟨newCtx, result, abort⟩ := v
      cases abort <;> cases newCtx <;> simp [BaseApp.runAnte, ha, h, sameConfig_setMS]

/-- The message step leaves the configuration and the root store alone. -/
theorem runMsg_sameConfig (app : BaseApp) (b : Bool) (st : state) (ctx : Context) (msg : Msg) :
    (app.runMsg b st ctx msg).2.1.SameConfig app := by
  cases hroute : app.router.Route msg.typ with
  | none => simp [BaseApp.runMsg, hroute, BaseApp.SameConfig.refl]
  | some handler =>
    rcases hrun : (handler ctx msg).run app.cms.hasStore (st.ms.get app.cms.data)
      CacheMultiStore.empty with ⟨out, msCache⟩
    cases out with
    | error r => simp [BaseApp.runMsg, hroute, hrun, BaseApp.SameConfig.refl]
    | ok result =>
      cases h : result.IsOK <;>
        simp [BaseApp.runMsg, hroute, hrun, h, sameConfig_setMS, BaseApp.SameConfig.refl]

/-- A call of `runTx` leaves the configuration and the root store alone. -/
theorem runTx_sameConfig (app : BaseApp) (b : Bool) (txBytes : Bytes) (tx : Tx) :
    (app.runTx b txBytes tx).2.1.SameConfig app := by
  cases hmsg : tx.GetMsg with
  | none => simp [BaseApp.runTx, hmsg, BaseApp.SameConfig.refl]
  | some msg =>
    cases hvalid : msg.ValidateBasic with
    | some err => simp [BaseApp.runTx, hmsg, hvalid, BaseApp.SameConfig.refl]
    | none =>
      cases hst : app.getState b with
      | none => simp [BaseApp.runTx, hmsg, hvalid, hst, BaseApp.SameConfig.refl]
      | some st =>
        have hA := runAnte_sameConfig app b st (st.ctx.WithTxBytes txBytes) tx
        rcases ha : app.runAnte b st (st.ctx.WithTxBytes txBytes) tx with ⟨out, app1, ev⟩
        rw [ha] at hA
        cases out with
        | aborted result => simpa [BaseApp.runTx, hmsg, hvalid, hst, ha] using hA
        | faulted r => simpa [BaseApp.runTx, hmsg, hvalid, hst, ha] using hA
        | proceed ctx1 =>
          obtain ⟨st1, hst1⟩ := runAnte_state_present app b st _ tx _ app1 ev hst ha
          rw [runTx_proceed app b txBytes tx msg st st1 ctx1 app1 ev hmsg hvalid hst ha hst1]
          exact (runMsg_sameConfig app1 b st1 ctx1 msg).trans hA

/-- What one `DeliverTx` does to the engine besides the deliver state: the
configuration, the root store and the check state stay, and the validator
updates of the Result are appended exactly when the Result is OK. -/
theorem DeliverTx_effect (app : BaseApp) (txBytes : Bytes) :
    (app.DeliverTx txBytes).2.1.SameConfig app ∧
    (app.DeliverTx txBytes).2.1.checkState = app.checkState ∧
    (app.DeliverTx txBytes).2.1.valUpdates =
      app.valUpdates ++ (if (app.deliverResult txBytes).IsOK
        then (app.deliverResult txBytes).ValidatorUpdates else []) := by
  cases hdec : app.txDecoder txBytes with
  | error err =>
    simp only [BaseApp.DeliverTx, BaseApp.deliverResult, hdec]
    split <;> simp [BaseApp.SameConfig]
  | ok tx =>
    have hc := runTx_sameConfig app false txBytes tx
    obtain ⟨-, hv, ho⟩ := runTx_frame app false txBytes tx
    have ho2 : (app.runTx false txBytes tx).2.1.checkState = app.checkState := by
      simpa [BaseApp.getState] using ho
    simp only [BaseApp.DeliverTx, BaseApp.deliverResult, hdec]
    split
    · exact ⟨hc, ho2, by simp [hv]⟩
    · exact ⟨hc, ho2, by simp [hv]⟩

/-- A sequence of `DeliverTx` calls: the configuration, the root store and the
check state stay, and the validator updates of the OK Results are appended in
delivery order. -/
theorem DeliverTxs_effect (txs : List Bytes) : ∀ app : BaseApp,
    (app.DeliverTxs txs).SameConfig app ∧
    (app.DeliverTxs txs).checkState = app.checkState ∧
    (app.DeliverTxs txs).valUpdates = app.valUpdates ++ okUpdates (app.deliverResults txs) := by
  induction txs with
  | nil => intro app; exact ⟨BaseApp.SameConfig.refl app, rfl, by simp [BaseApp.DeliverTxs,
      BaseApp.deliverResults, okUpdates]⟩
  | cons txBytes rest ih =>
    intro app
    obtain ⟨h1, h2, h3⟩ := ih (app.DeliverTx txBytes).2.1
    obtain ⟨g1, g2, g3⟩ := DeliverTx_effect app txBytes
    refine ⟨h1.trans g1, h2.trans g2, ?_⟩
    simp only [BaseApp.DeliverTxs, BaseApp.deliverResults, okUpdates]
    rw [h3, g3]
    split <;> simp

/-- A block hook that returned: it ran on the deliver state's overlay, which
is all it changed. -/
theorem runHook_ok {α : Type} (a : BaseApp) (hook : Context → Prog α) (x : α) (a1 : BaseApp)
    (h : a.runHook hook = .ok (x, a1)) :
    ∃ ds ms1, a.deliverState = some ds ∧ a1 = a.setMS false ms1 ∧
      (hook ds.ctx).run a.cms.hasStore a.cms.data ds.ms = (.ok x, ms1) := by
  cases hd : a.deliverState with
  | none => simp [BaseApp.runHook, hd] at h
  | some ds =>
    rcases hrun : (hook ds.ctx).run a.cms.hasStore a.cms.data ds.ms with ⟨out, ms1⟩
    cases out with
    | error r => simp [BaseApp.runHook, hd, hrun] at h
    | ok y =>
      simp only [BaseApp.runHook, hd, hrun, Except.ok.injEq, Prod.mk.injEq] at h
      exact ⟨ds, ms1, rfl, h.2.symm, h.1 ▸ hrun⟩

/-- A `BeginBlock` that returned: the validator updates are reset, the block is
open, and the configuration, the root store and the check state stay. -/
theorem BeginBlock_ok (app : BaseApp) (req : RequestBeginBlock) (res : ResponseBeginBlock)
    (app1 : BaseApp) (h : app.BeginBlock req = .ok (res, app1)) :
    app1.valUpdates = [] ∧ app1.SameConfig app ∧ app1.checkState = app.checkState ∧
      ∃ ds, app1.deliverState = some ds := by
  have hopen : ∃ a1 ds1, (match app.deliverState with
      | none => app.setDeliverState req.Header
      | some _ => app) = a1 ∧ a1.deliverState = some ds1 ∧ a1.SameConfig app ∧
        a1.checkState = app.checkState := by
    cases hd : app.deliverState with
    | none => exact ⟨_, _, rfl, rfl, ⟨rfl, rfl, rfl, rfl, rfl, rfl, rfl, rfl⟩, rfl⟩
    | some ds => exact ⟨app, ds, rfl, hd, BaseApp.SameConfig.refl app, rfl⟩
  obtain ⟨a1, ds1, ha1, hd1, hc1, hk1⟩ := hopen
  have key : ∀ app2 : BaseApp, app2.valUpdates = [] → app2.SameConfig app →
      app2.checkState = app.checkState → (∃ ds, app2.deliverState = some ds) →
      (match app2.beginBlocker with
        | none => Except.ok ((⟨[]⟩ : ResponseBeginBlock), app2)
        | some bb => app2.runHook (fun ctx => bb ctx req)) = .ok (res, app1) →
      app1.valUpdates = [] ∧ app1.SameConfig app ∧ app1.checkState = app.checkState ∧
        ∃ ds, app1.deliverState = some ds := by
    intro app2 hv hc hk hd h2
    obtain ⟨ds2, hd2⟩ := hd
    cases hb : app2.beginBlocker with
    | none =>
      simp only [hb, Except.ok.injEq, Prod.mk.injEq] at h2
      rw [← h2.2]
      exact ⟨hv, hc, hk, ds2, hd2⟩
    | some bb =>
      simp only [hb] at h2
      obtain ⟨ds, ms1, hds, happ, -⟩ := runHook_ok _ _ res app1 h2
      rw [happ]
      refine ⟨by rw [valUpdates_setMS, hv], (sameConfig_setMS _ false ms1).trans hc, ?_, ?_⟩
      · have := getState_setMS_other app2 false ms1
        simpa [BaseApp.getState, hk] using this
      · exact ⟨_, deliverState_setMS _ ds ms1 hds⟩
  exact key { a1 with valUpdates := [] } rfl hc1 hk1 ⟨ds1, hd1⟩
    (by simpa only [BaseApp.BeginBlock, ha1] using h)

/-- C13 (validator-update accumulation).  For every block `BeginBlock`,
`DeliverTx(t1)`, ..., `DeliverTx(tn)`, `EndBlock` on an engine with no end hook:
`EndBlock` returns exactly the concatenation, in delivery order, of the
validator updates of those deliveries whose Result is OK.  Updates of failed
deliveries are absent, and so is whatever was accumulated before this
`BeginBlock`. -/
theorem block_validator_updates (app : BaseApp) (req : RequestBeginBlock) (txs : List Bytes)
    (reqEnd : RequestEndBlock) (res : ResponseBeginBlock) (app1 : BaseApp)
    (hbegin : app.BeginBlock req = .ok (res, app1))
    (hend : app.endBlocker = none) :
    (app1.DeliverTxs txs).EndBlock reqEnd =
      .ok ({ ValidatorUpdates := okUpdates (app1.deliverResults txs), Tags := [] },
        app1.DeliverTxs txs) := by
  obtain ⟨hv, hc, -, -⟩ := BeginBlock_ok app req res app1 hbegin
  obtain ⟨g1, -, g3⟩ := DeliverTxs_effect txs app1
  have he : (app1.DeliverTxs txs).endBlocker = none :=
    (g1.trans hc).2.2.2.2.2.2.2.trans hend
  simp [BaseApp.EndBlock, he, g3, hv]

/-- On the example engine with stale updates accumulated, a block delivering a
succeeding, a failing and again a succeeding transaction ends with the two
updates of the succeeding ones. -/
theorem block_validator_updates_witness :
    ∃ app1, exVal.BeginBlock ⟨[], ⟨"chain", 1, 0⟩⟩ = .ok (⟨[]⟩, app1) ∧
      (app1.DeliverTxs [[1], [2], [1]]).EndBlock ⟨1⟩ =
        .ok ({ ValidatorUpdates := [⟨[1], 10⟩, ⟨[1], 10⟩], Tags := [] },
          app1.DeliverTxs [[1], [2], [1]]) :=
  ⟨_, rfl, block_validator_updates exVal ⟨[], ⟨"chain", 1, 0⟩⟩ [[1], [2], [1]] ⟨1⟩ ⟨[]⟩ _ rfl rfl⟩

/-- The code of the response of `DeliverTx` is the code of the Result it worked
with. -/
theorem DeliverTx_response_code (app : BaseApp) (txBytes : Bytes) :
    (app.DeliverTx txBytes).1.Code = (app.deliverResult txBytes).Code := by
  cases hdec : app.txDecoder txBytes <;> simp [BaseApp.DeliverTx, BaseApp.deliverResult, hdec]

/-! ## Closing and opening blocks -/

/-- `BeginBlock` on an engine with no deliver state: the optional begin hook runs
on a deliver state freshly set for the request's header, after the validator
updates were reset. -/
theorem BeginBlock_closed (app : BaseApp) (req : RequestBeginBlock)
    (hclosed : app.deliverState = none) :
    app.BeginBlock req =
      (match app.beginBlocker with
        | none => .ok (⟨[]⟩, { app.setDeliverState req.Header with valUpdates := [] })
        | some bb => ({ app.setDeliverState req.Header with valUpdates := [] } : BaseApp).runHook
            (fun ctx => bb ctx req)) := by
  simp only [BaseApp.BeginBlock, hclosed]
  rfl

/-- `BeginBlock` on an engine with a deliver state: the state is kept, and the
optional begin hook runs on it after the validator updates were reset. -/
theorem BeginBlock_open (app : BaseApp) (req : RequestBeginBlock) (ds : state)
    (hopen : app.deliverState = some ds) :
    app.BeginBlock req =
      (match app.beginBlocker with
        | none => .ok (⟨[]⟩, { app with valUpdates := [] })
        | some bb => ({ app with valUpdates := [] } : BaseApp).runHook (fun ctx => bb ctx req)) := by
  simp only [BaseApp.BeginBlock, hopen]

/-- C14 (Commit closes the block).  For every engine with an open block, `Commit`
returns and leaves no deliver state.  The next `BeginBlock(h)` creates a fresh
deliver state, an empty overlay over the committed root store (reading every
key as the committed value) bound to header `h`, and runs the optional begin
hook on it: whenever that `BeginBlock` returns, the deliver state is bound to
`h`, and with no begin hook it is still the empty overlay. -/
theorem Commit_closes_block (app : BaseApp) (ds : state) (req : RequestBeginBlock)
    (hopen : app.deliverState = some ds) :
    ∃ res app1, app.Commit = .ok (res, app1) ∧ app1.deliverState = none ∧
      (app1.setDeliverState req.Header).deliverState =
        some ⟨CacheMultiStore.empty, NewContext req.Header false []⟩ ∧
      (∀ s k, (app1.setDeliverState req.Header).read false s k = some (app1.cms.data s k)) ∧
      app1.BeginBlock req =
        (match app1.beginBlocker with
          | none => .ok (⟨[]⟩, { app1.setDeliverState req.Header with valUpdates := [] })
          | some bb =>
            ({ app1.setDeliverState req.Header with valUpdates := [] } : BaseApp).runHook
              (fun ctx => bb ctx req)) ∧
      (∀ res2 app2, app1.BeginBlock req = .ok (res2, app2) →
        ∃ ms, app2.deliverState = some ⟨ms, NewContext req.Header false []⟩) ∧
      (app1.beginBlocker = none → ∃ res2 app2, app1.BeginBlock req = .ok (res2, app2) ∧
        app2.deliverState = some ⟨CacheMultiStore.empty, NewContext req.Header false []⟩ ∧
        ∀ s k, app2.read false s k = some (app1.cms.data s k)) := by
  obtain ⟨res, app1, hC, -, -, -, -, hnone⟩ := Commit_open_reads app ds hopen
  have hB := BeginBlock_closed app1 req hnone
  have hread : ∀ s k, (app1.setDeliverState req.Header).read false s k =
      some (app1.cms.data s k) := by
    intro s k
    simp [BaseApp.read, BaseApp.getState, BaseApp.setDeliverState, CacheMultiStore.get,
      CacheMultiStore.empty]
  refine ⟨res, app1, hC, hnone, rfl, hread, hB, ?_, ?_⟩
  · intro res2 app2 h2
    rw [hB] at h2
    cases hb : app1.beginBlocker with
    | none =>
      simp only [hb, Except.ok.injEq, Prod.mk.injEq] at h2
      exact ⟨CacheMultiStore.empty, by rw [← h2.2]; rfl⟩
    | some bb =>
      simp only [hb] at h2
      obtain ⟨ds2, ms1, hds2, happ, -⟩ := runHook_ok _ _ res2 app2 h2
      have hds3 : ds2 = ⟨CacheMultiStore.empty, NewContext req.Header false []⟩ :=
        (Option.some.inj hds2).symm
      exact ⟨ms1, by rw [happ, deliverState_setMS _ ds2 ms1 hds2, hds3]⟩
  · intro hb
    refine ⟨⟨[]⟩, { app1.setDeliverState req.Header with valUpdates := [] }, ?_, rfl, hread⟩
    rw [hB, hb]

/-- After `Commit` on the example engine in an open block, `BeginBlock` for the
header of height 2 opens a block whose deliver state reads the committed
`main[1] = [1]`. -/
theorem Commit_closes_block_witness :
    ∃ res app1, exOpenBlock.Commit = .ok (res, app1) ∧ app1.deliverState = none ∧
      ∃ res2 app2, app1.BeginBlock ⟨[], ⟨"chain", 2, 0⟩⟩ = .ok (res2, app2) ∧
        app2.deliverState =
          some ⟨CacheMultiStore.empty, NewContext ⟨"chain", 2, 0⟩ false []⟩ ∧
        app2.read false "main" [1] = some (some [1]) := by
  obtain ⟨res, app1, hC, hnone, -, -, -, -, h⟩ := Commit_closes_block exOpenBlock
    ⟨CacheMultiStore.empty.set "main" [1] [1], NewContext ⟨"chain", 1, 0⟩ false []⟩
    ⟨[], ⟨"chain", 2, 0⟩⟩ rfl
  have hC2 : exOpenBlock.Commit = .ok (res, app1) := hC
  obtain ⟨res2, app2, hB, hds, hr⟩ := h (by
    simp only [BaseApp.Commit, exOpenBlock, Except.ok.injEq, Prod.mk.injEq] at hC2
    rw [← hC2.2]
    rfl)
  refine ⟨res, app1, hC, hnone, res2, app2, hB, hds, ?_⟩
  rw [hr]
  simp only [BaseApp.Commit, exOpenBlock, Except.ok.injEq, Prod.mk.injEq] at hC2
  rw [← hC2.2]
  rfl

/-! ## InitChain -/

/-- An `InitChain` that returned: with no init hook nothing changed; with an
init hook it ran on a deliver state freshly set for the empty header, and the
overlay it left is all that changed. -/
theorem InitChain_ok (app : BaseApp) (req : RequestInitChain) (app1 : BaseApp)
    (h : app.InitChain req = .ok app1) :
    (app.initChainer = none ∧ app1 = app) ∨
    (∃ ic ms1, app.initChainer = some ic ∧
      app1 = (app.setDeliverState Header.empty).setMS false ms1 ∧
      (ic (NewContext Header.empty false []) req).run app.cms.hasStore app.cms.data
        CacheMultiStore.empty = (.ok (), ms1)) := by
  cases hic : app.initChainer with
  | none =>
    simp only [BaseApp.InitChain, hic, Except.ok.injEq] at h
    exact Or.inl ⟨rfl, h.symm⟩
  | some ic =>
    right
    simp only [BaseApp.InitChain, hic] at h
    cases hh : (app.setDeliverState Header.empty).runHook (fun ctx => ic ctx req) with
    | error r => simp [hh] at h
    | ok v =>
      obtain ⟨x, a1⟩ := v
      simp only [hh, Except.ok.injEq] at h
      obtain ⟨ds, ms1, hds, happ, hrun⟩ := runHook_ok _ _ x a1 hh
      have hds2 : ds = ⟨CacheMultiStore.empty, NewContext Header.empty false []⟩ :=
        (Option.some.inj hds).symm
      subst hds2
      exact ⟨ic, ms1, rfl, by rw [← h, happ], hrun⟩

/-- C16 (InitChain does not commit).  With no init hook configured, `InitChain`
returns the engine as it was (no deliver state is created).  With an init hook
configured, whenever `InitChain` returns: the hook ran against a freshly
created deliver state bound to the empty header, whose overlay `ms1` now holds
what the hook wrote; the root store is unchanged (contents and last CommitID);
and the following `BeginBlock` keeps that deliver state and only runs the
optional begin hook on it, so with no begin hook every key reads in the deliver
state of block 1 as the init hook left it. -/
theorem InitChain_does_not_commit (app : BaseApp) (req : RequestInitChain)
    (reqB : RequestBeginBlock) :
    (app.initChainer = none → app.InitChain req = .ok app) ∧
    (∀ ic app1, app.initChainer = some ic → app.InitChain req = .ok app1 →
      app1.cms = app.cms ∧ app1.cms.data = app.cms.data ∧
      app1.cms.lastCommitID = app.cms.lastCommitID ∧
      ∃ ms1, (ic (NewContext Header.empty false []) req).run app.cms.hasStore app.cms.data
          CacheMultiStore.empty = (.ok (), ms1) ∧
        app1.deliverState = some ⟨ms1, NewContext Header.empty false []⟩ ∧
        app1.BeginBlock reqB =
          (match app1.beginBlocker with
            | none => .ok (⟨[]⟩, { app1 with valUpdates := [] })
            | some bb =>
              ({ app1 with valUpdates := [] } : BaseApp).runHook (fun ctx => bb ctx reqB)) ∧
        (app1.beginBlocker = none → ∃ resB app2, app1.BeginBlock reqB = .ok (resB, app2) ∧
          app2.deliverState = app1.deliverState ∧
          ∀ s k, app2.read false s k = some (ms1.get app.cms.data s k))) := by
  refine ⟨fun hnone => by simp [BaseApp.InitChain, hnone], ?_⟩
  intro ic app1 hic hinit
  rcases InitChain_ok app req app1 hinit with ⟨hn, -⟩ | ⟨ic2, ms1, hic2, happ, hrun⟩
  · rw [hn] at hic; cases hic
  · have hicEq : ic2 = ic := Option.some.inj (hic2.symm.trans hic)
    subst hicEq
    have hcms : app1.cms = app.cms := by rw [happ, cms_setMS]; rfl
    have hds : app1.deliverState = some ⟨ms1, NewContext Header.empty false []⟩ := by
      rw [happ]; rfl
    have hB := BeginBlock_open app1 reqB _ hds
    refine ⟨hcms, by rw [hcms], by rw [hcms], ms1, hrun, hds, hB, fun hb => ?_⟩
    refine ⟨⟨[]⟩, { app1 with valUpdates := [] }, by rw [hB, hb], rfl, fun s k => ?_⟩
    simp [BaseApp.read, BaseApp.getState, hds, hcms]

/-- On the example engine the init hook writes `main[1] = [1]`: after
`InitChain` and `BeginBlock` the deliver state reads it, and the root store
does not. -/
theorem InitChain_does_not_commit_witness :
    ∃ app1, exGenesis.InitChain ⟨[], []⟩ = .ok app1 ∧
      app1.cms = exGenesis.cms ∧
      ∃ resB app2, app1.BeginBlock ⟨[], ⟨"chain", 1, 0⟩⟩ = .ok (resB, app2) ∧
        app2.read false "main" [1] = some (some [1]) := by
  obtain ⟨h1, -, -, ms1, hrun, -, -, himp⟩ := (InitChain_does_not_commit exGenesis ⟨[], []⟩
    ⟨[], ⟨"chain", 1, 0⟩⟩).2 exInitChainer
    ((exGenesis.setDeliverState Header.empty).setMS false
      (CacheMultiStore.empty.set "main" [1] [1])) rfl rfl
  have e : ((Except.ok () : Except String Unit), CacheMultiStore.empty.set "main" [1] [1]) =
      (Except.ok (), ms1) := hrun
  have hms : ms1 = CacheMultiStore.empty.set "main" [1] [1] := (Prod.mk.inj e).2.symm
  obtain ⟨resB, app2, hB2, -, hr⟩ := himp rfl
  exact ⟨_, rfl, h1, resB, app2, hB2, by rw [hr, hms]; rfl⟩

/-- The counterexample to C17 as stated: on the example engine, whose init hook
writes `main[1] = [1]`, after `InitChain` the write is in the deliver state only:
the root store does not hold it and its last CommitID has not advanced. -/
theorem InitChain_not_committed :
    ∃ app1, exGenesis.InitChain ⟨[], []⟩ = .ok app1 ∧
      app1.read false "main" [1] = some (some [1]) ∧
      app1.cms.data "main" [1] = none ∧
      app1.cms.lastCommitID = exGenesis.cms.lastCommitID ∧
      app1.cms.db = exGenesis.cms.db :=
  ⟨_, rfl, rfl, rfl, rfl, rfl⟩

/-- C17 (amended: InitChain runs the initialization logic on a deliver state
over the CommitMultiStore and does not commit it).  After `InitChain` with an
init hook configured, the root store's contents and last CommitID are those of
before; the hook's writes are buffered in the deliver state, and they enter the
committed root store, whose version advances by one, at the next `Commit`. -/
theorem InitChain_writes_reach_root_at_Commit (app : BaseApp) (req : RequestInitChain)
    (ic : Context → RequestInitChain → Prog Unit) (app1 : BaseApp)
    (hic : app.initChainer = some ic) (hinit : app.InitChain req = .ok app1) :
    app1.cms.data = app.cms.data ∧ app1.cms.lastCommitID = app.cms.lastCommitID ∧
    ∃ ds, app1.deliverState = some ds ∧
      (ic (NewContext Header.empty false []) req).run app.cms.hasStore app.cms.data
        CacheMultiStore.empty = (.ok (), ds.ms) ∧
      ∃ res app2, app1.Commit = .ok (res, app2) ∧
        (∀ s k, app2.cms.data s k = ds.ms.get app.cms.data s k) ∧
        app2.cms.lastCommitID.Version = app.cms.lastCommitID.Version + 1 := by
  rcases InitChain_ok app req app1 hinit with ⟨hn, -⟩ | ⟨ic2, ms1, hic2, happ, hrun⟩
  · rw [hn] at hic; cases hic
  · have hicEq : ic2 = ic := Option.some.inj (hic2.symm.trans hic)
    subst hicEq
    have hcms : app1.cms = app.cms := by rw [happ, cms_setMS]; rfl
    have hds : app1.deliverState = some ⟨ms1, NewContext Header.empty false []⟩ := by
      rw [happ]; rfl
    refine ⟨by rw [hcms], by rw [hcms], _, hds, hrun, _, _, Commit_open app1 _ hds, ?_, ?_⟩
    · intro s k
      simp [BaseApp.setCheckState, CommitMultiStore.Commit, CacheMultiStore.WriteRoot, hcms]
    · simp [BaseApp.setCheckState, CommitMultiStore.Commit, CacheMultiStore.WriteRoot, hcms]

/-- On the example engine: `InitChain`, then `Commit`, puts `main[1] = [1]` into
the root store at version 1. -/
theorem InitChain_writes_reach_root_at_Commit_witness :
    ∃ app1, exGenesis.InitChain ⟨[], []⟩ = .ok app1 ∧ app1.cms.data "main" [1] = none ∧
      ∃ res app2, app1.Commit = .ok (res, app2) ∧ app2.cms.data "main" [1] = some [1] ∧
        app2.cms.lastCommitID.Version = 1 := by
  obtain ⟨-, -, ds, hds, -, res, app2, hC, hd, hv⟩ :=
    InitChain_writes_reach_root_at_Commit exGenesis ⟨[], []⟩ exInitChainer
      ((exGenesis.setDeliverState Header.empty).setMS false
        (CacheMultiStore.empty.set "main" [1] [1])) rfl rfl
  have hds2 : ds = ⟨CacheMultiStore.empty.set "main" [1] [1], NewContext Header.empty false []⟩ :=
    (Option.some.inj hds).symm
  subst hds2
  exact ⟨_, rfl, rfl, res, app2, hC, (hd "main" [1]).trans rfl, hv.trans rfl⟩

/-! ## Commit results and Info -/

/-- One `CheckTx` leaves the configuration and the root store alone. -/
theorem CheckTx_sameConfig (app : BaseApp) (txBytes : Bytes) :
    (app.CheckTx txBytes).2.1.SameConfig app := by
  cases hdec : app.txDecoder txBytes with
  | error err => simp [BaseApp.CheckTx, hdec, BaseApp.SameConfig.refl]
  | ok tx => simpa [BaseApp.CheckTx, hdec] using runTx_sameConfig app true txBytes tx

/-- An `EndBlock` that returned leaves the configuration and the root store
alone. -/
theorem EndBlock_ok (app : BaseApp) (req : RequestEndBlock) (res : ResponseEndBlock)
    (app1 : BaseApp) (h : app.EndBlock req = .ok (res, app1)) : app1.SameConfig app := by
  cases he : app.endBlocker with
  | none =>
    simp only [BaseApp.EndBlock, he, Except.ok.injEq, Prod.mk.injEq] at h
    rw [← h.2]
    exact BaseApp.SameConfig.refl app
  | some eb =>
    simp only [BaseApp.EndBlock, he] at h
    obtain ⟨ds, ms1, -, happ, -⟩ := runHook_ok _ _ res app1 h
    rw [happ]
    exact sameConfig_setMS app false ms1

/-- An `InitChain` that returned leaves the configuration and the root store
alone. -/
theorem InitChain_sameConfig (app : BaseApp) (req : RequestInitChain) (app1 : BaseApp)
    (h : app.InitChain req = .ok app1) : app1.SameConfig app := by
  rcases InitChain_ok app req app1 h with ⟨-, happ⟩ | ⟨ic, ms1, -, happ, -⟩
  · rw [happ]; exact BaseApp.SameConfig.refl app
  · rw [happ]
    exact (sameConfig_setMS _ false ms1).trans ⟨rfl, rfl, rfl, rfl, rfl, rfl, rfl, rfl⟩

/-- What `Commit` returns and does to the root store: the deliver overlay is
written into the root store, then the root store is committed once; the
response carries that commit's hash. -/
theorem Commit_ok (app : BaseApp) (res : ResponseCommit) (app1 : BaseApp)
    (h : app.Commit = .ok (res, app1)) :
    ∃ ds, app.deliverState = some ds ∧ app1.name = app.name ∧
      app1.cms = ((ds.ms.WriteRoot app.cms).Commit).2 ∧
      res.Data = ((ds.ms.WriteRoot app.cms).Commit).1.Hash ∧
      app1.cms.lastCommitID = ⟨app.cms.lastCommitID.Version + 1, res.Data⟩ := by
  cases hd : app.deliverState with
  | none => simp [BaseApp.Commit, hd] at h
  | some ds =>
    rw [Commit_open app ds hd] at h
    simp only [Except.ok.injEq, Prod.mk.injEq] at h
    refine ⟨ds, rfl, ?_, ?_, ?_, ?_⟩
    · rw [← h.2]; rfl
    · rw [← h.2]; rfl
    · rw [← h.1]
    · rw [← h.2, ← h.1]; rfl

/-- One protocol call keeps the application name; a call other than `Commit`
returns no commit hash and leaves the root store alone, and `Commit` returns
the hash `h` and leaves the last CommitID one version further with hash `h`. -/
theorem call_effect (app : BaseApp) (op : Op) (r : Resp) (app1 : BaseApp)
    (h : app.call op = .ok (r, app1)) :
    app1.name = app.name ∧
    ((commitData [r] = [] ∧ app1.cms = app.cms) ∨
      (∃ d, commitData [r] = [d] ∧
        app1.cms.lastCommitID = ⟨app.cms.lastCommitID.Version + 1, d⟩)) := by
  cases op with
  | initChain req =>
    cases hh : app.InitChain req with
    | error e => simp [BaseApp.call, hh] at h
    | ok a =>
      simp only [BaseApp.call, hh, Except.ok.injEq, Prod.mk.injEq] at h
      have hc := InitChain_sameConfig app req a hh
      rw [← h.1, ← h.2]
      exact ⟨hc.1, Or.inl ⟨rfl, hc.2.1⟩⟩
  | beginBlock req =>
    cases hh : app.BeginBlock req with
    | error e => simp [BaseApp.call, hh] at h
    | ok v =>
      obtain ⟨res, a⟩ := v
      simp only [BaseApp.call, hh, Except.ok.injEq, Prod.mk.injEq] at h
      obtain ⟨-, hc, -, -⟩ := BeginBlock_ok app req res a hh
      rw [← h.1, ← h.2]
      exact ⟨hc.1, Or.inl ⟨rfl, hc.2.1⟩⟩
  | checkTx txBytes =>
    simp only [BaseApp.call, Except.ok.injEq, Prod.mk.injEq] at h
    have hc := CheckTx_sameConfig app txBytes
    rw [← h.1, ← h.2]
    exact ⟨hc.1, Or.inl ⟨rfl, hc.2.1⟩⟩
  | deliverTx txBytes =>
    simp only [BaseApp.call, Except.ok.injEq, Prod.mk.injEq] at h
    obtain ⟨hc, -, -⟩ := DeliverTx_effect app txBytes
    rw [← h.1, ← h.2]
    exact ⟨hc.1, Or.inl ⟨rfl, hc.2.1⟩⟩
  | endBlock req =>
    cases hh : app.EndBlock req with
    | error e => simp [BaseApp.call, hh] at h
    | ok v =>
      obtain ⟨res, a⟩ := v
      simp only [BaseApp.call, hh, Except.ok.injEq, Prod.mk.injEq] at h
      have hc := EndBlock_ok app req res a hh
      rw [← h.1, ← h.2]
      exact ⟨hc.1, Or.inl ⟨rfl, hc.2.1⟩⟩
  | commit =>
    cases hh : app.Commit with
    | error e => simp [BaseApp.call, hh] at h
    | ok v =>
      obtain ⟨res, a⟩ := v
      simp only [BaseApp.call, hh, Except.ok.injEq, Prod.mk.injEq] at h
      obtain ⟨ds, -, hn, -, -, hid⟩ := Commit_ok app res a hh
      rw [← h.1, ← h.2]
      exact ⟨hn, Or.inr ⟨res.Data, rfl, hid⟩⟩

theorem commitData_cons (r : Resp) (rs : List Resp) :
    commitData (r :: rs) = commitData [r] ++ commitData rs := by
  cases r <;> simp [commitData]

/-- Over a sequence of protocol calls the application name stays, the version
of the last CommitID grows by the number of `Commit` calls, the hash of the
last CommitID is the hash that the last `Commit` call returned, and without a
`Commit` call the last CommitID stays. -/
theorem calls_commits (ops : List Op) : ∀ (app : BaseApp) (rs : List Resp) (app1 : BaseApp),
    app.calls ops = .ok (rs, app1) →
    app1.name = app.name ∧
    app1.cms.lastCommitID.Version = app.cms.lastCommitID.Version + (commitData rs).length ∧
    (∀ d, (commitData rs).getLast? = some d → app1.cms.lastCommitID.Hash = d) ∧
    (commitData rs = [] → app1.cms.lastCommitID = app.cms.lastCommitID) := by
  induction ops with
  | nil =>
    intro app rs app1 h
    simp only [BaseApp.calls, Except.ok.injEq, Prod.mk.injEq] at h
    rw [← h.1, ← h.2]
    simp [commitData]
  | cons op rest ih =>
    intro app rs app1 h
    cases hc : app.call op with
    | error e => simp [BaseApp.calls, hc] at h
    | ok v =>
      obtain ⟨r, a⟩ := v
      cases hr : a.calls rest with
      | error e => simp [BaseApp.calls, hc, hr] at h
      | ok w =>
        obtain ⟨rs2, a2⟩ := w
        simp only [BaseApp.calls, hc, hr, Except.ok.injEq, Prod.mk.injEq] at h
        obtain ⟨hn2, hv2, hh2, hz2⟩ := ih a rs2 a2 hr
        obtain ⟨hn1, heff⟩ := call_effect app op r a hc
        rw [← h.1, ← h.2, commitData_cons]
        rcases heff with ⟨hnil, hcms⟩ | ⟨d, hd, hid⟩
        · rw [hnil]
          refine ⟨hn2.trans hn1, ?_, ?_, ?_⟩
          · rw [hv2, hcms]; simp
          · simpa using hh2
          · intro hz
            rw [hz2 (by simpa using hz), hcms]
        · rw [hd]
          refine ⟨hn2.trans hn1, ?_, ?_, ?_⟩
          · rw [hv2, hid]
            simp only [List.singleton_append, List.length_cons]
            push_cast
            ring
          · intro d2 hd2
            cases hcd : commitData rs2 with
            | nil =>
              rw [hcd] at hd2
              simp only [List.singleton_append, List.getLast?_singleton, Option.some.injEq] at hd2
              rw [hz2 hcd, hid, ← hd2]
            | cons x xs =>
              apply hh2
              rw [hcd] at hd2 ⊢
              simpa [List.getLast?_cons_cons] using hd2
          · intro hz
            simp at hz

/-- C15 (Commit result and Info).  Start from a store at version 0 and make any
sequence of protocol calls that returns, with responses `ress`; let `k` be the
number of `Commit` calls among them (blocks without transactions included).
Then `Info` reports the application name, `LastBlockHeight = k`, and as
`LastBlockAppHash` the hash that the `k`-th `Commit` returned.  And a further
`Commit` on an open block writes the deliver overlay into the root store and
then commits the root store exactly once (one more snapshot), returns that
commit's hash (the content hash of the written store) as its `Data`, and makes
`Info` report height `k + 1` with that hash. -/
theorem Commit_result_and_Info (app : BaseApp) (ops : List Op) (ress : List Resp)
    (app1 : BaseApp) (hfresh : app.cms.lastCommitID.Version = 0)
    (hrun : app.calls ops = .ok (ress, app1)) :
    app1.Info.Data = app.name ∧
    app1.Info.LastBlockHeight = (commitData ress).length ∧
    (∀ d, (commitData ress).getLast? = some d → app1.Info.LastBlockAppHash = d) ∧
    (∀ ds, app1.deliverState = some ds → ∃ res app2, app1.Commit = .ok (res, app2) ∧
      app2.cms = ((ds.ms.WriteRoot app1.cms).Commit).2 ∧
      res.Data = app1.cms.hashOf (ds.ms.get app1.cms.data) ∧
      app2.cms.db = (app2.cms.lastCommitID, ds.ms.get app1.cms.data) :: app1.cms.db ∧
      app2.Info = ⟨app.name, (commitData ress).length + 1, res.Data⟩) := by
  obtain ⟨hn, hv, hh, -⟩ := calls_commits ops app ress app1 hrun
  refine ⟨hn, by simp [BaseApp.Info, hv, hfresh], hh, fun ds hds => ?_⟩
  refine ⟨_, _, Commit_open app1 ds hds, rfl, rfl, rfl, ?_⟩
  simp [BaseApp.Info, BaseApp.setCheckState, CommitMultiStore.Commit, CacheMultiStore.WriteRoot,
    hn, hv, hfresh]

/-- On the example engine: an empty block, then a block with one delivery; `Info`
reports height 2 and the name. -/
theorem Commit_result_and_Info_witness :
    ∃ ress app1,
      (exApp none).calls [.commit, .beginBlock ⟨[], ⟨"chain", 2, 0⟩⟩, .deliverTx [1],
        .endBlock ⟨2⟩, .commit] = .ok (ress, app1) ∧
      app1.Info.Data = "example" ∧ app1.Info.LastBlockHeight = 2 := by
  have h := Commit_result_and_Info (exApp none)
    [.commit, .beginBlock ⟨[], ⟨"chain", 2, 0⟩⟩, .deliverTx [1], .endBlock ⟨2⟩, .commit] _ _
    rfl rfl
  exact ⟨_, _, rfl, h.1, h.2.1.trans rfl⟩

/-! ## Loading -/

/-- C18 (store load faults), what the code does: `BaseApp.LoadVersion` drops the
outcome of the store's `LoadVersion`.  Whenever the store's load of version `v`
fails with `e` on an engine whose main store can be obtained, `LoadVersion`
still returns without an error and goes on to set the check state; the failure
`e` reaches no caller. -/
theorem LoadVersion_drops_store_error (app : BaseApp) (v : Int) (mainKey : StoreKey) (e : String)
    (hfail : app.cms.LoadVersion v = .error e)
    (hmain : app.cms.hasStore mainKey = true) :
    app.LoadVersion v mainKey = .ok (app.setCheckState Header.empty) ∧
    (∀ app1, app.LoadVersion v mainKey = .ok app1 →
      app1.checkState = some ⟨CacheMultiStore.empty, NewContext Header.empty true []⟩ ∧
      app1.cms = app.cms) := by
  have h : app.LoadVersion v mainKey = .ok (app.setCheckState Header.empty) := by
    simp [BaseApp.LoadVersion, hfail, BaseApp.initFromStore, hmain]
  refine ⟨h, fun app1 h1 => ?_⟩
  rw [h] at h1
  simp only [Except.ok.injEq] at h1
  rw [← h1]
  exact ⟨rfl, rfl⟩

/-- On the example engine, loaded at version 0 with nothing committed, the
store's load of version 5 fails, and `LoadVersion(5)` returns no error and sets
the check state. -/
theorem LoadVersion_drops_store_error_witness :
    (exApp none).cms.LoadVersion 5 = .error "failed to load rootMultiStore: no such version" ∧
    (exApp none).LoadVersion 5 "main" = .ok ((exApp none).setCheckState Header.empty) :=
  ⟨rfl, (LoadVersion_drops_store_error (exApp none) 5 "main" _ rfl rfl).1⟩

/-! ## Query -/

/-- C19 (Query).  When the root store does not provide the `Queryable`
capability, `Query` returns the unknown-request error response, with a non-zero
code and the log "application doesn't support queries"; when it does, `Query`
returns exactly the store's own response to the same request.  `Query` is total
(it does not panic) and in both cases the engine after it is the engine before
it. -/
theorem Query_delegates (app : BaseApp) (req : RequestQuery) :
    (app.cms.querier = none →
      (app.Query req).1 =
        (ErrUnknownRequest "application doesn't support queries").QueryResult ∧
      (app.Query req).1.Code = ToABCICode CodespaceRoot CodeUnknownRequest ∧
      (app.Query req).1.Code ≠ 0 ∧
      (app.Query req).1.Log = "application doesn't support queries") ∧
    (∀ query, app.cms.querier = some query →
      (app.Query req).1 = query app.cms.data app.cms.lastCommitID req) ∧
    (app.Query req).2 = app := by
  refine ⟨fun h => ?_, fun query h => ?_, ?_⟩
  · have hq : app.Query req =
        ((ErrUnknownRequest "application doesn't support queries").QueryResult, app) := by
      simp only [BaseApp.Query, h]
    rw [hq]
    have hne : ToABCICode CodespaceRoot CodeUnknownRequest ≠ 0 := by decide
    exact ⟨rfl, rfl, hne, rfl⟩
  · simp only [BaseApp.Query, h]
  · unfold BaseApp.Query
    cases app.cms.querier <;> rfl

/-- The example engine cannot answer queries; over the store `exQueryCms` it
answers with the store's response. -/
theorem Query_delegates_witness :
    ((exApp none).Query ⟨[1], "/store", 0, false⟩).1 =
      ⟨65542, "application doesn't support queries", [], [], 0⟩ ∧
    (({ exApp none with cms := exQueryCms } : BaseApp).Query ⟨[1], "/store", 0, false⟩).1 =
      ⟨0, "", [1], [], 0⟩ :=
  ⟨((Query_delegates (exApp none) ⟨[1], "/store", 0, false⟩).1 rfl).1.trans rfl,
   ((Query_delegates ({ exApp none with cms := exQueryCms } : BaseApp)
      ⟨[1], "/store", 0, false⟩).2.1 _ rfl).trans rfl⟩

/-! ## Deliveries are invisible to the check state -/

/-- An `EndBlock` that returned leaves the check state alone. -/
theorem EndBlock_checkState (app : BaseApp) (req : RequestEndBlock) (res : ResponseEndBlock)
    (app1 : BaseApp) (h : app.EndBlock req = .ok (res, app1)) :
    app1.checkState = app.checkState := by
  cases he : app.endBlocker with
  | none =>
    simp only [BaseApp.EndBlock, he, Except.ok.injEq, Prod.mk.injEq] at h
    rw [← h.2]
  | some eb =>
    simp only [BaseApp.EndBlock, he] at h
    obtain ⟨ds, ms1, -, happ, -⟩ := runHook_ok _ _ res app1 h
    rw [happ]
    have := getState_setMS_other app false ms1
    simpa [BaseApp.getState] using this

/-- C20 (deliver-side writes are invisible to Check until commit).  For every
engine and every sequence of `DeliverTx` calls, successful or not: the check
state and the root store are the same after the sequence as before it, so the
check state reads every key exactly as before; an `EndBlock` that follows
changes neither.  What was delivered becomes visible to the check state through
the next `Commit`, after which the check state reads every key as the deliver
state read it. -/
theorem DeliverTxs_invisible_to_check (app : BaseApp) (txs : List Bytes) :
    (app.DeliverTxs txs).checkState = app.checkState ∧
    (app.DeliverTxs txs).cms = app.cms ∧
    (∀ s k, (app.DeliverTxs txs).read true s k = app.read true s k) ∧
    (∀ reqEnd resE app2, (app.DeliverTxs txs).EndBlock reqEnd = .ok (resE, app2) →
      app2.checkState = app.checkState ∧ app2.cms = app.cms ∧
      ∀ s k, app2.read true s k = app.read true s k) ∧
    (∀ ds, (app.DeliverTxs txs).deliverState = some ds →
      ∃ res app2, (app.DeliverTxs txs).Commit = .ok (res, app2) ∧
        ∀ s k, app2.read true s k = some (ds.ms.get app.cms.data s k)) := by
  obtain ⟨hc, hk, -⟩ := DeliverTxs_effect txs app
  have hcms : (app.DeliverTxs txs).cms = app.cms := hc.2.1
  refine ⟨hk, hcms, fun s k => ?_, fun reqEnd resE app2 hE => ?_, fun ds hds => ?_⟩
  · simp [BaseApp.read, BaseApp.getState, hk, hcms]
  · have h1 := EndBlock_checkState _ reqEnd resE app2 hE
    have h2 : app2.cms = app.cms := (EndBlock_ok _ reqEnd resE app2 hE).2.1.trans hcms
    refine ⟨h1.trans hk, h2, fun s k => ?_⟩
    simp [BaseApp.read, BaseApp.getState, h1, hk, h2]
  · obtain ⟨res, app2, hC, -, hr, hd, -, -⟩ := Commit_open_reads _ ds hds
    exact ⟨res, app2, hC, fun s k => by rw [hr, hd, hcms]⟩

/-! ## Delivering outside a block -/

/-- C30 (DeliverTx outside an open block does not crash).  When there is no
deliver state and the bytes decode to a transaction whose message passes its
stateless validation, `DeliverTx` returns: its response carries the
internal-error Result that the recovery in `runTx` builds from the nil
dereference, which is not OK; neither the ante handler nor a handler is
called; and the engine after the call is the engine before it, so the check
state, the root store and the validator updates are unchanged. -/
theorem DeliverTx_without_block (app : BaseApp) (txBytes : Bytes) (tx : Tx) (msg : Msg)
    (hclosed : app.deliverState = none)
    (hdec : app.txDecoder txBytes = .ok tx)
    (hmsg : tx.GetMsg = some msg) (hvalid : msg.ValidateBasic = none) :
    app.runTx false txBytes tx = (recovered nilDeref, app, [.validateBasic]) ∧
    (app.DeliverTx txBytes).1.Code = ToABCICode CodespaceRoot CodeInternal ∧
    (app.DeliverTx txBytes).1.Code ≠ ABCICodeOK ∧
    (app.DeliverTx txBytes).1.Log = "Recovered: " ++ nilDeref ∧
    (app.DeliverTx txBytes).2 = (app, [.runTx false, .validateBasic]) ∧
    (app.DeliverTx txBytes).2.1.checkState = app.checkState ∧
    (app.DeliverTx txBytes).2.1.cms = app.cms ∧
    (app.DeliverTx txBytes).2.1.valUpdates = app.valUpdates := by
  have hst : app.getState false = none := by simpa [BaseApp.getState] using hclosed
  have hr : app.runTx false txBytes tx = (recovered nilDeref, app, [.validateBasic]) := by
    simp [BaseApp.runTx, hmsg, hvalid, hst]
  have hne : ToABCICode CodespaceRoot CodeInternal ≠ ABCICodeOK := by decide
  have hnok : (recovered nilDeref).IsOK = false := rfl
  have hd : app.DeliverTx txBytes =
      (⟨ToABCICode CodespaceRoot CodeInternal, [], "Recovered: " ++ nilDeref, 0, 0, []⟩, app,
        [.runTx false, .validateBasic]) := by
    simp only [BaseApp.DeliverTx, hdec, hr, hnok]
    rfl
  rw [hd]
  exact ⟨hr, rfl, hne, rfl, rfl, rfl, rfl, rfl⟩

/-- On the example engine after a `Commit`-like state (no deliver state), a
delivery of the valid bytes `[1]` is answered with code 65537 and changes
nothing. -/
theorem DeliverTx_without_block_witness :
    (exGenesis.DeliverTx [1]).1.Code = 65537 ∧
    (exGenesis.DeliverTx [1]).2 = (exGenesis, [.runTx false, .validateBasic]) := by
  have h := DeliverTx_without_block exGenesis [1] (exTx "good") (exMsg "good") rfl rfl rfl rfl
  exact ⟨h.2.1.trans rfl, h.2.2.2.2.1⟩

/-! ## The lifecycle of the two states -/

/-- Mutating the overlay of a state keeps both states as present as they were. -/
theorem isSome_setMS (app : BaseApp) (b : Bool) (ms : CacheMultiStore) :
    (app.setMS b ms).checkState.isSome = app.checkState.isSome ∧
    (app.setMS b ms).deliverState.isSome = app.deliverState.isSome := by
  cases b <;> cases h1 : app.checkState <;> cases h2 : app.deliverState <;>
    simp [BaseApp.setMS, h1, h2]

/-- The message step keeps both states as present as they were. -/
theorem runMsg_present (app : BaseApp) (b : Bool) (st : state) (ctx : Context) (msg : Msg) :
    (app.runMsg b st ctx msg).2.1.checkState.isSome = app.checkState.isSome ∧
    (app.runMsg b st ctx msg).2.1.deliverState.isSome = app.deliverState.isSome := by
  cases hroute : app.router.Route msg.typ with
  | none => simp [BaseApp.runMsg, hroute]
  | some handler =>
    rcases hrun : (handler ctx msg).run app.cms.hasStore (st.ms.get app.cms.data)
      CacheMultiStore.empty with ⟨out, msCache⟩
    cases out with
    | error r => simp [BaseApp.runMsg, hroute, hrun]
    | ok result =>
      cases h : result.IsOK <;> simp [BaseApp.runMsg, hroute, hrun, h, isSome_setMS]

/-- The ante step keeps both states as present as they were. -/
theorem runAnte_present (app : BaseApp) (b : Bool) (st : state) (ctx : Context) (tx : Tx) :
    (app.runAnte b st ctx tx).2.1.checkState.isSome = app.checkState.isSome ∧
    (app.runAnte b st ctx tx).2.1.deliverState.isSome = app.deliverState.isSome := by
  cases ha : app.anteHandler with
  | none => simp [BaseApp.runAnte, ha]
  | some ante =>
    rcases h : (ante ctx tx).run app.cms.hasStore app.cms.data st.ms with ⟨out, ms1⟩
    cases out with
    | error r => simp [BaseApp.runAnte, ha, h, isSome_setMS]
    | ok v =>
      obtain ⟨newCtx, result, abort⟩ := v
      cases abort <;> cases newCtx <;> simp [BaseApp.runAnte, ha, h, isSome_setMS]

/-- A call of `runTx` keeps both states as present as they were. -/
theorem runTx_present (app : BaseApp) (b : Bool) (txBytes : Bytes) (tx : Tx) :
    (app.runTx b txBytes tx).2.1.checkState.isSome = app.checkState.isSome ∧
    (app.runTx b txBytes tx).2.1.deliverState.isSome = app.deliverState.isSome := by
  cases hmsg : tx.GetMsg with
  | none => simp [BaseApp.runTx, hmsg]
  | some msg =>
    cases hvalid : msg.ValidateBasic with
    | some err => simp [BaseApp.runTx, hmsg, hvalid]
    | none =>
      cases hst : app.getState b with
      | none => simp [BaseApp.runTx, hmsg, hvalid, hst]
      | some st =>
        have hA := runAnte_present app b st (st.ctx.WithTxBytes txBytes) tx
        rcases ha : app.runAnte b st (st.ctx.WithTxBytes txBytes) tx with ⟨out, app1, ev⟩
        rw [ha] at hA
        cases out with
        | aborted result => simpa [BaseApp.runTx, hmsg, hvalid, hst, ha] using hA
        | faulted r => simpa [BaseApp.runTx, hmsg, hvalid, hst, ha] using hA
        | proceed ctx1 =>
          obtain ⟨st1, hst1⟩ := runAnte_state_present app b st _ tx _ app1 ev hst ha
          rw [runTx_proceed app b txBytes tx msg st st1 ctx1 app1 ev hmsg hvalid hst ha hst1]
          obtain ⟨h1, h2⟩ := runMsg_present app1 b st1 ctx1 msg
          exact ⟨h1.trans hA.1, h2.trans hA.2⟩

/-- `CheckTx` keeps both states as present as they were. -/
theorem CheckTx_present (app : BaseApp) (txBytes : Bytes) :
    (app.CheckTx txBytes).2.1.checkState.isSome = app.checkState.isSome ∧
    (app.CheckTx txBytes).2.1.deliverState.isSome = app.deliverState.isSome := by
  cases hdec : app.txDecoder txBytes with
  | error err => simp [BaseApp.CheckTx, hdec]
  | ok tx => simpa [BaseApp.CheckTx, hdec] using runTx_present app true txBytes tx

/-- `DeliverTx` keeps both states as present as they were. -/
theorem DeliverTx_present (app : BaseApp) (txBytes : Bytes) :
    (app.DeliverTx txBytes).2.1.checkState.isSome = app.checkState.isSome ∧
    (app.DeliverTx txBytes).2.1.deliverState.isSome = app.deliverState.isSome := by
  cases hdec : app.txDecoder txBytes with
  | error err =>
    simp only [BaseApp.DeliverTx, hdec]
    split <;> simp
  | ok tx =>
    have h := runTx_present app false txBytes tx
    simp only [BaseApp.DeliverTx, hdec]
    split
    · exact h
    · exact h

/-- One call in protocol order keeps the lifecycle invariant: the check state
is present, and the deliver state is present exactly when the phase reached
has one due.  The init hook stays as configured. -/
theorem call_lifecycle (app : BaseApp) (p q : Phase) (op : Op) (r : Resp) (app1 : BaseApp)
    (hcheck : app.checkState.isSome = true)
    (hdeliver : app.deliverState.isSome = p.delivering app.initChainer.isSome)
    (hnext : p.next op = some q)
    (hcall : app.call op = .ok (r, app1)) :
    app1.initChainer = app.initChainer ∧ app1.checkState.isSome = true ∧
    app1.deliverState.isSome = q.delivering app.initChainer.isSome := by
  cases op with
  | checkTx txBytes =>
    simp only [BaseApp.call, Except.ok.injEq, Prod.mk.injEq] at hcall
    have hq : q = p := by cases p <;> simp [Phase.next] at hnext <;> exact hnext.symm
    obtain ⟨h1, h2⟩ := CheckTx_present app txBytes
    rw [← hcall.2, hq]
    exact ⟨(CheckTx_sameConfig app txBytes).2.2.2.2.2.1, h1.trans hcheck, h2.trans hdeliver⟩
  | deliverTx txBytes =>
    simp only [BaseApp.call, Except.ok.injEq, Prod.mk.injEq] at hcall
    have hpq : p = .inBlock ∧ q = .inBlock := by
      cases p <;> simp [Phase.next] at hnext
      exact ⟨rfl, hnext.symm⟩
    obtain ⟨h1, h2⟩ := DeliverTx_present app txBytes
    rw [← hcall.2, hpq.2]
    rw [hpq.1] at hdeliver
    exact ⟨(DeliverTx_effect app txBytes).1.2.2.2.2.2.1, h1.trans hcheck, h2.trans hdeliver⟩
  | initChain req =>
    have hpq : p = .loaded ∧ q = .genesis := by
      cases p <;> simp [Phase.next] at hnext
      exact ⟨rfl, hnext.symm⟩
    rw [hpq.1] at hdeliver
    rw [hpq.2]
    cases hh : app.InitChain req with
    | error e => simp [BaseApp.call, hh] at hcall
    | ok a =>
      simp only [BaseApp.call, hh, Except.ok.injEq, Prod.mk.injEq] at hcall
      rw [← hcall.2]
      rcases InitChain_ok app req a hh with ⟨hn, happ⟩ | ⟨ic, ms1, hic, happ, -⟩
      · rw [happ]
        exact ⟨rfl, hcheck, by rw [hdeliver, hn]; rfl⟩
      · rw [happ]
        refine ⟨(sameConfig_setMS _ false ms1).2.2.2.2.2.1, ?_, ?_⟩
        · rw [(isSome_setMS _ false ms1).1]; exact hcheck
        · rw [(isSome_setMS _ false ms1).2, hic]; rfl
  | beginBlock req =>
    have hq : q = .inBlock := by cases p <;> simp [Phase.next] at hnext <;> exact hnext.symm
    rw [hq]
    cases hh : app.BeginBlock req with
    | error e => simp [BaseApp.call, hh] at hcall
    | ok v =>
      obtain ⟨res, a⟩ := v
      simp only [BaseApp.call, hh, Except.ok.injEq, Prod.mk.injEq] at hcall
      obtain ⟨-, hc, hk, ds, hds⟩ := BeginBlock_ok app req res a hh
      rw [← hcall.2]
      exact ⟨hc.2.2.2.2.2.1, by rw [hk]; exact hcheck, by rw [hds]; rfl⟩
  | endBlock req =>
    have hpq : p = .inBlock ∧ q = .ended := by
      cases p <;> simp [Phase.next] at hnext
      exact ⟨rfl, hnext.symm⟩
    rw [hpq.1] at hdeliver
    rw [hpq.2]
    cases hh : app.EndBlock req with
    | error e => simp [BaseApp.call, hh] at hcall
    | ok v =>
      obtain ⟨res, a⟩ := v
      simp only [BaseApp.call, hh, Except.ok.injEq, Prod.mk.injEq] at hcall
      rw [← hcall.2]
      refine ⟨(EndBlock_ok app req res a hh).2.2.2.2.2.1,
        by rw [EndBlock_checkState app req res a hh]; exact hcheck, ?_⟩
      cases he : app.endBlocker with
      | none =>
        simp only [BaseApp.EndBlock, he, Except.ok.injEq, Prod.mk.injEq] at hh
        rw [← hh.2]; exact hdeliver
      | some eb =>
        simp only [BaseApp.EndBlock, he] at hh
        obtain ⟨ds, ms1, -, happ, -⟩ := runHook_ok _ _ res a hh
        rw [happ, (isSome_setMS app false ms1).2]; exact hdeliver
  | commit =>
    have hq : q = .committed := by
      cases p <;> simp [Phase.next] at hnext
      exact hnext.symm
    rw [hq]
    cases hh : app.Commit with
    | error e => simp [BaseApp.call, hh] at hcall
    | ok v =>
      obtain ⟨res, a⟩ := v
      simp only [BaseApp.call, hh, Except.ok.injEq, Prod.mk.injEq] at hcall
      obtain ⟨ds, hds, -⟩ := Commit_ok app res a hh
      obtain ⟨res2, a2, hC, hcs, -, -, -, hnone⟩ := Commit_open_reads app ds hds
      rw [hh] at hC
      simp only [Except.ok.injEq, Prod.mk.injEq] at hC
      rw [← hcall.2, hC.2]
      refine ⟨?_, by rw [hcs]; rfl, by rw [hnone]; rfl⟩
      rw [← hC.2]
      rw [Commit_open app ds hds] at hh
      simp only [Except.ok.injEq, Prod.mk.injEq] at hh
      rw [← hh.2]
      rfl

/-- A sequence of calls in protocol order keeps the lifecycle invariant. -/
theorem calls_lifecycle (ops : List Op) : ∀ (app : BaseApp) (p q : Phase) (rs : List Resp)
    (app1 : BaseApp), app.checkState.isSome = true →
    app.deliverState.isSome = p.delivering app.initChainer.isSome →
    Phase.run p ops = some q → app.calls ops = .ok (rs, app1) →
    app1.initChainer = app.initChainer ∧ app1.checkState.isSome = true ∧
    app1.deliverState.isSome = q.delivering app.initChainer.isSome := by
  induction ops with
  | nil =>
    intro app p q rs app1 hc hd hrun hcalls
    simp only [Phase.run, Option.some.injEq] at hrun
    simp only [BaseApp.calls, Except.ok.injEq, Prod.mk.injEq] at hcalls
    rw [← hcalls.2, ← hrun]
    exact ⟨rfl, hc, hd⟩
  | cons op rest ih =>
    intro app p q rs app1 hc hd hrun hcalls
    cases hn : p.next op with
    | none => simp [Phase.run, hn] at hrun
    | some p1 =>
      simp only [Phase.run, hn] at hrun
      cases hcall : app.call op with
      | error e => simp [BaseApp.calls, hcall] at hcalls
      | ok v =>
        obtain ⟨r, a⟩ := v
        cases hr : a.calls rest with
        | error e => simp [BaseApp.calls, hcall, hr] at hcalls
        | ok w =>
          obtain ⟨rs2, a2⟩ := w
          simp only [BaseApp.calls, hcall, hr, Except.ok.injEq, Prod.mk.injEq] at hcalls
          obtain ⟨hi, hc1, hd1⟩ := call_lifecycle app p p1 op r a hc hd hn hcall
          obtain ⟨hi2, hc2, hd2⟩ := ih a p1 q rs2 a2 hc1 (by rw [hi]; exact hd1) hrun hr
          rw [← hcalls.2]
          exact ⟨hi2.trans hi, hc2, by rw [hd2, hi]⟩

/-- A load that returned: the check state is set, and the deliver state and the
init hook are those of before the load. -/
theorem load_ok (app0 app : BaseApp) (mainKey : StoreKey)
    (hload : app0.LoadLatestVersion mainKey = .ok app ∨
      ∃ v, app0.LoadVersion v mainKey = .ok app) :
    app.checkState.isSome = true ∧ app.deliverState = app0.deliverState ∧
    app.initChainer = app0.initChainer := by
  have key : ∀ a : BaseApp, a.initFromStore mainKey = .ok app →
      app.checkState.isSome = true ∧ app.deliverState = a.deliverState ∧
      app.initChainer = a.initChainer := by
    intro a h
    unfold BaseApp.initFromStore at h
    split at h
    · simp only [Except.ok.injEq] at h
      rw [← h]
      exact ⟨rfl, rfl, rfl⟩
    · cases h
  rcases hload with h | ⟨v, h⟩
  · unfold BaseApp.LoadLatestVersion at h
    obtain ⟨h1, h2, h3⟩ := key _ h
    refine ⟨h1, ?_, ?_⟩
    · rw [h2]; split <;> rfl
    · rw [h3]; split <;> rfl
  · unfold BaseApp.LoadVersion at h
    obtain ⟨h1, h2, h3⟩ := key _ h
    refine ⟨h1, ?_, ?_⟩
    · rw [h2]; split <;> rfl
    · rw [h3]; split <;> rfl

/-- C21 (lifecycle invariant).  Take an engine without a deliver state, load it
successfully (`LoadLatestVersion` or `LoadVersion`), and make any sequence of
`InitChain`, `BeginBlock`, `CheckTx`, `DeliverTx`, `EndBlock` and `Commit` calls
in protocol order that returns.  In the state reached the check state is
present, and the deliver state is present exactly when the protocol stands
inside a block (from `BeginBlock` until the `Commit`) or after an `InitChain`
that had an init hook configured; after the load, after an `InitChain` without
hook and after a `Commit` it is absent. -/
theorem lifecycle_invariant (app0 app : BaseApp) (mainKey : StoreKey) (ops : List Op)
    (q : Phase) (rs : List Resp) (app1 : BaseApp)
    (hfresh : app0.deliverState = none)
    (hload : app0.LoadLatestVersion mainKey = .ok app ∨
      ∃ v, app0.LoadVersion v mainKey = .ok app)
    (horder : Phase.run .loaded ops = some q)
    (hcalls : app.calls ops = .ok (rs, app1)) :
    app1.checkState.isSome = true ∧
    (app1.deliverState.isSome = true ↔
      q = .inBlock ∨ q = .ended ∨ (q = .genesis ∧ app0.initChainer.isSome = true)) := by
  obtain ⟨hc, hd, hi⟩ := load_ok app0 app mainKey hload
  obtain ⟨-, hc1, hd1⟩ := calls_lifecycle ops app .loaded q rs app1 hc
    (by rw [hd, hfresh]; rfl) horder hcalls
  refine ⟨hc1, ?_⟩
  rw [hd1, hi]
  cases q <;> simp [Phase.delivering]

/-- On the example engine: after the load and `BeginBlock`, `CheckTx`,
`DeliverTx` both states are present; after the block's `Commit` only the check
state is. -/
theorem lifecycle_invariant_witness :
    (∃ app rs app1, (exFresh none).LoadLatestVersion "main" = .ok app ∧
      app.calls [.beginBlock ⟨[], ⟨"chain", 1, 0⟩⟩, .checkTx [1], .deliverTx [1]] =
        .ok (rs, app1) ∧
      app1.checkState.isSome = true ∧ app1.deliverState.isSome = true) ∧
    (∃ app rs app1, (exFresh none).LoadLatestVersion "main" = .ok app ∧
      app.calls [.beginBlock ⟨[], ⟨"chain", 1, 0⟩⟩, .checkTx [1], .deliverTx [1],
        .endBlock ⟨1⟩, .commit] = .ok (rs, app1) ∧
      app1.checkState.isSome = true ∧ ¬ app1.deliverState.isSome = true) := by
  have h1 := lifecycle_invariant (exFresh none) _ "main"
    [.beginBlock ⟨[], ⟨"chain", 1, 0⟩⟩, .checkTx [1], .deliverTx [1]] .inBlock _ _
    rfl (Or.inl rfl) rfl rfl
  have h2 := lifecycle_invariant (exFresh none) _ "main"
    [.beginBlock ⟨[], ⟨"chain", 1, 0⟩⟩, .checkTx [1], .deliverTx [1], .endBlock ⟨1⟩, .commit]
    .committed _ _ rfl (Or.inl rfl) rfl rfl
  exact ⟨⟨_, _, _, rfl, rfl, h1.1, h1.2.mpr (Or.inl rfl)⟩,
    ⟨_, _, _, rfl, rfl, h2.1, fun h => by
      rcases h2.2.mp h with h | h | ⟨h, -⟩ <;> cases h⟩⟩

/-- C29 (protocol-order safety).  In every state reached from a successful load
of an engine without a deliver state by calls in protocol order (with `CheckTx`
interleaved anywhere), whatever call the protocol allows next finds the state
it dereferences: the deliver state is present for `DeliverTx`, `EndBlock` and
`Commit`, the check state is present for `CheckTx`, and `Commit` returns.  No
lifecycle call runs into an absent state. -/
theorem protocol_order_safety (app0 app : BaseApp) (mainKey : StoreKey) (ops : List Op)
    (q q2 : Phase) (rs : List Resp) (app1 : BaseApp) (op : Op)
    (hfresh : app0.deliverState = none)
    (hload : app0.LoadLatestVersion mainKey = .ok app ∨
      ∃ v, app0.LoadVersion v mainKey = .ok app)
    (horder : Phase.run .loaded ops = some q)
    (hcalls : app.calls ops = .ok (rs, app1))
    (hnext : q.next op = some q2) :
    (op.usesDeliverState = true → ∃ ds, app1.getState false = some ds) ∧
    (op.isCheck = true → ∃ cs, app1.getState true = some cs) ∧
    (op = .commit → ∃ res app2, app1.Commit = .ok (res, app2)) ∧
    (∀ req, op = .endBlock req → app1.endBlocker = none →
      ∃ res app2, app1.EndBlock req = .ok (res, app2)) := by
  obtain ⟨hc, hd, -⟩ := load_ok app0 app mainKey hload
  obtain ⟨-, hc1, hd1⟩ := calls_lifecycle ops app .loaded q rs app1 hc
    (by rw [hd, hfresh]; rfl) horder hcalls
  have hdel : op.usesDeliverState = true → ∃ ds, app1.deliverState = some ds := by
    intro hu
    apply Option.isSome_iff_exists.mp
    rw [hd1]
    cases op <;> cases q <;> simp_all [Phase.next, Op.usesDeliverState, Phase.delivering]
  refine ⟨fun hu => by simpa [BaseApp.getState] using hdel hu,
    fun _ => by simpa [BaseApp.getState] using Option.isSome_iff_exists.mp hc1, ?_, ?_⟩
  · intro hop
    obtain ⟨ds, hds⟩ := hdel (by rw [hop]; rfl)
    exact ⟨_, _, Commit_open app1 ds hds⟩
  · intro req _ he
    exact ⟨{ ValidatorUpdates := app1.valUpdates, Tags := [] }, app1,
      by simp [BaseApp.EndBlock, he]⟩

/-- On the example engine inside the first block, the protocol allows
`DeliverTx` next, and the deliver state it dereferences is there. -/
theorem protocol_order_safety_witness :
    ∃ app rs app1, (exFresh none).LoadLatestVersion "main" = .ok app ∧
      app.calls [.beginBlock ⟨[], ⟨"chain", 1, 0⟩⟩, .checkTx [1]] = .ok (rs, app1) ∧
      ∃ ds, app1.getState false = some ds :=
  ⟨_, _, _, rfl, rfl,
    (protocol_order_safety (exFresh none) _ "main"
      [.beginBlock ⟨[], ⟨"chain", 1, 0⟩⟩, .checkTx [1]] .inBlock .inBlock _ _ (.deliverTx [1])
      rfl (Or.inl rfl) rfl rfl rfl).1 rfl⟩

/-! ## Determinism of the consensus connection -/

/-- Two engines are the same when all their fields are. -/
theorem BaseApp.ext_fields (a b : BaseApp) (h : a.SameConfig b)
    (hc : a.checkState = b.checkState) (hd : a.deliverState = b.deliverState)
    (hv : a.valUpdates = b.valUpdates) : a = b := by
  obtain ⟨h1, h2, h3, h4, h5, h6, h7, h8⟩ := h
  cases a
  cases b
  simp only at h1 h2 h3 h4 h5 h6 h7 h8 hc hd hv
  subst h1 h2 h3 h4 h5 h6 h7 h8 hc hd hv
  rfl

/-- The ante step on the deliver path does not look at the check state. -/
theorem runAnte_withCheck (a : BaseApp) (c : Option state) (st : state) (ctx : Context)
    (tx : Tx) :
    (a.withCheck c).runAnte false st ctx tx =
      ((a.runAnte false st ctx tx).1, (a.runAnte false st ctx tx).2.1.withCheck c,
        (a.runAnte false st ctx tx).2.2) := by
  cases ha : a.anteHandler with
  | none => simp [BaseApp.runAnte, BaseApp.withCheck, ha]
  | some ante =>
    rcases h : (ante ctx tx).run a.cms.hasStore a.cms.data st.ms with ⟨out, ms1⟩
    cases out with
    | error r => simp [BaseApp.runAnte, BaseApp.withCheck, BaseApp.setMS, ha, h]
    | ok v =>
      obtain ⟨newCtx, result, abort⟩ := v
      cases abort <;> cases newCtx <;>
        simp [BaseApp.runAnte, BaseApp.withCheck, BaseApp.setMS, ha, h]

/-- The message step on the deliver path does not look at the check state. -/
theorem runMsg_withCheck (a : BaseApp) (c : Option state) (st : state) (ctx : Context)
    (msg : Msg) :
    (a.withCheck c).runMsg false st ctx msg =
      ((a.runMsg false st ctx msg).1, (a.runMsg false st ctx msg).2.1.withCheck c,
        (a.runMsg false st ctx msg).2.2) := by
  cases hroute : a.router.Route msg.typ with
  | none => simp [BaseApp.runMsg, BaseApp.withCheck, hroute]
  | some handler =>
    rcases hrun : (handler ctx msg).run a.cms.hasStore (st.ms.get a.cms.data)
      CacheMultiStore.empty with ⟨out, msCache⟩
    cases out with
    | error r => simp [BaseApp.runMsg, BaseApp.withCheck, hroute, hrun]
    | ok result =>
      cases h : result.IsOK <;>
        simp [BaseApp.runMsg, BaseApp.withCheck, BaseApp.setMS, hroute, hrun, h]

/-- `runTx` on the deliver path does not look at the check state. -/
theorem runTx_withCheck (a : BaseApp) (c : Option state) (txBytes : Bytes) (tx : Tx) :
    (a.withCheck c).runTx false txBytes tx =
      ((a.runTx false txBytes tx).1, (a.runTx false txBytes tx).2.1.withCheck c,
        (a.runTx false txBytes tx).2.2) := by
  have hg : ∀ x : BaseApp, (x.withCheck c).getState false = x.getState false := fun _ => rfl
  cases hmsg : tx.GetMsg with
  | none => simp [BaseApp.runTx, hmsg]
  | some msg =>
    cases hvalid : msg.ValidateBasic with
    | some err => simp [BaseApp.runTx, hmsg, hvalid]
    | none =>
      cases hst : a.getState false with
      | none => simp [BaseApp.runTx, hmsg, hvalid, hst, hg]
      | some st =>
        rcases ha : a.runAnte false st (st.ctx.WithTxBytes txBytes) tx with ⟨out, a1, ev⟩
        have hA := runAnte_withCheck a c st (st.ctx.WithTxBytes txBytes) tx
        rw [ha] at hA
        cases out with
        | aborted result => simp [BaseApp.runTx, hmsg, hvalid, hst, hg, ha, hA]
        | faulted r => simp [BaseApp.runTx, hmsg, hvalid, hst, hg, ha, hA]
        | proceed ctx1 =>
          obtain ⟨st1, hst1⟩ := runAnte_state_present a false st _ tx _ a1 ev hst ha
          rw [runTx_proceed a false txBytes tx msg st st1 ctx1 a1 ev hmsg hvalid hst ha hst1,
            runTx_proceed (a.withCheck c) false txBytes tx msg st st1 ctx1 (a1.withCheck c) ev
              hmsg hvalid ((hg a).trans hst) hA ((hg a1).trans hst1),
            runMsg_withCheck a1 c st1 ctx1 msg]

/-- `DeliverTx` does not look at the check state and leaves it as it is. -/
theorem DeliverTx_withCheck (a : BaseApp) (c : Option state) (txBytes : Bytes) :
    (a.withCheck c).DeliverTx txBytes =
      ((a.DeliverTx txBytes).1, (a.DeliverTx txBytes).2.1.withCheck c,
        (a.DeliverTx txBytes).2.2) := by
  have hdc : (a.withCheck c).txDecoder = a.txDecoder := rfl
  cases hdec : a.txDecoder txBytes with
  | error err =>
    simp only [BaseApp.DeliverTx, hdc, hdec]
    split <;> rfl
  | ok tx =>
    simp only [BaseApp.DeliverTx, hdc, hdec, runTx_withCheck a c txBytes tx]
    split <;> rfl

/-- A block hook does not look at the check state and leaves it as it is. -/
theorem runHook_withCheck {α : Type} (a : BaseApp) (c : Option state) (hook : Context → Prog α) :
    (a.withCheck c).runHook hook =
      (a.runHook hook).map (fun x => (x.1, x.2.withCheck c)) := by
  cases hd : a.deliverState with
  | none =>
    have hd2 : (a.withCheck c).deliverState = none := hd
    simp [BaseApp.runHook, hd, hd2, Except.map]
  | some ds =>
    have hd2 : (a.withCheck c).deliverState = some ds := hd
    have hcms : (a.withCheck c).cms = a.cms := rfl
    rcases hrun : (hook ds.ctx).run a.cms.hasStore a.cms.data ds.ms with ⟨out, ms1⟩
    cases out with
    | error r => simp [BaseApp.runHook, hd, hd2, hcms, hrun, Except.map]
    | ok y =>
      simp only [BaseApp.runHook, hd, hd2, hcms, hrun, Except.map]
      rfl

/-- `InitChain` does not look at the check state and leaves it as it is. -/
theorem InitChain_withCheck (a : BaseApp) (c : Option state) (req : RequestInitChain) :
    (a.withCheck c).InitChain req =
      (a.InitChain req).map (fun x : BaseApp => x.withCheck c) := by
  have hi : (a.withCheck c).initChainer = a.initChainer := rfl
  cases hic : a.initChainer with
  | none => simp [BaseApp.InitChain, hi, hic, Except.map]
  | some ic =>
    have hs : (a.withCheck c).setDeliverState Header.empty =
        (a.setDeliverState Header.empty).withCheck c := rfl
    simp only [BaseApp.InitChain, hi, hic, hs, runHook_withCheck]
    cases (a.setDeliverState Header.empty).runHook (fun ctx => ic ctx req) <;> rfl

/-- `BeginBlock` does not look at the check state and leaves it as it is. -/
theorem BeginBlock_withCheck (a : BaseApp) (c : Option state) (req : RequestBeginBlock) :
    (a.withCheck c).BeginBlock req =
      (a.BeginBlock req).map (fun x => (x.1, x.2.withCheck c)) := by
  have key : ∀ a2 : BaseApp,
      (match (a2.withCheck c).beginBlocker with
        | none => (Except.ok ((⟨[]⟩ : ResponseBeginBlock), a2.withCheck c) :
            Except String (ResponseBeginBlock × BaseApp))
        | some bb => (a2.withCheck c).runHook (fun ctx => bb ctx req)) =
      Except.map (fun x : ResponseBeginBlock × BaseApp => (x.1, x.2.withCheck c))
        (match a2.beginBlocker with
          | none => (Except.ok ((⟨[]⟩ : ResponseBeginBlock), a2) :
              Except String (ResponseBeginBlock × BaseApp))
          | some bb => a2.runHook (fun ctx => bb ctx req)) := by
    intro a2
    have hb : (a2.withCheck c).beginBlocker = a2.beginBlocker := rfl
    rw [hb]
    cases a2.beginBlocker with
    | none => rfl
    | some bb => exact runHook_withCheck a2 c _
  cases hd : a.deliverState with
  | none =>
    have hd2 : (a.withCheck c).deliverState = none := hd
    simp only [BaseApp.BeginBlock, hd, hd2]
    exact key { a.setDeliverState req.Header with valUpdates := [] }
  | some ds =>
    have hd2 : (a.withCheck c).deliverState = some ds := hd
    rw [BeginBlock_open a req ds hd, BeginBlock_open (a.withCheck c) req ds hd2]
    exact key { a with valUpdates := [] }

/-- `EndBlock` does not look at the check state and leaves it as it is. -/
theorem EndBlock_withCheck (a : BaseApp) (c : Option state) (req : RequestEndBlock) :
    (a.withCheck c).EndBlock req =
      (a.EndBlock req).map (fun x => (x.1, x.2.withCheck c)) := by
  have he : (a.withCheck c).endBlocker = a.endBlocker := rfl
  cases hh : a.endBlocker with
  | none => simp [BaseApp.EndBlock, he, hh, Except.map, BaseApp.withCheck]
  | some eb =>
    simp only [BaseApp.EndBlock, he, hh]
    exact runHook_withCheck a c _

/-- `Commit` does not look at the check state: it sets it anew. -/
theorem Commit_withCheck (a : BaseApp) (c : Option state) :
    (a.withCheck c).Commit = a.Commit := by
  cases hd : a.deliverState with
  | none =>
    have hd2 : (a.withCheck c).deliverState = none := hd
    simp [BaseApp.Commit, hd, hd2]
  | some ds =>
    have hd2 : (a.withCheck c).deliverState = some ds := hd
    rw [Commit_open a ds hd, Commit_open (a.withCheck c) ds hd2]
    rfl

/-- A call of the consensus connection gives the same response, and the same
engine up to the check state, whatever the check state was. -/
theorem call_withCheck (a : BaseApp) (c : Option state) (op : Op) (hop : op.isCheck = false) :
    ((a.withCheck c).call op).map (fun x => (x.1, x.2.withCheck none)) =
      (a.call op).map (fun x => (x.1, x.2.withCheck none)) := by
  cases op with
  | checkTx txBytes => simp [Op.isCheck] at hop
  | initChain req =>
    simp only [BaseApp.call, InitChain_withCheck]
    cases a.InitChain req <;> rfl
  | beginBlock req =>
    simp only [BaseApp.call, BeginBlock_withCheck]
    cases a.BeginBlock req <;> rfl
  | deliverTx txBytes =>
    simp only [BaseApp.call, DeliverTx_withCheck]
    rfl
  | endBlock req =>
    simp only [BaseApp.call, EndBlock_withCheck]
    cases a.EndBlock req <;> rfl
  | commit =>
    simp only [BaseApp.call, Commit_withCheck]

/-- `CheckTx` changes the engine in its check state only. -/
theorem CheckTx_withCheck_none (a : BaseApp) (txBytes : Bytes) :
    (a.CheckTx txBytes).2.1.withCheck none = a.withCheck none := by
  obtain ⟨hd, hv, -⟩ := CheckTx_frame a txBytes
  exact BaseApp.ext_fields _ _ (CheckTx_sameConfig a txBytes) rfl hd hv

/-- The response to a call is of the connection the call came on. -/
theorem call_resp_isCheck (a : BaseApp) (op : Op) (r : Resp) (x : BaseApp)
    (h : a.call op = .ok (r, x)) : r.isCheck = op.isCheck := by
  cases op with
  | initChain req =>
    cases hh : a.InitChain req with
    | error e => simp [BaseApp.call, hh] at h
    | ok v =>
      simp only [BaseApp.call, hh, Except.ok.injEq, Prod.mk.injEq] at h
      rw [← h.1]; rfl
  | beginBlock req =>
    cases hh : a.BeginBlock req with
    | error e => simp [BaseApp.call, hh] at h
    | ok v =>
      simp only [BaseApp.call, hh, Except.ok.injEq, Prod.mk.injEq] at h
      rw [← h.1]; rfl
  | checkTx txBytes =>
    simp only [BaseApp.call, Except.ok.injEq, Prod.mk.injEq] at h
    rw [← h.1]; rfl
  | deliverTx txBytes =>
    simp only [BaseApp.call, Except.ok.injEq, Prod.mk.injEq] at h
    rw [← h.1]; rfl
  | endBlock req =>
    cases hh : a.EndBlock req with
    | error e => simp [BaseApp.call, hh] at h
    | ok v =>
      simp only [BaseApp.call, hh, Except.ok.injEq, Prod.mk.injEq] at h
      rw [← h.1]; rfl
  | commit =>
    cases hh : a.Commit with
    | error e => simp [BaseApp.call, hh] at h
    | ok v =>
      simp only [BaseApp.call, hh, Except.ok.injEq, Prod.mk.injEq] at h
      rw [← h.1]; rfl

/-- The consensus view of a run depends neither on the check state nor on the
`CheckTx` calls interleaved: it is the consensus view of the run of the other
calls alone, on any engine that agrees up to the check state. -/
theorem calls_consensus (ops : List Op) : ∀ a b : BaseApp,
    a.withCheck none = b.withCheck none →
    (a.calls ops).map consensusView =
      (b.calls (ops.filter (fun op => !op.isCheck))).map consensusView := by
  induction ops with
  | nil =>
    intro a b hab
    simp [BaseApp.calls, Except.map, consensusView, hab]
  | cons op rest ih =>
    intro a b hab
    cases hop : op.isCheck with
    | true =>
      obtain ⟨txBytes, rfl⟩ : ∃ txBytes, op = .checkTx txBytes := by
        cases op <;> simp [Op.isCheck] at hop
        exact ⟨_, rfl⟩
      have h1 := ih (a.CheckTx txBytes).2.1 b ((CheckTx_withCheck_none a txBytes).trans hab)
      rw [List.filter_cons_of_neg (by simp [hop]), ← h1]
      simp only [BaseApp.calls, BaseApp.call]
      cases (a.CheckTx txBytes).2.1.calls rest <;>
        simp [Except.map, consensusView, Resp.isCheck, List.filter]
    | false =>
      have ha := call_withCheck a none op hop
      have hb := call_withCheck b none op hop
      rw [hab] at ha
      have hcall := ha.symm.trans hb
      rw [List.filter_cons_of_pos (by simp [hop])]
      cases hca : a.call op with
      | error e =>
        cases hcb : b.call op with
        | error e2 =>
          rw [hca, hcb] at hcall
          simp only [Except.map, Except.error.injEq] at hcall
          simp [BaseApp.calls, hca, hcb, Except.map, hcall]
        | ok w =>
          rw [hca, hcb] at hcall
          simp [Except.map] at hcall
      | ok v =>
        cases hcb : b.call op with
        | error e2 =>
          rw [hca, hcb] at hcall
          simp [Except.map] at hcall
        | ok w =>
          obtain ⟨r, a1⟩ := v
          obtain ⟨r2, b1⟩ := w
          rw [hca, hcb] at hcall
          simp only [Except.map, Except.ok.injEq, Prod.mk.injEq] at hcall
          obtain ⟨hr, hab1⟩ := hcall
          subst hr
          have h1 := ih a1 b1 hab1
          have hrc : r.isCheck = false := (call_resp_isCheck a op r a1 hca).trans hop
          simp only [BaseApp.calls, hca, hcb]
          cases hra : a1.calls rest with
          | error e =>
            rw [hra] at h1
            cases hrb : b1.calls (rest.filter (fun op => !op.isCheck)) with
            | error e2 =>
              rw [hrb] at h1
              simpa [Except.map] using h1
            | ok w2 => rw [hrb] at h1; simp [Except.map] at h1
          | ok v2 =>
            rw [hra] at h1
            cases hrb : b1.calls (rest.filter (fun op => !op.isCheck)) with
            | error e2 => rw [hrb] at h1; simp [Except.map] at h1
            | ok w2 =>
              rw [hrb] at h1
              simp only [Except.map, consensusView, Except.ok.injEq, Prod.mk.injEq] at h1 ⊢
              simp [List.filter, hrc, h1.1, h1.2]

/-- The commit hashes among the responses are those among the responses of the
consensus connection. -/
theorem commitData_filter (rs : List Resp) :
    commitData (rs.filter (fun r => !r.isCheck)) = commitData rs := by
  induction rs with
  | nil => rfl
  | cons r rest ih =>
    cases r
    case checkTx res =>
      rw [List.filter_cons_of_neg (by simp [Resp.isCheck]), ih]
      rfl
    all_goals
      rw [List.filter_cons_of_pos (by simp [Resp.isCheck])]
      simp only [commitData, ih]

/-- C22 (commit determinism).  Take two engines with the same configuration
(name, decoder, ante handler, router, hooks), the same root store, the same
deliver state and the same accumulated validator updates; their check states
may differ.  Drive them by two call sequences that are the same sequence of
`InitChain` / `BeginBlock` / `DeliverTx` / `EndBlock` / `Commit` calls with any
`CheckTx` calls interleaved into either.  Then the two runs look the same from
the consensus connection: either both end in the same panic, or both return,
with the same response to every consensus call (so the same outcome for every
`DeliverTx` and the same hash for every `Commit`) and with engines that agree
in everything but the check state (so the same last CommitID `{version, hash}`,
root store, deliver state and validator updates). -/
theorem commit_determinism (a b : BaseApp) (ops1 ops2 : List Op)
    (hconfig : a.SameConfig b)
    (hdeliver : a.deliverState = b.deliverState)
    (hval : a.valUpdates = b.valUpdates)
    (hsame : ops1.filter (fun op => !op.isCheck) = ops2.filter (fun op => !op.isCheck)) :
    (a.calls ops1).map consensusView = (b.calls ops2).map consensusView ∧
    (∀ rs1 a1 rs2 b1, a.calls ops1 = .ok (rs1, a1) → b.calls ops2 = .ok (rs2, b1) →
      rs1.filter (fun r => !r.isCheck) = rs2.filter (fun r => !r.isCheck) ∧
      commitData rs1 = commitData rs2 ∧
      a1.cms.lastCommitID = b1.cms.lastCommitID ∧
      a1.cms = b1.cms ∧ a1.deliverState = b1.deliverState ∧
      a1.valUpdates = b1.valUpdates) := by
  have hab : a.withCheck none = b.withCheck none :=
    BaseApp.ext_fields _ _ hconfig rfl hdeliver hval
  have h : (a.calls ops1).map consensusView = (b.calls ops2).map consensusView := by
    rw [calls_consensus ops1 a b hab, calls_consensus ops2 b b rfl, hsame]
  refine ⟨h, fun rs1 a1 rs2 b1 h1 h2 => ?_⟩
  rw [h1, h2] at h
  simp only [Except.map, consensusView, Except.ok.injEq, Prod.mk.injEq] at h
  obtain ⟨hrs, happ⟩ := h
  have hcms : a1.cms = b1.cms := by
    have := congrArg BaseApp.cms happ
    exact this
  have hds : a1.deliverState = b1.deliverState := by
    have := congrArg BaseApp.deliverState happ
    exact this
  have hvu : a1.valUpdates = b1.valUpdates := by
    have := congrArg BaseApp.valUpdates happ
    exact this
  refine ⟨hrs, ?_, by rw [hcms], hcms, hds, hvu⟩
  rw [← commitData_filter rs1, ← commitData_filter rs2, hrs]

/-- Two runs of the same block on the example engine, one from a stale check
state and with other `CheckTx` calls interleaved: the same commit hash and the
same last CommitID. -/
theorem commit_determinism_witness :
    ∃ rs1 a1 rs2 b1,
      (exApp none).calls [.deliverTx [1], .checkTx [2], .endBlock ⟨1⟩, .commit] =
        .ok (rs1, a1) ∧
      exStaleCheck.calls [.checkTx [1], .deliverTx [1], .endBlock ⟨1⟩, .checkTx [1], .commit] =
        .ok (rs2, b1) ∧
      commitData rs1 = commitData rs2 ∧ a1.cms.lastCommitID = b1.cms.lastCommitID := by
  have h := (commit_determinism (exApp none) exStaleCheck
    [.deliverTx [1], .checkTx [2], .endBlock ⟨1⟩, .commit]
    [.checkTx [1], .deliverTx [1], .endBlock ⟨1⟩, .checkTx [1], .commit]
    ⟨rfl, rfl, rfl, rfl, rfl, rfl, rfl, rfl⟩ rfl rfl rfl).2 _ _ _ _ rfl rfl
  exact ⟨_, _, _, _, rfl, rfl, h.2.1, h.2.2.1⟩

/-! ## The header of the first block -/

/-- Mutating the overlay of a state keeps the context of the deliver state. -/
theorem deliverCtx_setMS (app : BaseApp) (b : Bool) (ms : CacheMultiStore) :
    (app.setMS b ms).deliverCtx = app.deliverCtx := by
  cases b <;> cases h : app.deliverState <;> simp [BaseApp.deliverCtx, BaseApp.setMS, h]

/-- A deliver state whose context is `c` is a state `⟨ms, c⟩`. -/
theorem deliverCtx_eq_some (app : BaseApp) (c : Context) (h : app.deliverCtx = some c) :
    ∃ ms, app.deliverState = some ⟨ms, c⟩ := by
  cases hd : app.deliverState with
  | none => simp [BaseApp.deliverCtx, hd] at h
  | some ds =>
    obtain ⟨ms, c1⟩ := ds
    simp only [BaseApp.deliverCtx, hd, Option.map_some', Option.some.injEq] at h
    exact ⟨ms, by rw [h]⟩

/-- The ante step keeps the context of the deliver state. -/
theorem runAnte_deliverCtx (app : BaseApp) (b : Bool) (st : state) (ctx : Context) (tx : Tx) :
    (app.runAnte b st ctx tx).2.1.deliverCtx = app.deliverCtx := by
  cases ha : app.anteHandler with
  | none => simp [BaseApp.runAnte, ha]
  | some ante =>
    rcases h : (ante ctx tx).run app.cms.hasStore app.cms.data st.ms with ⟨out, ms1⟩
    cases out with
    | error r => simp [BaseApp.runAnte, ha, h, deliverCtx_setMS]
    | ok v =>
      obtain ⟨newCtx, result, abort⟩ := v
      cases abort <;> cases newCtx <;> simp [BaseApp.runAnte, ha, h, deliverCtx_setMS]

/-- The message step keeps the context of the deliver state. -/
theorem runMsg_deliverCtx (app : BaseApp) (b : Bool) (st : state) (ctx : Context) (msg : Msg) :
    (app.runMsg b st ctx msg).2.1.deliverCtx = app.deliverCtx := by
  cases hroute : app.router.Route msg.typ with
  | none => simp [BaseApp.runMsg, hroute]
  | some handler =>
    rcases hrun : (handler ctx msg).run app.cms.hasStore (st.ms.get app.cms.data)
      CacheMultiStore.empty with ⟨out, msCache⟩
    cases out with
    | error r => simp [BaseApp.runMsg, hroute, hrun]
    | ok result =>
      cases h : result.IsOK <;> simp [BaseApp.runMsg, hroute, hrun, h, deliverCtx_setMS]

/-- A call of `runTx` keeps the context of the deliver state. -/
theorem runTx_deliverCtx (app : BaseApp) (b : Bool) (txBytes : Bytes) (tx : Tx) :
    (app.runTx b txBytes tx).2.1.deliverCtx = app.deliverCtx := by
  cases hmsg : tx.GetMsg with
  | none => simp [BaseApp.runTx, hmsg]
  | some msg =>
    cases hvalid : msg.ValidateBasic with
    | some err => simp [BaseApp.runTx, hmsg, hvalid]
    | none =>
      cases hst : app.getState b with
      | none => simp [BaseApp.runTx, hmsg, hvalid, hst]
      | some st =>
        have hA := runAnte_deliverCtx app b st (st.ctx.WithTxBytes txBytes) tx
        rcases ha : app.runAnte b st (st.ctx.WithTxBytes txBytes) tx with ⟨out, app1, ev⟩
        rw [ha] at hA
        cases out with
        | aborted result => simpa [BaseApp.runTx, hmsg, hvalid, hst, ha] using hA
        | faulted r => simpa [BaseApp.runTx, hmsg, hvalid, hst, ha] using hA
        | proceed ctx1 =>
          obtain ⟨st1, hst1⟩ := runAnte_state_present app b st _ tx _ app1 ev hst ha
          rw [runTx_proceed app b txBytes tx msg st st1 ctx1 app1 ev hmsg hvalid hst ha hst1]
          exact (runMsg_deliverCtx app1 b st1 ctx1 msg).trans hA

/-- `CheckTx` keeps the context of the deliver state. -/
theorem CheckTx_deliverCtx (app : BaseApp) (txBytes : Bytes) :
    (app.CheckTx txBytes).2.1.deliverCtx = app.deliverCtx := by
  cases hdec : app.txDecoder txBytes with
  | error err => simp [BaseApp.CheckTx, hdec]
  | ok tx => simpa [BaseApp.CheckTx, hdec] using runTx_deliverCtx app true txBytes tx

/-- `DeliverTx` keeps the context of the deliver state. -/
theorem DeliverTx_deliverCtx (app : BaseApp) (txBytes : Bytes) :
    (app.DeliverTx txBytes).2.1.deliverCtx = app.deliverCtx := by
  cases hdec : app.txDecoder txBytes with
  | error err =>
    simp only [BaseApp.DeliverTx, hdec]
    split <;> rfl
  | ok tx =>
    have h := runTx_deliverCtx app false txBytes tx
    simp only [BaseApp.DeliverTx, hdec]
    split
    · exact h
    · exact h

/-- A block hook that returned keeps the context of the deliver state. -/
theorem runHook_deliverCtx {α : Type} (a : BaseApp) (hook : Context → Prog α) (x : α)
    (a1 : BaseApp) (h : a.runHook hook = .ok (x, a1)) : a1.deliverCtx = a.deliverCtx := by
  obtain ⟨ds, ms1, -, happ, -⟩ := runHook_ok a hook x a1 h
  rw [happ, deliverCtx_setMS]

/-- Every call but `Commit` keeps a deliver state that is bound to the empty
header bound to it: `BeginBlock` does not set a deliver state that exists, and
`InitChain` sets one for the empty header. -/
theorem call_deliverCtx (app : BaseApp) (op : Op) (r : Resp) (app1 : BaseApp)
    (hop : op ≠ Op.commit)
    (hctx : app.deliverCtx = some (NewContext Header.empty false []))
    (hcall : app.call op = .ok (r, app1)) :
    app1.deliverCtx = some (NewContext Header.empty false []) := by
  cases op with
  | commit => exact absurd rfl hop
  | checkTx txBytes =>
    simp only [BaseApp.call, Except.ok.injEq, Prod.mk.injEq] at hcall
    rw [← hcall.2, CheckTx_deliverCtx, hctx]
  | deliverTx txBytes =>
    simp only [BaseApp.call, Except.ok.injEq, Prod.mk.injEq] at hcall
    rw [← hcall.2, DeliverTx_deliverCtx, hctx]
  | initChain req =>
    cases hh : app.InitChain req with
    | error e => simp [BaseApp.call, hh] at hcall
    | ok a =>
      simp only [BaseApp.call, hh, Except.ok.injEq, Prod.mk.injEq] at hcall
      rw [← hcall.2]
      rcases InitChain_ok app req a hh with ⟨-, happ⟩ | ⟨ic, ms1, -, happ, -⟩
      · rw [happ, hctx]
      · rw [happ, deliverCtx_setMS]
        rfl
  | beginBlock req =>
    obtain ⟨ms, hds⟩ := deliverCtx_eq_some app _ hctx
    cases hh : app.BeginBlock req with
    | error e => simp [BaseApp.call, hh] at hcall
    | ok v =>
      obtain ⟨res, a⟩ := v
      simp only [BaseApp.call, hh, Except.ok.injEq, Prod.mk.injEq] at hcall
      rw [← hcall.2]
      rw [BeginBlock_open app req _ hds] at hh
      cases hb : app.beginBlocker with
      | none =>
        simp only [hb, Except.ok.injEq, Prod.mk.injEq] at hh
        rw [← hh.2]
        exact hctx
      | some bb =>
        simp only [hb] at hh
        rw [runHook_deliverCtx _ _ res a hh]
        exact hctx
  | endBlock req =>
    cases hh : app.EndBlock req with
    | error e => simp [BaseApp.call, hh] at hcall
    | ok v =>
      obtain ⟨res, a⟩ := v
      simp only [BaseApp.call, hh, Except.ok.injEq, Prod.mk.injEq] at hcall
      rw [← hcall.2]
      cases he : app.endBlocker with
      | none =>
        simp only [BaseApp.EndBlock, he, Except.ok.injEq, Prod.mk.injEq] at hh
        rw [← hh.2]
        exact hctx
      | some eb =>
        simp only [BaseApp.EndBlock, he] at hh
        rw [runHook_deliverCtx _ _ res a hh]
        exact hctx

/-- A sequence of calls without a `Commit` keeps a deliver state that is bound
to the empty header bound to it. -/
theorem calls_deliverCtx (ops : List Op) : ∀ (app : BaseApp) (rs : List Resp) (app1 : BaseApp),
    (∀ op ∈ ops, op ≠ Op.commit) →
    app.deliverCtx = some (NewContext Header.empty false []) →
    app.calls ops = .ok (rs, app1) →
    app1.deliverCtx = some (NewContext Header.empty false []) := by
  induction ops with
  | nil =>
    intro app rs app1 _ hctx hcalls
    simp only [BaseApp.calls, Except.ok.injEq, Prod.mk.injEq] at hcalls
    rw [← hcalls.2]
    exact hctx
  | cons op rest ih =>
    intro app rs app1 hno hctx hcalls
    cases hcall : app.call op with
    | error e => simp [BaseApp.calls, hcall] at hcalls
    | ok v =>
      obtain ⟨r, a⟩ := v
      cases hr : a.calls rest with
      | error e => simp [BaseApp.calls, hcall, hr] at hcalls
      | ok w =>
        obtain ⟨rs2, a2⟩ := w
        simp only [BaseApp.calls, hcall, hr, Except.ok.injEq, Prod.mk.injEq] at hcalls
        rw [← hcalls.2]
        exact ih a rs2 a2 (fun o ho => hno o (List.mem_cons_of_mem _ ho))
          (call_deliverCtx app op r a (hno op (List.mem_cons_self _ _)) hctx hcall) hr

/-- The ante step proceeds with the context it was given, unless the ante
handler handed back a context of its own. -/
theorem runAnte_proceed_ctx (app : BaseApp) (b : Bool) (st : state) (ctx ctx1 : Context)
    (tx : Tx) (app1 : BaseApp) (ev : List Event)
    (h : app.runAnte b st ctx tx = (.proceed ctx1, app1, ev)) :
    ctx1 = ctx ∨ ∃ ante r ms1, app.anteHandler = some ante ∧
      (ante ctx tx).run app.cms.hasStore app.cms.data st.ms = (.ok (some ctx1, r, false), ms1) := by
  cases ha : app.anteHandler with
  | none =>
    simp only [BaseApp.runAnte, ha, Prod.mk.injEq, AnteOutcome.proceed.injEq] at h
    exact Or.inl h.1.symm
  | some ante =>
    rcases hrun : (ante ctx tx).run app.cms.hasStore app.cms.data st.ms with ⟨out, ms1⟩
    cases out with
    | error r => simp [BaseApp.runAnte, ha, hrun] at h
    | ok v =>
      obtain ⟨newCtx, result, abort⟩ := v
      cases abort with
      | true => simp [BaseApp.runAnte, ha, hrun] at h
      | false =>
        cases newCtx with
        | none =>
          simp [BaseApp.runAnte, ha, hrun] at h
          exact Or.inl h.1.symm
        | some c =>
          simp [BaseApp.runAnte, ha, hrun] at h
          exact Or.inr ⟨ante, result, ms1, rfl, by rw [← h.1]; exact hrun⟩

/-- The counterexample to C31 as stated: on the example engine whose ante
handler hands back a context of its own, with a header of height 5, after
`InitChain`, `BeginBlock` for a header of height 1 and a delivery, the deliver
state is still bound to the empty header and the begin hook has recorded the
height 0 of the empty header, but the handler has recorded height 5: it was
not given the empty header. -/
theorem handler_sees_ante_context :
    ∃ app1 rs app3, exHeightsAnte.InitChain ⟨[], []⟩ = .ok app1 ∧
      app1.calls [.beginBlock ⟨[], ⟨"chain", 1, 0⟩⟩, .deliverTx [1]] = .ok (rs, app3) ∧
      app3.deliverCtx = some (NewContext Header.empty false []) ∧
      Header.empty.Height = 0 ∧
      app3.read false "main" [7] = some (some [0]) ∧
      app3.read false "main" [8] = some (some [5]) :=
  ⟨_, _, _, rfl, rfl, rfl, rfl, rfl, rfl⟩

/-- C31 (amended: BeginBlock never rebinds an existing deliver state; the
handler gets the context the ante step ends with).  Let `InitChain` have run
with an init hook, so that a deliver state bound to the empty header exists.
Then `BeginBlock(h)` keeps that state: it only resets the validator updates
and runs the optional begin hook, on the context of the empty header, over
the overlay the init hook left.  After that `BeginBlock` and any further calls
other than `Commit`, the deliver state is still bound to the empty header.  A
delivery hands the context of the empty header (with the transaction's bytes)
to the ante step, so the ante handler is given the empty header; the message
step, which calls the handler, gets that same context when there is no ante
handler or the ante handler hands back none, and otherwise the context the
ante handler handed back.  `Commit` returns and binds the new check state to
the empty header, whatever `h` was. -/
theorem BeginBlock_keeps_genesis_header (app app1 : BaseApp) (req : RequestInitChain)
    (ic : Context → RequestInitChain → Prog Unit) (reqB : RequestBeginBlock)
    (hic : app.initChainer = some ic) (hinit : app.InitChain req = .ok app1) :
    ∃ ms1, app1.deliverState = some ⟨ms1, NewContext Header.empty false []⟩ ∧
      app1.BeginBlock reqB =
        (match app1.beginBlocker with
          | none => .ok (⟨[]⟩, { app1 with valUpdates := [] })
          | some bb =>
            match (bb (NewContext Header.empty false []) reqB).run app1.cms.hasStore
              app1.cms.data ms1 with
            | (.error r, _) => .error r
            | (.ok res, ms2) =>
              .ok (res, ({ app1 with valUpdates := [] } : BaseApp).setMS false ms2)) ∧
      ∀ ops rs app3, (∀ op ∈ ops, op ≠ Op.commit) →
        app1.calls (.beginBlock reqB :: ops) = .ok (rs, app3) →
        ∃ ms3, app3.deliverState = some ⟨ms3, NewContext Header.empty false []⟩ ∧
          (∀ txBytes tx msg, tx.GetMsg = some msg → msg.ValidateBasic = none →
            app3.runTx false txBytes tx =
              (match app3.runAnte false ⟨ms3, NewContext Header.empty false []⟩
                  (NewContext Header.empty false txBytes) tx with
                | (.aborted result, a, ev) => (result, a, .validateBasic :: ev)
                | (.faulted r, a, ev) => (recovered r, a, .validateBasic :: ev)
                | (.proceed ctx1, a, ev) =>
                  match a.getState false with
                  | none => (recovered nilDeref, a, .validateBasic :: ev)
                  | some st1 =>
                    ((a.runMsg false st1 ctx1 msg).1, (a.runMsg false st1 ctx1 msg).2.1,
                      .validateBasic :: (ev ++ (a.runMsg false st1 ctx1 msg).2.2))) ∧
            ∀ ctx1 a ev, app3.runAnte false ⟨ms3, NewContext Header.empty false []⟩
                (NewContext Header.empty false txBytes) tx = (.proceed ctx1, a, ev) →
              (app3.anteHandler = none → ctx1 = NewContext Header.empty false txBytes) ∧
              (ctx1 = NewContext Header.empty false txBytes ∨
                ∃ ante r msA, app3.anteHandler = some ante ∧
                  (ante (NewContext Header.empty false txBytes) tx).run app3.cms.hasStore
                    app3.cms.data ms3 = (.ok (some ctx1, r, false), msA))) ∧
          ∃ resC app4, app3.Commit = .ok (resC, app4) ∧
            app4.checkState = some ⟨CacheMultiStore.empty, NewContext Header.empty true []⟩ ∧
            (reqB.Header ≠ Header.empty →
              ∀ cs, app4.checkState = some cs → cs.ctx.BlockHeader ≠ reqB.Header) := by
  rcases InitChain_ok app req app1 hinit with ⟨hn, -⟩ | ⟨ic2, ms1, -, happ, -⟩
  · rw [hn] at hic
    cases hic
  · have hds : app1.deliverState = some ⟨ms1, NewContext Header.empty false []⟩ := by
      rw [happ]
      rfl
    refine ⟨ms1, hds, ?_, ?_⟩
    · rw [BeginBlock_open app1 reqB _ hds]
      have key : ∀ o : Option (Context → RequestBeginBlock → Prog ResponseBeginBlock),
          (match o with
            | none => Except.ok ((⟨[]⟩ : ResponseBeginBlock), { app1 with valUpdates := [] })
            | some bb =>
              ({ app1 with valUpdates := [] } : BaseApp).runHook (fun ctx => bb ctx reqB)) =
          (match o with
            | none => .ok (⟨[]⟩, { app1 with valUpdates := [] })
            | some bb =>
              match (bb (NewContext Header.empty false []) reqB).run app1.cms.hasStore
                app1.cms.data ms1 with
              | (.error r, _) => .error r
              | (.ok res, ms2) =>
                .ok (res, ({ app1 with valUpdates := [] } : BaseApp).setMS false ms2)) := by
        intro o
        cases o with
        | none => rfl
        | some bb =>
          rcases hrun : (bb (NewContext Header.empty false []) reqB).run app1.cms.hasStore
            app1.cms.data ms1 with ⟨out, ms2⟩
          cases out <;> simp [BaseApp.runHook, hds, hrun]
      exact key app1.beginBlocker
    · intro ops rs app3 hno hcalls
      have hctx1 : app1.deliverCtx = some (NewContext Header.empty false []) := by
        simp [BaseApp.deliverCtx, hds]
      have hno2 : ∀ op ∈ Op.beginBlock reqB :: ops, op ≠ Op.commit := by
        intro op hop
        rcases List.mem_cons.mp hop with h | h
        · rw [h]
          exact fun h2 => Op.noConfusion h2
        · exact hno op h
      have hctx3 := calls_deliverCtx (.beginBlock reqB :: ops) app1 rs app3 hno2 hctx1 hcalls
      obtain ⟨ms3, hds3⟩ := deliverCtx_eq_some app3 _ hctx3
      refine ⟨ms3, hds3, ?_, ?_⟩
      · intro txBytes tx msg hmsg hvalid
        have hst : app3.getState false = some ⟨ms3, NewContext Header.empty false []⟩ := by
          simpa [BaseApp.getState] using hds3
        refine ⟨?_, fun ctx1 a ev hA => ?_⟩
        · rcases hA : app3.runAnte false ⟨ms3, NewContext Header.empty false []⟩
            (NewContext Header.empty false txBytes) tx with ⟨out, a, ev⟩
          have hA2 : app3.runAnte false ⟨ms3, NewContext Header.empty false []⟩
              ((NewContext Header.empty false []).WithTxBytes txBytes) tx = (out, a, ev) := hA
          cases out with
          | aborted result => simp [BaseApp.runTx, hmsg, hvalid, hst, hA2]
          | faulted r => simp [BaseApp.runTx, hmsg, hvalid, hst, hA2]
          | proceed ctx1 =>
            cases h1 : a.getState false with
            | none => simp [BaseApp.runTx, hmsg, hvalid, hst, hA2, h1]
            | some st1 => simp [BaseApp.runTx, hmsg, hvalid, hst, hA2, h1]
        · have hctx := runAnte_proceed_ctx app3 false _ _ ctx1 tx a ev hA
          refine ⟨fun hnone => ?_, hctx⟩
          rcases hctx with h | ⟨ante, r, msA, hante, -⟩
          · exact h
          · rw [hnone] at hante
            cases hante
      · obtain ⟨resC, app4, hC, hcs, -⟩ := Commit_open_reads app3 _ hds3
        refine ⟨resC, app4, hC, hcs, ?_⟩
        intro hne cs hcs2 heq
        rw [hcs] at hcs2
        have hempty : cs.ctx.BlockHeader = Header.empty := by
          rw [← Option.some.inj hcs2]
          rfl
        exact hne (heq.symm.trans hempty)

/-- On the example engine whose begin hook and handler record the height of the
header they are given: after `InitChain`, `BeginBlock` for a header of height 1,
a delivery and `EndBlock`, both have recorded height 0, the deliver state is
still bound to the empty header, and `Commit` binds the check state to the
empty header, not to the header of height 1. -/
theorem BeginBlock_keeps_genesis_header_witness :
    ∃ app1, exHeights.InitChain ⟨[], []⟩ = .ok app1 ∧
      ∃ rs app3,
        app1.calls [.beginBlock ⟨[], ⟨"chain", 1, 0⟩⟩, .deliverTx [1], .endBlock ⟨1⟩] =
          .ok (rs, app3) ∧
        app3.read false "main" [7] = some (some [0]) ∧
        app3.read false "main" [8] = some (some [0]) ∧
        (∃ ms3, app3.deliverState = some ⟨ms3, NewContext Header.empty false []⟩) ∧
        ∃ resC app4, app3.Commit = .ok (resC, app4) ∧
          app4.checkState = some ⟨CacheMultiStore.empty, NewContext Header.empty true []⟩ ∧
          ∀ cs, app4.checkState = some cs → cs.ctx.BlockHeader ≠ ⟨"chain", 1, 0⟩ := by
  obtain ⟨ms1, -, -, h⟩ := BeginBlock_keeps_genesis_header exHeights
    ((exHeights.setDeliverState Header.empty).setMS false
      (CacheMultiStore.empty.set "main" [1] [1]))
    ⟨[], []⟩ exInitChainer ⟨[], ⟨"chain", 1, 0⟩⟩ rfl rfl
  obtain ⟨ms3, hds3, -, resC, app4, hC, hcs, hne⟩ :=
    h [.deliverTx [1], .endBlock ⟨1⟩] _ _ (by decide) rfl
  exact ⟨_, rfl, _, _, rfl, rfl, rfl, ⟨ms3, hds3⟩, resC, app4, hC, hcs, hne (by decide)⟩

end Baseapp

/-! ## The transaction builder -/

namespace Txbuilder

/-- C23 (`TxBuilder.Build`).  `Build` returns an error if and only if the
builder's `ChainID` is empty or its `Fee` is non-empty and cannot be parsed as
a coin.  Otherwise it returns the sign message whose `ChainID`,
`AccountNumber`, `Sequence`, `Memo` and `Msgs` are the builder's fields and the
given messages, and whose fee is `NewStdFee` of the builder's `Gas` and the
parsed fee, the zero coin when `Fee` is empty. -/
theorem Build_error_iff (parseCoin : String → Except String Coin) (bldr : TxBuilder)
    (msgs : List Baseapp.Msg) :
    ((∃ e, bldr.Build parseCoin msgs = .error e) ↔
      (bldr.ChainID = "" ∨ (bldr.Fee ≠ "" ∧ ∃ e, parseCoin bldr.Fee = .error e))) ∧
    (bldr.ChainID ≠ "" → bldr.Fee = "" →
      bldr.Build parseCoin msgs = .ok
        { ChainID := bldr.ChainID, AccountNumber := bldr.AccountNumber,
          Sequence := bldr.Sequence, Memo := bldr.Memo, Msgs := msgs,
          Fee := NewStdFee bldr.Gas [Coin.zero] }) ∧
    (∀ fee, bldr.ChainID ≠ "" → bldr.Fee ≠ "" → parseCoin bldr.Fee = .ok fee →
      bldr.Build parseCoin msgs = .ok
        { ChainID := bldr.ChainID, AccountNumber := bldr.AccountNumber,
          Sequence := bldr.Sequence, Memo := bldr.Memo, Msgs := msgs,
          Fee := NewStdFee bldr.Gas [fee] }) := by
  refine ⟨?_, ?_, ?_⟩
  · by_cases hc : bldr.ChainID = ""
    · simp [TxBuilder.Build, hc]
    · by_cases hf : bldr.Fee = ""
      · simp [TxBuilder.Build, hc, hf]
      · cases hp : parseCoin bldr.Fee <;> simp [TxBuilder.Build, hc, hf, hp]
  · intro hc hf
    simp [TxBuilder.Build, hc, hf]
  · intro fee hc hf hp
    simp [TxBuilder.Build, hc, hf, hp]

/-- A builder without chain ID fails; one with a fee that parses builds the
message with that fee. -/
theorem Build_error_iff_witness :
    TxBuilder.Build exParseCoin ⟨1, 2, 200000, "", "memo", "1steak"⟩ [] =
      .error "chain ID required but not specified" ∧
    TxBuilder.Build exParseCoin ⟨1, 2, 200000, "test-chain", "memo", "1steak"⟩ [] =
      .ok ⟨"test-chain", 1, 2, ⟨[⟨"steak", 1⟩], 200000⟩, [], "memo"⟩ ∧
    ∃ e, TxBuilder.Build exParseCoin ⟨1, 2, 200000, "test-chain", "memo", "steak"⟩ [] =
      .error e :=
  ⟨rfl,
   ((Build_error_iff exParseCoin ⟨1, 2, 200000, "test-chain", "memo", "1steak"⟩ []).2.2
      ⟨"steak", 1⟩ (by decide) (by decide) rfl).trans rfl,
   (Build_error_iff exParseCoin ⟨1, 2, 200000, "test-chain", "memo", "steak"⟩ []).1.mpr
      (Or.inr ⟨by decide, _, rfl⟩)⟩

/-- C24 (`NewTxBuilderFromCLI`), what the code does: when the chain-id flag is
empty and reading the default chain ID succeeds (no error), the value read is
dropped and the returned `ChainID` is empty: the default is assigned only when
the read failed.  When the flag is not empty the returned `ChainID` is the
flag's value. -/
theorem NewTxBuilderFromCLI_chainID (flags : Flags) (d : String) :
    (flags.ChainID = "" → (NewTxBuilderFromCLI flags (d, none)).ChainID = "") ∧
    (∀ e, flags.ChainID = "" → (NewTxBuilderFromCLI flags (d, some e)).ChainID = d) ∧
    (∀ r, flags.ChainID ≠ "" → (NewTxBuilderFromCLI flags r).ChainID = flags.ChainID) := by
  refine ⟨fun h => ?_, fun e h => ?_, fun r h => ?_⟩
  · simp [NewTxBuilderFromCLI, h]
  · simp [NewTxBuilderFromCLI, h]
  · simp [NewTxBuilderFromCLI, h]

/-- With the flag empty and the default chain ID read as `test-chain` without
error, the builder's chain ID is empty, not `test-chain`. -/
theorem NewTxBuilderFromCLI_chainID_witness :
    (NewTxBuilderFromCLI ⟨"", 200000, 0, 0, "", ""⟩ ("test-chain", none)).ChainID = "" ∧
    (NewTxBuilderFromCLI ⟨"", 200000, 0, 0, "", ""⟩ ("test-chain", none)).ChainID ≠
      "test-chain" :=
  ⟨(NewTxBuilderFromCLI_chainID ⟨"", 200000, 0, 0, "", ""⟩ "test-chain").1 rfl, by decide⟩

end Txbuilder

/-! ## Validators -/

namespace Stake

/-- What `Validator.equal` returns when the receiver has a public key: a
Boolean, true exactly on agreement on every field but `BondHeight` and
`BondIntraTxCounter`. -/
theorem equal_iff (v c2 : Validator) (key : List Nat) (hkey : v.PubKey = some key) :
    (∃ b, v.equal c2 = .ok b) ∧
    (v.equal c2 = .ok true ↔
      (v.Status = c2.Status ∧ v.PubKey = c2.PubKey ∧ v.Address = c2.Address ∧
        v.PShares = c2.PShares ∧ v.DelegatorShares = c2.DelegatorShares ∧
        v.Description = c2.Description ∧ v.ProposerRewardPool = c2.ProposerRewardPool ∧
        v.Commission = c2.Commission ∧ v.CommissionMax = c2.CommissionMax ∧
        v.CommissionChangeRate = c2.CommissionChangeRate ∧
        v.CommissionChangeToday = c2.CommissionChangeToday ∧
        v.PrevBondedShares = c2.PrevBondedShares)) := by
  have hp : v.PShares.Equal c2.PShares = true ↔ v.PShares = c2.PShares := by
    rcases v.PShares with ⟨k1, a1⟩
    rcases c2.PShares with ⟨k2, a2⟩
    simp [PoolShares.Equal]
  have hk : PubKeyEquals key c2.PubKey = true ↔ some key = c2.PubKey := by
    simp only [PubKeyEquals, beq_iff_eq]
    exact eq_comm
  by_cases hs : v.Status = c2.Status
  · refine ⟨⟨_, by simp only [Validator.equal, hs, hkey, if_true]; rfl⟩, ?_⟩
    simp only [Validator.equal, hs, hkey, if_true, Except.ok.injEq, Bool.and_eq_true,
      beq_iff_eq, decide_eq_true_eq, hp, hk]
    tauto
  · refine ⟨⟨false, by simp [Validator.equal, hs]⟩, ?_⟩
    simp [Validator.equal, hs]

/-- The counterexample to C25 as stated: a validator made by `NewValidator`
with no public key agrees with itself on every compared field, and yet `equal`
does not return true on the pair: the call of `Equals` on the nil key panics. -/
theorem equal_panics_without_key :
    (NewValidator [1] none ⟨"a", "", "", ""⟩).equal (NewValidator [1] none ⟨"a", "", "", ""⟩) =
      .error Baseapp.nilDeref ∧
    (NewValidator [1] none ⟨"a", "", "", ""⟩).equal (NewValidator [1] none ⟨"a", "", "", ""⟩) ≠
      .ok true := by
  have h : (NewValidator [1] none ⟨"a", "", "", ""⟩).equal
      (NewValidator [1] none ⟨"a", "", "", ""⟩) = .error Baseapp.nilDeref := rfl
  refine ⟨h, ?_⟩
  rw [h]
  exact fun h2 => Except.noConfusion h2

/-- C25 (amended: `Validator.equal` compares only the vitals, for a receiver
that has a public key).  When the receiver `v` has a public key, `equal`
returns, and returns true exactly when the two validators agree on `Status`,
`PubKey`, `Address`, `PShares`, `DelegatorShares`, `Description`,
`ProposerRewardPool`, the four commission fields and `PrevBondedShares`: such
validators are equal whatever their `BondHeight` and `BondIntraTxCounter` are,
and validators that differ in one of these fields are reported unequal.
Whatever the keys, `BondHeight` and `BondIntraTxCounter` never change the
outcome, and validators of different `Status` are reported unequal.  When the
receiver has no public key and the statuses agree, the call panics. -/
theorem equal_only_vitals (v c2 : Validator) :
    (∀ key, v.PubKey = some key →
      (v.equal c2 = .ok true ↔
        (v.Status = c2.Status ∧ v.PubKey = c2.PubKey ∧ v.Address = c2.Address ∧
          v.PShares = c2.PShares ∧ v.DelegatorShares = c2.DelegatorShares ∧
          v.Description = c2.Description ∧ v.ProposerRewardPool = c2.ProposerRewardPool ∧
          v.Commission = c2.Commission ∧ v.CommissionMax = c2.CommissionMax ∧
          v.CommissionChangeRate = c2.CommissionChangeRate ∧
          v.CommissionChangeToday = c2.CommissionChangeToday ∧
          v.PrevBondedShares = c2.PrevBondedShares)) ∧
      (∀ h n : Int, v.equal { v with BondHeight := h, BondIntraTxCounter := n } = .ok true) ∧
      ((v.Status ≠ c2.Status ∨ v.PubKey ≠ c2.PubKey ∨ v.Address ≠ c2.Address ∨
          v.PShares ≠ c2.PShares ∨ v.DelegatorShares ≠ c2.DelegatorShares ∨
          v.Description ≠ c2.Description ∨ v.ProposerRewardPool ≠ c2.ProposerRewardPool ∨
          v.Commission ≠ c2.Commission ∨ v.CommissionMax ≠ c2.CommissionMax ∨
          v.CommissionChangeRate ≠ c2.CommissionChangeRate ∨
          v.CommissionChangeToday ≠ c2.CommissionChangeToday ∨
          v.PrevBondedShares ≠ c2.PrevBondedShares) → v.equal c2 = .ok false)) ∧
    (∀ h1 h2 n1 n2 : Int,
      v.equal c2 = ({ v with BondHeight := h1, BondIntraTxCounter := n1 } : Validator).equal
        { c2 with BondHeight := h2, BondIntraTxCounter := n2 }) ∧
    (v.Status ≠ c2.Status → v.equal c2 = .ok false) ∧
    (v.PubKey = none → v.Status = c2.Status → v.equal c2 = .error Baseapp.nilDeref) := by
  refine ⟨fun key hkey => ⟨(equal_iff v c2 key hkey).2, fun h n => ?_, fun hne => ?_⟩,
    fun h1 h2 n1 n2 => rfl, fun hs => ?_, fun hkey hs => ?_⟩
  · rw [(equal_iff v _ key hkey).2]
    exact ⟨rfl, rfl, rfl, rfl, rfl, rfl, rfl, rfl, rfl, rfl, rfl, rfl⟩
  · obtain ⟨⟨b, hb⟩, hiff⟩ := equal_iff v c2 key hkey
    cases b with
    | false => exact hb
    | true =>
      obtain ⟨e1, e2, e3, e4, e5, e6, e7, e8, e9, e10, e11, e12⟩ := hiff.mp hb
      rcases hne with h | h | h | h | h | h | h | h | h | h | h | h
      all_goals exact absurd (by assumption) h
  · simp [Validator.equal, hs]
  · simp [Validator.equal, hs, hkey]

/-- A new validator with a key equals itself bonded at another height, and
does not equal one with another public key or with none. -/
theorem equal_only_vitals_witness :
    (NewValidator [1] (some [2]) ⟨"a", "", "", ""⟩).equal
      { NewValidator [1] (some [2]) ⟨"a", "", "", ""⟩ with
        BondHeight := 7, BondIntraTxCounter := 3 } = .ok true ∧
    (NewValidator [1] (some [2]) ⟨"a", "", "", ""⟩).equal
      (NewValidator [1] (some [3]) ⟨"a", "", "", ""⟩) = .ok false ∧
    (NewValidator [1] (some [2]) ⟨"a", "", "", ""⟩).equal
      (NewValidator [1] none ⟨"a", "", "", ""⟩) = .ok false :=
  ⟨((equal_only_vitals (NewValidator [1] (some [2]) ⟨"a", "", "", ""⟩)
      (NewValidator [1] (some [2]) ⟨"a", "", "", ""⟩)).1 [2] rfl).2.1 7 3,
   ((equal_only_vitals (NewValidator [1] (some [2]) ⟨"a", "", "", ""⟩)
      (NewValidator [1] (some [3]) ⟨"a", "", "", ""⟩)).1 [2] rfl).2.2
      (Or.inr (Or.inl (by decide))),
   ((equal_only_vitals (NewValidator [1] (some [2]) ⟨"a", "", "", ""⟩)
      (NewValidator [1] none ⟨"a", "", "", ""⟩)).1 [2] rfl).2.2
      (Or.inr (Or.inl (by decide)))⟩

/-- The counterexample to C27 as stated.  With a pool whose conversion to
bonded shares divides by a bonded exchange rate of zero, the exchange rate of
a validator with 2 delegator shares does not return: the conversion panics.
And with a zero test that reads the numerator through a 64-bit integer, a
validator with `2 ^ 64` delegator shares, which is not zero, and 3 bonded
shares gets the rate one, which is not 3 divided by `2 ^ 64`. -/
theorem DelegatorShareExRate_not_total :
    ({ NewValidator [1] (some [2]) ⟨"a", "", "", ""⟩ with
        PShares := ⟨.ShareUnbonded, 3⟩, DelegatorShares := 2 } : Validator).DelegatorShareExRate
      exRatOps exRatePoolOps 0 = .error "division by zero" ∧
    ({ NewValidator [1] (some [2]) ⟨"a", "", "", ""⟩ with
        PShares := ⟨.ShareBonded, 3⟩,
        DelegatorShares := 18446744073709551616 } : Validator).DelegatorShareExRate
      exRatOps64 exPoolOps 10 = .ok 1 ∧
    (18446744073709551616 : ℚ) ≠ 0 ∧ (3 : ℚ) / 18446744073709551616 ≠ 1 := by
  refine ⟨?_, ?_, by norm_num, by norm_num⟩
  · simp [Validator.DelegatorShareExRate, NewValidator, exRatOps, exRatePoolOps]
  · simp [Validator.DelegatorShareExRate, NewValidator, exRatOps64]

/-- C27 (amended: `DelegatorShareExRate` is guarded, and returns when its
callees do).  For every validator and pool: when `IsZero` holds of the
validator's `DelegatorShares` the rate is exactly one, and neither the
conversion nor the division is reached.  Otherwise the pool shares are
converted with `ToBonded`; when that panics the call panics, and when it
returns the rate is `Quo` of the bonded amount by `DelegatorShares`, so the
division only ever gets a divisor that `IsZero` reports as not zero.  So a
rate that is returned is one or that quotient; and where `Quo` returns on
every such divisor, the call returns exactly when `IsZero` holds or `ToBonded`
returns.  A validator made by `NewValidator` has `DelegatorShares` zero, so
its rate is one against any pool when `IsZero` holds of zero. -/
theorem DelegatorShareExRate_guarded {Pool : Type} (rat : RatOps) (ops : PoolOps Pool)
    (v : Validator) (p : Pool) :
    (rat.IsZero v.DelegatorShares = true → v.DelegatorShareExRate rat ops p = .ok 1) ∧
    (rat.IsZero v.DelegatorShares = false →
      (∀ r, ops.toBonded v.PShares p = .error r →
        v.DelegatorShareExRate rat ops p = .error r) ∧
      (∀ bonded, ops.toBonded v.PShares p = .ok bonded →
        v.DelegatorShareExRate rat ops p = rat.Quo bonded.Amount v.DelegatorShares)) ∧
    (∀ r, v.DelegatorShareExRate rat ops p = .ok r →
      (rat.IsZero v.DelegatorShares = true ∧ r = 1) ∨
      (rat.IsZero v.DelegatorShares = false ∧ ∃ bonded,
        ops.toBonded v.PShares p = .ok bonded ∧
        rat.Quo bonded.Amount v.DelegatorShares = .ok r)) ∧
    ((∀ a b, rat.IsZero b = false → ∃ r, rat.Quo a b = .ok r) →
      ((∃ r, v.DelegatorShareExRate rat ops p = .ok r) ↔
        (rat.IsZero v.DelegatorShares = true ∨
          ∃ bonded, ops.toBonded v.PShares p = .ok bonded))) ∧
    (rat.IsZero 0 = true → ∀ address pubKey description,
      (NewValidator address pubKey description).DelegatorShareExRate rat ops p = .ok 1) := by
  have h0 : rat.IsZero v.DelegatorShares = true → v.DelegatorShareExRate rat ops p = .ok 1 := by
    intro h
    simp [Validator.DelegatorShareExRate, h]
  have he : rat.IsZero v.DelegatorShares = false → ∀ r, ops.toBonded v.PShares p = .error r →
      v.DelegatorShareExRate rat ops p = .error r := by
    intro h r hr
    simp [Validator.DelegatorShareExRate, h, hr]
  have h1 : rat.IsZero v.DelegatorShares = false → ∀ bonded,
      ops.toBonded v.PShares p = .ok bonded →
      v.DelegatorShareExRate rat ops p = rat.Quo bonded.Amount v.DelegatorShares := by
    intro h bonded hb
    simp [Validator.DelegatorShareExRate, h, hb]
  refine ⟨h0, fun h => ⟨he h, h1 h⟩, fun r hr => ?_, fun hq => ⟨fun ⟨r, hr⟩ => ?_, fun h => ?_⟩,
    fun hz address pubKey description => ?_⟩
  · cases hz : rat.IsZero v.DelegatorShares with
    | true =>
      rw [h0 hz] at hr
      exact Or.inl ⟨rfl, (Except.ok.inj hr).symm⟩
    | false =>
      cases hb : ops.toBonded v.PShares p with
      | error e =>
        rw [he hz e hb] at hr
        cases hr
      | ok bonded =>
        rw [h1 hz bonded hb] at hr
        exact Or.inr ⟨rfl, bonded, rfl, hr⟩
  · cases hz : rat.IsZero v.DelegatorShares with
    | true => exact Or.inl rfl
    | false =>
      cases hb : ops.toBonded v.PShares p with
      | error e =>
        rw [he hz e hb] at hr
        cases hr
      | ok bonded => exact Or.inr ⟨bonded, rfl⟩
  · cases hz : rat.IsZero v.DelegatorShares with
    | true => exact ⟨1, h0 hz⟩
    | false =>
      rcases h with h | ⟨bonded, hb⟩
      · rw [hz] at h
        cases h
      · obtain ⟨r, hr⟩ := hq bonded.Amount v.DelegatorShares hz
        exact ⟨r, (h1 hz bonded hb).trans hr⟩
  · simp [Validator.DelegatorShareExRate, NewValidator, hz]

/-- With exact arithmetic and a pool that trades shares one for one: a
validator with 3 bonded pool shares and 2 delegator shares has exchange rate
3/2, and a new validator has rate one. -/
theorem DelegatorShareExRate_guarded_witness :
    ({ NewValidator [1] (some [2]) ⟨"a", "", "", ""⟩ with
        PShares := ⟨.ShareBonded, 3⟩, DelegatorShares := 2 } : Validator).DelegatorShareExRate
      exRatOps exPoolOps 10 = .ok (3 / 2) ∧
    (NewValidator [1] (some [2]) ⟨"a", "", "", ""⟩).DelegatorShareExRate exRatOps exPoolOps 10 =
      .ok 1 :=
  ⟨(((DelegatorShareExRate_guarded exRatOps exPoolOps
        ({ NewValidator [1] (some [2]) ⟨"a", "", "", ""⟩ with
          PShares := ⟨.ShareBonded, 3⟩, DelegatorShares := 2 } : Validator) 10).2.1
      (by simp [exRatOps, NewValidator])).2 ⟨.ShareBonded, 3⟩ rfl).trans
      (by simp [exRatOps]),
   (DelegatorShareExRate_guarded exRatOps exPoolOps
      (NewValidator [1] (some [2]) ⟨"a", "", "", ""⟩) 10).2.2.2.2 (by simp [exRatOps])
      [1] (some [2]) ⟨"a", "", "", ""⟩⟩

/-- C28 (`UpdateSharesLocation` changes nothing when nothing needs switching).
For every pool, its operations and every validator whose share kind already
matches its bond status (`ShareUnbonded` with `Unbonded`, `ShareUnbonding` with
`Unbonding`, `ShareBonded` with `Bonded`), `UpdateSharesLocation` returns the
validator and the pool unchanged; on a validator made by `NewValidator` it is
the identity. -/
theorem UpdateSharesLocation_noop {Pool : Type} (ops : PoolOps Pool) (v : Validator) (p : Pool) :
    (v.PShares.Kind = .ShareUnbonded → v.Status = .Unbonded →
      v.UpdateSharesLocation ops p = (v, p)) ∧
    (v.PShares.Kind = .ShareUnbonding → v.Status = .Unbonding →
      v.UpdateSharesLocation ops p = (v, p)) ∧
    (v.PShares.Kind = .ShareBonded → v.Status = .Bonded →
      v.UpdateSharesLocation ops p = (v, p)) ∧
    (∀ address pubKey description,
      (NewValidator address pubKey description).UpdateSharesLocation ops p =
        (NewValidator address pubKey description, p)) := by
  refine ⟨fun hk hs => ?_, fun hk hs => ?_, fun hk hs => ?_, fun _ _ _ => rfl⟩
  · simp [Validator.UpdateSharesLocation, hk, hs]
  · simp [Validator.UpdateSharesLocation, hk, hs]
  · simp [Validator.UpdateSharesLocation, hk, hs]

/-- A bonded validator with bonded shares stays as it is, and so does the
pool; an unbonded validator with bonded shares is moved. -/
theorem UpdateSharesLocation_noop_witness :
    ({ NewValidator [1] (some [2]) ⟨"a", "", "", ""⟩ with
        Status := .Bonded, PShares := ⟨.ShareBonded, 3⟩ } : Validator).UpdateSharesLocation
      exPoolOps 10 =
        ({ NewValidator [1] (some [2]) ⟨"a", "", "", ""⟩ with
          Status := .Bonded, PShares := ⟨.ShareBonded, 3⟩ }, 10) ∧
    (({ NewValidator [1] (some [2]) ⟨"a", "", "", ""⟩ with
        PShares := ⟨.ShareBonded, 3⟩ } : Validator).UpdateSharesLocation
      exPoolOps 10).1.PShares.Kind = .ShareUnbonded :=
  ⟨(UpdateSharesLocation_noop exPoolOps ({ NewValidator [1] (some [2]) ⟨"a", "", "", ""⟩ with
      Status := .Bonded, PShares := ⟨.ShareBonded, 3⟩ } : Validator) 10).2.2.1 rfl rfl, rfl⟩

end Stake

/-! ## The signatures middleware -/

namespace Stack

/-- C26 (signatures middleware).  For every transaction that does not unwrap to
a `Signed` layer, `CheckTx` and `DeliverTx` both return the `Unauthorized` error
with an empty Result, leave the store alone and never call the next handler.
For a `Signed` transaction whose `Signers()` succeeds with the keys `sigs`, the
next handler is called exactly once, with the inner transaction (`Next()`) and
the context extended with exactly the permissions `SigPerm(address(s))` of the
signers `s`, in signer order, and what it returns is returned unchanged. -/
theorem Signatures_middleware (ctx : Context) (store : Store) (next : Next) :
    (∀ tx, (∀ sigs err tnext, tx ≠ .signed sigs err tnext) →
      CheckTx ctx store tx next = ((Result.empty, some Unauthorized), store, []) ∧
      DeliverTx ctx store tx next = ((Result.empty, some Unauthorized), store, [])) ∧
    (∀ sigs tnext,
      CheckTx ctx store (.signed sigs none tnext) next =
        ((next (ctx.WithPermissions (sigs.map (fun s => SigPerm s.Address))) store tnext).1,
          (next (ctx.WithPermissions (sigs.map (fun s => SigPerm s.Address))) store tnext).2,
          [(ctx.WithPermissions (sigs.map (fun s => SigPerm s.Address)), tnext)]) ∧
      DeliverTx ctx store (.signed sigs none tnext) next =
        ((next (ctx.WithPermissions (sigs.map (fun s => SigPerm s.Address))) store tnext).1,
          (next (ctx.WithPermissions (sigs.map (fun s => SigPerm s.Address))) store tnext).2,
          [(ctx.WithPermissions (sigs.map (fun s => SigPerm s.Address)), tnext)]) ∧
      (ctx.WithPermissions (sigs.map (fun s => SigPerm s.Address))).perms =
        ctx.perms ++ sigs.map (fun s => SigPerm s.Address) ∧
      (sigs.map (fun s => SigPerm s.Address)).length = sigs.length) := by
  refine ⟨fun tx hns => ?_, fun sigs tnext => ⟨rfl, rfl, rfl, by simp⟩⟩
  cases tx with
  | zero => exact ⟨rfl, rfl⟩
  | other payload => exact ⟨rfl, rfl⟩
  | signed sigs err tnext => exact absurd rfl (hns sigs err tnext)

/-- An unsigned transaction is turned away without a call to the next handler;
a transaction signed by two keys reaches it once, with the two permissions in
signer order added to the one the context had. -/
theorem Signatures_middleware_witness :
    CheckTx ⟨"chain", [⟨"role", [9]⟩]⟩ (fun _ => none) (.other [1]) exNext =
      ((Result.empty, some Unauthorized), (fun _ => none), []) ∧
    (DeliverTx ⟨"chain", [⟨"role", [9]⟩]⟩ (fun _ => none)
      (.signed [⟨[1], [11]⟩, ⟨[2], [22]⟩] none (.other [1])) exNext).1 =
        (⟨[3], "ok"⟩, none) ∧
    (DeliverTx ⟨"chain", [⟨"role", [9]⟩]⟩ (fun _ => none)
      (.signed [⟨[1], [11]⟩, ⟨[2], [22]⟩] none (.other [1])) exNext).2.2 =
        [(⟨"chain", [⟨"role", [9]⟩, ⟨"sigs", [11]⟩, ⟨"sigs", [22]⟩]⟩, .other [1])] :=
  ⟨((Signatures_middleware ⟨"chain", [⟨"role", [9]⟩]⟩ (fun _ => none) exNext).1 (.other [1])
      (fun _ _ _ h => by cases h)).1,
   (congrArg (fun x => x.1) ((Signatures_middleware ⟨"chain", [⟨"role", [9]⟩]⟩ (fun _ => none)
      exNext).2 [⟨[1], [11]⟩, ⟨[2], [22]⟩] (.other [1])).2.1).trans rfl,
   (congrArg (fun x => x.2.2) ((Signatures_middleware ⟨"chain", [⟨"role", [9]⟩]⟩ (fun _ => none)
      exNext).2 [⟨[1], [11]⟩, ⟨[2], [22]⟩] (.other [1])).2.1).trans rfl⟩

end Stack
